import Mathlib

/-!
Embedded Invaders: the `eetg` text-game engine.

A shallow embedding of `src/eetg.c` and `src/eetg.h`, and a verification of the
collision detector, of the double-buffered renderer, of the membership calls and of the
random number generator; and an embedding of the functions of the game `src/ei.c` that
choose the firing alien, kill an alien and drive the frame counter.

Conventions of the embedding:

* C `int` and `int8_t` values are Lean `Int`s.  Every sum the engine forms from
  `int8_t` operands is evaluated in `int` and stays far below the `int` range, so no
  wrap-around is modelled there; where a sum is stored back into an `int8_t` field,
  the narrowing is the function `to_int8`.
* C `char` is a signed 8-bit integer (the engine relies on it: the sentinel `-1` of
  `eetg_object_get_cell` is returned through a `char` and tested with `<= 0`).  A
  character is the `Int` value of that byte; `' '` is `32` and the line break is `10`.
* A sprite is the list of the characters of the C string, its terminating NUL
  excluded; reading the string at its length yields the NUL, `0`.
* A failed `assert` is the result `none`.
* A pointer into an array is the checked index; loads and stores through it are the
  functions `load` and `store`.
* The intrusive member list of a world (`world->objects`, `object->next`) is the Lean
  list of its members, head first; a struct carries its address, by which pointers to
  it are compared.
* The collision handler is a callback that returns without changing the engine's
  memory; what is recorded of it is the list of its calls.  Where a handler that calls
  the engine matters, the scan is embedded a second time over the memory of the
  program (`eetg_world_scan_collisions_with`), the handler being a function on that
  memory and the loop being bounded by a number of iterations.
* The output sink `write_fn` is recorded by the world: the field `written` holds every
  buffer passed to it, oldest first.
* A member list holds every struct once, as a chain of `next` pointers does; the
  struct of an object that is passed to a call is the one the member list holds at its
  address.  A program's memory is a world and the structs of the objects that are not
  linked in it, and a call passes an object by its address.
* The state `eetg_rand_next` of the generator is an `unsigned int` of 32 bits, a `Nat`
  below `2 ^ 32`; the functions of the generator take the state and return the new one.
* The game refers to its objects by address, their structs being held by the memory of
  the engine model; the arms of `ei_game_process` for a prepared and a running game
  are a parameter of the model.
-/

namespace Eetg

/-! ## Constants of `eetg.h` and `eetg.c` -/

def EETG_COLUMNS : Nat := 80
def EETG_ROWS : Nat := 24

def EETG_COLOR_BLACK : Int := 0
def EETG_COLOR_RED : Int := 1
def EETG_COLOR_GREEN : Int := 2
def EETG_COLOR_YELLOW : Int := 3
def EETG_COLOR_BLUE : Int := 4
def EETG_COLOR_MAGENTA : Int := 5
def EETG_COLOR_CYAN : Int := 6
def EETG_COLOR_WHITE : Int := 7

def EETG_BG_COLOR : Int := EETG_COLOR_BLACK
def EETG_FG_COLOR : Int := EETG_COLOR_WHITE

/-- The character `' '`. -/
def SPACE : Int := 32

/-- The character `'\n'`. -/
def NEWLINE : Int := 10

/-- The characters of a string literal, as C `char` values. -/
def chars (s : String) : List Int := s.toList.map (fun c => (c.toNat : Int))

/-! ## Objects -/

/-- Source: `struct eetg_object`.  `address` is the address of the struct, the identity
of the object; `world` is the address of the owning world, `none` for `NULL`; the link
`next` is the order of the member list of that world.  The defaults are the values
`eetg_object_init` stores. -/
structure eetg_object where
  address : Nat := 0
  world : Option Nat := none
  sprite : List Int
  color : Int := 7
  type : Int := 0
  x : Int := 0
  y : Int := 0
  width : Int
  height : Int
deriving DecidableEq, Repr

/-- The C expression `sprite[index]` for `index >= 0`: the character stored at `index`;
the byte at the length of the string is its terminating NUL. -/
def sprite_at (sprite : List Int) (index : Int) : Int :=
  sprite.getD index.toNat 0

/-- Source: `eetg_object_get_cell`.  The remainder `x % object->width` is only taken
for `0 <= x < width`, where the C remainder and the Lean one agree.  The differences
`x - object->x` and `y - object->y` are the exact ones: the engine passes coordinates
that are sums of 8-bit fields, for which the `int` subtraction cannot overflow. -/
def eetg_object_get_cell (object : eetg_object) (x y : Int) : Int :=
  let x := x - object.x
  let y := y - object.y
  if x < 0 ∨ x ≥ object.width ∨ y < 0 ∨ y ≥ object.height then
    -1
  else
    ((object.width + 1) * y) + (x % object.width)

/-- Source: `eetg_object_get_char`. -/
def eetg_object_get_char (object : eetg_object) (x y : Int) : Int :=
  let index := eetg_object_get_cell object x y
  if index = -1 then
    index
  else
    sprite_at object.sprite index

/-! ## Collision detection -/

/-- What the scan of one column of the intersection rectangle ends in: the function
returned (with the handler calls it made, as the coordinates passed), or the inner
loop ran to its end. -/
inductive column_scan where
  | returned (calls : List (Int × Int))
  | finished
deriving DecidableEq, Repr

/-- The inner loop `for (int j = ...; j <= ybr; j++)` of `eetg_object_check_collision`,
at column `i`, from row `j`, with `count` rows left. -/
def check_collision_rows (object1 object2 : eetg_object) (i : Int) :
    Int → Nat → column_scan
  | _, 0 => column_scan.finished
  | j, count + 1 =>
    let c1 := eetg_object_get_char object1 i j
    let c2 := eetg_object_get_char object2 i j
    if c1 ≤ 0 ∨ c2 ≤ 0 then
      column_scan.returned []
    else if c1 = SPACE ∨ c2 = SPACE then
      check_collision_rows object1 object2 i (j + 1) count
    else
      column_scan.returned [(i, j)]

/-- The outer loop `for (int i = ...; i <= xbr; i++)` of `eetg_object_check_collision`,
from column `i`, with `count` columns left; the result is the list of handler calls. -/
def check_collision_columns (object1 object2 : eetg_object) (ytl : Int) (rows : Nat) :
    Int → Nat → List (Int × Int)
  | _, 0 => []
  | i, count + 1 =>
    match check_collision_rows object1 object2 i ytl rows with
    | column_scan.returned calls => calls
    | column_scan.finished =>
      check_collision_columns object1 object2 ytl rows (i + 1) count

/-- Source: `eetg_object_check_collision`.  The result is `none` when an assertion
fails, and otherwise the handler calls made, each as the pair `(x, y)` passed to the
handler (its other arguments are always `object1`, `object2` and the registered
argument). -/
def eetg_object_check_collision (object1 object2 : eetg_object) :
    Option (List (Int × Int)) :=
  let o1xbr := object1.x + object1.width - 1
  let o1ybr := object1.y + object1.height - 1
  let o2xbr := object2.x + object2.width - 1
  let o2ybr := object2.y + object2.height - 1
  if object2.x > o1xbr ∨ object1.x > o2xbr ∨ object2.y > o1ybr ∨ object1.y > o2ybr then
    some []
  else
    let xtl := if object1.x > object2.x then object1.x else object2.x
    let ytl := if object1.y > object2.y then object1.y else object2.y
    let xbr := if o1xbr < o2xbr then o1xbr else o2xbr
    let ybr := if o1ybr < o2ybr then o1ybr else o2ybr
    if ¬ (xtl ≤ xbr) then none
    else if ¬ (ytl ≤ ybr) then none
    else
      some (check_collision_columns object1 object2 ytl (ybr + 1 - ytl).toNat
        xtl (xbr + 1 - xtl).toNat)

/-! ## Vocabulary of the collision claims -/

/-- The cell `(px, py)` lies in the bounding box of the object, the closed intervals
`[x, x + width - 1]` by `[y, y + height - 1]`. -/
def in_box (o : eetg_object) (px py : Int) : Prop :=
  o.x ≤ px ∧ px ≤ o.x + o.width - 1 ∧ o.y ≤ py ∧ py ≤ o.y + o.height - 1

instance (o : eetg_object) (px py : Int) : Decidable (in_box o px py) := by
  unfold in_box; infer_instance

/-- The bounding boxes of the two objects have a cell in common. -/
def boxes_intersect (a b : eetg_object) : Prop :=
  ∃ px py : Int, in_box a px py ∧ in_box b px py

/-- The glyph the sprite text shows at the grid cell `(px, py)`: the character of
line `py - y` of the text at position `px - x`, every line being `width` characters
and a line break. -/
def glyph_at (o : eetg_object) (px py : Int) : Int :=
  o.sprite.getD (((o.width + 1) * (py - o.y)) + (px - o.x)).toNat 0

/-- A well-formed sprite of printable ASCII glyphs: `height >= 1` lines of `width >= 1`
printable characters (codes 32 to 126), each line ended by a line break. -/
def well_formed_sprite (o : eetg_object) : Prop :=
  1 ≤ o.width ∧ 1 ≤ o.height ∧
  o.sprite.length = (o.width.toNat + 1) * o.height.toNat ∧
  ∀ index : Nat, index < o.sprite.length →
    (index % (o.width.toNat + 1) = o.width.toNat → o.sprite.getD index 0 = NEWLINE) ∧
    (index % (o.width.toNat + 1) ≠ o.width.toNat →
      32 ≤ o.sprite.getD index 0 ∧ o.sprite.getD index 0 ≤ 126)

instance (o : eetg_object) : Decidable (well_formed_sprite o) := by
  unfold well_formed_sprite; infer_instance

/-- Both objects show a non-space glyph at the cell `(px, py)`. -/
def both_solid (a b : eetg_object) (px py : Int) : Prop :=
  in_box a px py ∧ in_box b px py ∧ glyph_at a px py ≠ SPACE ∧ glyph_at b px py ≠ SPACE

instance (a b : eetg_object) (px py : Int) : Decidable (both_solid a b px py) := by
  unfold both_solid; infer_instance

/-- The cell `(px, py)` comes no later than `(qx, qy)` in a scan with `x` ascending as
the outer loop and `y` ascending as the inner loop. -/
def scan_le (px py qx qy : Int) : Prop :=
  px < qx ∨ (px = qx ∧ py ≤ qy)

/-! ## The cells a collision check visits -/

/-- The cells at which the inner loop of `eetg_object_check_collision` at column `i`,
from row `j`, with `count` rows left, calls `eetg_object_get_char` for the two
objects, in the order of the visits. -/
def check_collision_rows_visits (object1 object2 : eetg_object) (i : Int) :
    Int → Nat → List (Int × Int)
  | _, 0 => []
  | j, count + 1 =>
    let c1 := eetg_object_get_char object1 i j
    let c2 := eetg_object_get_char object2 i j
    if c1 ≤ 0 ∨ c2 ≤ 0 then
      [(i, j)]
    else if c1 = SPACE ∨ c2 = SPACE then
      (i, j) :: check_collision_rows_visits object1 object2 i (j + 1) count
    else
      [(i, j)]

/-- The cells the outer loop of `eetg_object_check_collision` visits, from column `i`,
with `count` columns left. -/
def check_collision_columns_visits (object1 object2 : eetg_object) (ytl : Int)
    (rows : Nat) : Int → Nat → List (Int × Int)
  | _, 0 => []
  | i, count + 1 =>
    match check_collision_rows object1 object2 i ytl rows with
    | column_scan.returned _ => check_collision_rows_visits object1 object2 i ytl rows
    | column_scan.finished =>
      check_collision_rows_visits object1 object2 i ytl rows ++
        check_collision_columns_visits object1 object2 ytl rows (i + 1) count

/-- The cells `eetg_object_check_collision` visits: none when it returns at the
bounding-box test or stops at an assertion, and the cells its loops visit
otherwise. -/
def eetg_object_check_collision_visits (object1 object2 : eetg_object) :
    List (Int × Int) :=
  let o1xbr := object1.x + object1.width - 1
  let o1ybr := object1.y + object1.height - 1
  let o2xbr := object2.x + object2.width - 1
  let o2ybr := object2.y + object2.height - 1
  if object2.x > o1xbr ∨ object1.x > o2xbr ∨ object2.y > o1ybr ∨ object1.y > o2ybr then
    []
  else
    let xtl := if object1.x > object2.x then object1.x else object2.x
    let ytl := if object1.y > object2.y then object1.y else object2.y
    let xbr := if o1xbr < o2xbr then o1xbr else o2xbr
    let ybr := if o1ybr < o2ybr then o1ybr else o2ybr
    if ¬ (xtl ≤ xbr) then []
    else if ¬ (ytl ≤ ybr) then []
    else
      check_collision_columns_visits object1 object2 ytl (ybr + 1 - ytl).toNat
        xtl (xbr + 1 - xtl).toNat

/-! ## Loops -/

/-- The loop `for (i = 0; i < count; i++) body` over a state that `body` updates; the
loop stops with `none` as soon as an assertion fails in `body`. -/
def for_loop {σ : Type} (body : Nat → σ → Option σ) : Nat → σ → Option σ
  | 0, s => some s
  | count + 1, s =>
    match for_loop body count s with
    | none => none
    | some s => body count s

/-- The loop `for (obj = first; obj; obj = obj->next) body` over the members of a
list, head first. -/
def for_each {α σ : Type} (body : α → σ → Option σ) : List α → σ → Option σ
  | [], s => some s
  | obj :: next, s =>
    match body obj s with
    | none => none
    | some s => for_each body next s

/-! ## Views -/

/-- Source: `struct eetg_view_cell`. -/
structure eetg_view_cell where
  c : Int
  color : Int
deriving DecidableEq, Repr

/-- Source: `struct eetg_view_row`, an array of `EETG_COLUMNS` cells. -/
structure eetg_view_row where
  columns : List eetg_view_cell
  size : columns.length = EETG_COLUMNS
deriving DecidableEq

/-- Source: `struct eetg_view`, an array of `EETG_ROWS` rows. -/
structure eetg_view where
  rows : List eetg_view_row
  size : rows.length = EETG_ROWS
deriving DecidableEq

/-- Source: `eetg_view_cell_set`.  Every colour passed to it is the value of an
`int8_t` field or a colour constant, which the store into `color` leaves unchanged. -/
def eetg_view_cell_set (_view_cell : eetg_view_cell) (c : Int) (color : Int) :
    eetg_view_cell :=
  { c := c, color := color }

/-- Source: `eetg_view_cell_get_c`. -/
def eetg_view_cell_get_c (view_cell : eetg_view_cell) : Int := view_cell.c

/-- Source: `eetg_view_cell_get_color`. -/
def eetg_view_cell_get_color (view_cell : eetg_view_cell) : Int := view_cell.color

/-- Source: `eetg_view_row_get_cell`.  The pointer `&view_row->columns[index]` it
returns is the checked index; `none` when one of its assertions fails. -/
def eetg_view_row_get_cell (_view_row : eetg_view_row) (index : Int) :
    Option (Fin EETG_COLUMNS) :=
  if h : index ≥ 0 ∧ index < (EETG_COLUMNS : Int) then
    some ⟨index.toNat, by omega⟩
  else
    none

/-- The cell a pointer returned by `eetg_view_row_get_cell` points to. -/
def eetg_view_row.load (view_row : eetg_view_row) (p : Fin EETG_COLUMNS) :
    eetg_view_cell :=
  view_row.columns.get ⟨p.val, by rw [view_row.size]; exact p.isLt⟩

/-- A store through a pointer returned by `eetg_view_row_get_cell`. -/
def eetg_view_row.store (view_row : eetg_view_row) (p : Fin EETG_COLUMNS)
    (view_cell : eetg_view_cell) : eetg_view_row :=
  { columns := view_row.columns.set p.val view_cell
    size := by rw [List.length_set]; exact view_row.size }

/-- Source: `eetg_view_get_row`.  The pointer `&view->rows[index]` it returns is the
checked index; `none` when one of its assertions fails. -/
def eetg_view_get_row (_view : eetg_view) (index : Int) : Option (Fin EETG_ROWS) :=
  if h : index ≥ 0 ∧ index < (EETG_ROWS : Int) then
    some ⟨index.toNat, by omega⟩
  else
    none

/-- The row a pointer returned by `eetg_view_get_row` points to. -/
def eetg_view.load (view : eetg_view) (p : Fin EETG_ROWS) : eetg_view_row :=
  view.rows.get ⟨p.val, by rw [view.size]; exact p.isLt⟩

/-- A store through a pointer returned by `eetg_view_get_row`. -/
def eetg_view.store (view : eetg_view) (p : Fin EETG_ROWS) (view_row : eetg_view_row) :
    eetg_view :=
  { rows := view.rows.set p.val view_row
    size := by rw [List.length_set]; exact view.size }

/-- Source: `eetg_view_row_init`. -/
def eetg_view_row_init (view_row : eetg_view_row) : Option eetg_view_row :=
  for_loop (fun i view_row =>
    match eetg_view_row_get_cell view_row (i : Int) with
    | none => none
    | some view_cell =>
      some (view_row.store view_cell
        (eetg_view_cell_set (view_row.load view_cell) SPACE EETG_BG_COLOR)))
    EETG_COLUMNS view_row

/-- Source: `eetg_view_init`. -/
def eetg_view_init (view : eetg_view) : Option eetg_view :=
  for_loop (fun i view =>
    match eetg_view_get_row view (i : Int) with
    | none => none
    | some row =>
      match eetg_view_row_init (view.load row) with
      | none => none
      | some view_row => some (view.store row view_row))
    EETG_ROWS view

/-- A row of `EETG_COLUMNS` copies of one cell. -/
def uniform_row (cell : eetg_view_cell) : eetg_view_row :=
  { columns := List.replicate EETG_COLUMNS cell
    size := List.length_replicate _ _ }

/-- A view of `EETG_ROWS` by `EETG_COLUMNS` copies of one cell. -/
def uniform_view (cell : eetg_view_cell) : eetg_view :=
  { rows := List.replicate EETG_ROWS (uniform_row cell)
    size := List.length_replicate _ _ }

/-! ## Worlds -/

/-- Source: `struct eetg_world`.  `views_0` and `views_1` are `views[0]` and
`views[1]`; the pointers `view` and `prev_view` are `false` for `&views[0]` and `true`
for `&views[1]`; `written` is what `write_fn` has received, oldest buffer first;
`objects` is the member list, head first; `address` is the address of the struct;
`handle_collision_fn` is the address of the registered handler, `none` for `NULL`. -/
structure eetg_world where
  address : Nat := 0
  handle_collision_fn : Option Nat := none
  handle_collision_fn_arg : Nat := 0
  written : List (List Int)
  objects : List eetg_object
  views_0 : eetg_view
  views_1 : eetg_view
  view : Bool
  prev_view : Bool
  cursor_row : Int
  cursor_column : Int
  current_color : Int
deriving DecidableEq

/-- The view a pointer into `views` points to. -/
def eetg_world.load (world : eetg_world) (p : Bool) : eetg_view :=
  if p then world.views_1 else world.views_0

/-- A store of a whole view through a pointer into `views`. -/
def eetg_world.store (world : eetg_world) (p : Bool) (view : eetg_view) : eetg_world :=
  if p then { world with views_1 := view } else { world with views_0 := view }

/-- The value an `int8_t` holds after a value of type `int` is stored in it. -/
def to_int8 (v : Int) : Int := (v + 128) % 256 - 128

/-- Source: `eetg_world_init`; the sink given to it has received nothing yet. -/
def eetg_world_init (world : eetg_world) : Option eetg_world :=
  match eetg_view_init world.views_0 with
  | none => none
  | some views_0 =>
    match eetg_view_init world.views_1 with
    | none => none
    | some views_1 =>
      some { address := world.address
             handle_collision_fn := none
             handle_collision_fn_arg := world.handle_collision_fn_arg
             written := []
             objects := []
             views_0 := views_0
             views_1 := views_1
             view := false
             prev_view := true
             cursor_row := -1
             cursor_column := -1
             current_color := EETG_FG_COLOR }

/-! ## Rasterisation -/

/-- Source: `eetg_object_render_row`. -/
def eetg_object_render_row (object : eetg_object) (row : Int) (view_row : eetg_view_row) :
    Option eetg_view_row :=
  if ¬ (row < object.height) then none
  else
    let line := (object.width + 1) * row
    for_loop (fun obj_column view_row =>
      let column := object.x + (obj_column : Int)
      if column < 0 ∨ column ≥ (EETG_COLUMNS : Int) then
        some view_row
      else
        let c := sprite_at object.sprite (line + (obj_column : Int))
        if c ≠ SPACE then
          match eetg_view_row_get_cell view_row column with
          | none => none
          | some view_cell =>
            some (view_row.store view_cell
              (eetg_view_cell_set (view_row.load view_cell) c object.color))
        else
          some view_row)
      object.width.toNat view_row

/-- Source: `eetg_object_render`. -/
def eetg_object_render (object : eetg_object) (view : eetg_view) : Option eetg_view :=
  for_loop (fun obj_row view =>
    let row := object.y + (obj_row : Int)
    if row < 0 ∨ row ≥ (EETG_ROWS : Int) then
      some view
    else
      match eetg_view_get_row view row with
      | none => none
      | some p =>
        match eetg_object_render_row object (obj_row : Int) (view.load p) with
        | none => none
        | some view_row => some (view.store p view_row))
    object.height.toNat view

/-! ## Output -/

/-- The characters `ESC [` of `EETG_CSI`. -/
def EETG_CSI : List Int := [27, 91]

/-- The characters `snprintf` produces for `%d`. -/
def format_d (v : Int) : List Int :=
  if v < 0 then
    45 :: (Nat.toDigits 10 v.natAbs).map (fun c => (c.toNat : Int))
  else
    (Nat.toDigits 10 v.toNat).map (fun c => (c.toNat : Int))

/-- Source: `eetg_world_write` (with `EETG_RENDERING_DISABLED` 0): the buffer goes to
the sink. -/
def eetg_world_write (world : eetg_world) (buffer : List Int) : eetg_world :=
  { world with written := world.written ++ [buffer] }

/-- Source: `eetg_world_write_str`. -/
def eetg_world_write_str (world : eetg_world) (str : List Int) : eetg_world :=
  eetg_world_write world str

/-- Source: `eetg_world_set_cursor`. -/
def eetg_world_set_cursor (world : eetg_world) (row column : Int) : Option eetg_world :=
  if ¬ (row ≥ 0 ∧ row < (EETG_ROWS : Int) ∧ column ≥ 0 ∧ column < (EETG_COLUMNS : Int)) then
    none
  else if world.cursor_row = row ∧ world.cursor_column = column then
    some world
  else
    let str := EETG_CSI ++ format_d (row + 1) ++ chars ";" ++ format_d (column + 1) ++ chars "H"
    let world := eetg_world_write_str world str
    some { world with cursor_row := to_int8 row, cursor_column := to_int8 column }

/-- Source: `eetg_convert_fg_color`. -/
def eetg_convert_fg_color (color : Int) : Int := color + 30

/-- Source: `eetg_convert_bg_color`. -/
def eetg_convert_bg_color (color : Int) : Int := eetg_convert_fg_color color + 10

/-- Source: `eetg_world_set_color`. -/
def eetg_world_set_color (world : eetg_world) (color : Int) (force : Bool) : eetg_world :=
  if color = world.current_color ∧ ¬ force then
    world
  else
    let str := EETG_CSI ++ format_d (eetg_convert_fg_color color) ++ chars ";" ++
      format_d (eetg_convert_bg_color EETG_BG_COLOR) ++ chars "m"
    let world := eetg_world_write_str world str
    { world with current_color := to_int8 color }

/-- Source: `eetg_world_write_char`. -/
def eetg_world_write_char (world : eetg_world) (c : Int) : eetg_world :=
  let world := eetg_world_write world [c]
  let world := { world with cursor_column := to_int8 (world.cursor_column + 1) }
  if world.cursor_column = (EETG_COLUMNS : Int) then
    if world.cursor_row = (EETG_ROWS : Int) then
      { world with cursor_column := to_int8 ((EETG_COLUMNS : Int) - 1) }
    else
      { world with cursor_column := 0, cursor_row := to_int8 (world.cursor_row + 1) }
  else
    world

/-- Source: `eetg_world_swap_views`. -/
def eetg_world_swap_views (world : eetg_world) : eetg_world :=
  let tmp := world.view
  let world := { world with view := world.prev_view }
  { world with prev_view := tmp }

/-- Source: `eetg_world_render_sync`. -/
def eetg_world_render_sync (world : eetg_world) : Option eetg_world :=
  let world := eetg_world_write_str world (EETG_CSI ++ chars "?25l")
  let world := eetg_world_set_color world EETG_FG_COLOR true
  let world := eetg_world_write_str world (EETG_CSI ++ chars "2J")
  match eetg_world_set_cursor world 0 0 with
  | none => none
  | some world =>
    for_loop (fun row world =>
      match eetg_view_get_row (world.load world.view) (row : Int) with
      | none => none
      | some view_row =>
        for_loop (fun column world =>
          match eetg_view_row_get_cell ((world.load world.view).load view_row)
              (column : Int) with
          | none => none
          | some view_cell =>
            let cell := ((world.load world.view).load view_row).load view_cell
            let color := eetg_view_cell_get_color cell
            let c := eetg_view_cell_get_c cell
            if c = SPACE then
              some world
            else
              match eetg_world_set_cursor world (row : Int) (column : Int) with
              | none => none
              | some world =>
                let world := eetg_world_set_color world color false
                some (eetg_world_write_char world c))
          EETG_COLUMNS world)
      EETG_ROWS world

/-- Source: `eetg_world_render_delta`. -/
def eetg_world_render_delta (world : eetg_world) : Option eetg_world :=
  for_loop (fun row world =>
    match eetg_view_get_row (world.load world.view) (row : Int),
        eetg_view_get_row (world.load world.prev_view) (row : Int) with
    | some view_row, some prev_view_row =>
      for_loop (fun column world =>
        match eetg_view_row_get_cell ((world.load world.view).load view_row)
            (column : Int) with
        | none => none
        | some view_cell =>
          let cell := ((world.load world.view).load view_row).load view_cell
          let color := eetg_view_cell_get_color cell
          let c := eetg_view_cell_get_c cell
          match eetg_view_row_get_cell ((world.load world.prev_view).load prev_view_row)
              (column : Int) with
          | none => none
          | some prev_view_cell =>
            let prev_cell :=
              ((world.load world.prev_view).load prev_view_row).load prev_view_cell
            let prev_color := eetg_view_cell_get_color prev_cell
            let prev_c := eetg_view_cell_get_c prev_cell
            if color ≠ prev_color ∨ c ≠ prev_c then
              match eetg_world_set_cursor world (row : Int) (column : Int) with
              | none => none
              | some world =>
                let world := eetg_world_set_color world color false
                some (eetg_world_write_char world c)
            else
              some world)
        EETG_COLUMNS world
    | _, _ => none)
    EETG_ROWS world

/-- The first loop of `eetg_world_render`: every cell of the view becomes a space in
the foreground colour. -/
def eetg_world_render_clear (view : eetg_view) : Option eetg_view :=
  for_loop (fun row view =>
    match eetg_view_get_row view (row : Int) with
    | none => none
    | some view_row =>
      match
        for_loop (fun column row_value =>
          match eetg_view_row_get_cell row_value (column : Int) with
          | none => none
          | some view_cell =>
            some (row_value.store view_cell
              (eetg_view_cell_set (row_value.load view_cell) SPACE EETG_FG_COLOR)))
          EETG_COLUMNS (view.load view_row) with
      | none => none
      | some row_value => some (view.store view_row row_value))
    EETG_ROWS view

/-- The first two loops of `eetg_world_render`: the view `world->view` is cleared and
every member is rasterised into it, in list order. -/
def eetg_world_render_rasterise (world : eetg_world) : Option eetg_world :=
  match eetg_world_render_clear (world.load world.view) with
  | none => none
  | some view =>
    match for_each eetg_object_render world.objects view with
    | none => none
    | some view => some (world.store world.view view)

/-- Source: `eetg_world_render`. -/
def eetg_world_render (world : eetg_world) (sync : Bool) : Option eetg_world :=
  match eetg_world_render_rasterise world with
  | none => none
  | some world =>
    match (if sync then eetg_world_render_sync world else eetg_world_render_delta world) with
    | none => none
    | some world =>
      match eetg_world_set_cursor world 0 0 with
      | none => none
      | some world => some (eetg_world_swap_views world)

/-! ## Membership -/

/-- One call of the collision handler: the addresses of the two objects, the
coordinates and the registered argument passed to it. -/
structure collision_call where
  object1 : Nat
  object2 : Nat
  x : Int
  y : Int
  arg : Nat
deriving DecidableEq, Repr

/-- What a membership call leaves, at its return or at the failed assertion that
stopped it: whether an assertion failed, the world and the object as they are at that
moment, and the handler calls made. -/
structure eetg_outcome where
  failed : Bool
  world : eetg_world
  object : eetg_object
  calls : List collision_call
deriving DecidableEq

/-- Source: `eetg_object_get_world`. -/
def eetg_object_get_world (object : eetg_object) : Option Nat := object.world

/-- Source: `eetg_object_set`; `none` when the assertion `!object->world` fails. -/
def eetg_object_set (object : eetg_object) (world : eetg_world) (x y : Int) :
    Option eetg_object :=
  if object.world ≠ none then none
  else some { object with world := some world.address, x := to_int8 x, y := to_int8 y }

/-- Source: `eetg_object_unset`; `none` when the assertion `object->world` fails. -/
def eetg_object_unset (object : eetg_object) : Option eetg_object :=
  if object.world = none then none
  else some { object with world := none }

/-- Source: `eetg_world_register_collision_fn`; `none` when the handler is `NULL`. -/
def eetg_world_register_collision_fn (world : eetg_world)
    (handle_collision_fn : Option Nat) (arg : Nat) : Option eetg_world :=
  match handle_collision_fn with
  | none => none
  | some fn =>
    some { world with handle_collision_fn := some fn, handle_collision_fn_arg := arg }

/-- The loop `for (tmp = world->objects; tmp; tmp = tmp->next)` of
`eetg_world_scan_collisions`, from the member `tmp` on: whether an assertion of
`eetg_object_check_collision` failed, and the handler calls made until then. -/
def scan_members (arg : Nat) (object : eetg_object) :
    List eetg_object → Bool × List collision_call
  | [] => (false, [])
  | tmp :: next =>
    if tmp.address = object.address then
      scan_members arg object next
    else
      match eetg_object_check_collision object tmp with
      | none => (true, [])
      | some cells =>
        ((scan_members arg object next).1,
          cells.map (fun p =>
            { object1 := object.address, object2 := tmp.address, x := p.1, y := p.2,
              arg := arg }) ++ (scan_members arg object next).2)

/-- Source: `eetg_world_scan_collisions`: whether an assertion failed, and the handler
calls made. -/
def eetg_world_scan_collisions (world : eetg_world) (object : eetg_object) :
    Bool × List collision_call :=
  match world.handle_collision_fn with
  | none => (false, [])
  | some _ => scan_members world.handle_collision_fn_arg object world.objects

/-- Source: `eetg_world_add`. -/
def eetg_world_add (world : eetg_world) (object : eetg_object) (x y : Int) :
    eetg_outcome :=
  if eetg_object_get_world object ≠ none then
    { failed := true, world := world, object := object, calls := [] }
  else
    match eetg_object_set object world x y with
    | none =>
      { failed := true, world := { world with objects := object :: world.objects },
        object := object, calls := [] }
    | some object =>
      let world := { world with objects := object :: world.objects }
      { failed := (eetg_world_scan_collisions world object).1, world := world,
        object := object, calls := (eetg_world_scan_collisions world object).2 }

/-- The loop `for (tmp = world->objects; tmp->next; tmp = tmp->next)` of
`eetg_world_remove`, from the member `tmp` on: the member after the first one whose
successor is the object is unlinked. -/
def remove_loop (object : eetg_object) : List eetg_object → List eetg_object
  | [] => []
  | [tmp] => [tmp]
  | tmp :: next :: rest =>
    if next.address = object.address then tmp :: rest
    else tmp :: remove_loop object (next :: rest)

/-- Source: `eetg_world_remove`.  With an empty member list the loop would read
`tmp->next` through a `NULL` pointer; that is a failure as well. -/
def eetg_world_remove (world : eetg_world) (object : eetg_object) : eetg_outcome :=
  if eetg_object_get_world object ≠ some world.address then
    { failed := true, world := world, object := object, calls := [] }
  else
    match world.objects with
    | [] => { failed := true, world := world, object := object, calls := [] }
    | head :: next =>
      let world :=
        if head.address = object.address then { world with objects := next }
        else { world with objects := remove_loop object (head :: next) }
      match eetg_object_unset object with
      | none => { failed := true, world := world, object := object, calls := [] }
      | some object => { failed := false, world := world, object := object, calls := [] }

/-! ## Object initialisation -/

/-- The value `INT_MAX` of a 32-bit `int`. -/
def INT_MAX : Int := 2147483647

/-- The call `strchr(s, c)` for a character `c` other than NUL: a pointer into a
string is the rest of the string from there on. -/
def strchr (c : Int) : List Int → Option (List Int)
  | [] => none
  | a :: rest => if a = c then some (a :: rest) else strchr c rest

/-- What `eetg_object_init` ends in. -/
inductive init_result where
  | returned (object : eetg_object)
  | assertion_failed
  | out_of_fuel
deriving DecidableEq

/-- The loop `for (;;)` of `eetg_object_init`, with `ptr` at a line break; at most
`fuel` passes. -/
def eetg_object_init_loop : Nat → List Int → eetg_object → init_result
  | 0, _, _ => init_result.out_of_fuel
  | fuel + 1, ptr, object =>
    let ptr := ptr.tail
    match strchr NEWLINE ptr with
    | none => init_result.returned object
    | some next =>
      let width : Int := (ptr.length : Int) - (next.length : Int)
      if ¬ (width ≤ INT_MAX) then init_result.assertion_failed
      else if ¬ (width = object.width) then init_result.assertion_failed
      else if ¬ (object.height < INT_MAX) then init_result.assertion_failed
      else
        eetg_object_init_loop fuel next
          { object with height := to_int8 (object.height + 1) }

/-- Source: `eetg_object_init`, for the object at the address of `object`.  Every pass
of the loop moves `ptr` forward, so the length of the text bounds the passes. -/
def eetg_object_init (object : eetg_object) (type : Int) (sprite : List Int) :
    init_result :=
  match strchr NEWLINE sprite with
  | none => init_result.assertion_failed
  | some ptr =>
    let width : Int := (sprite.length : Int) - (ptr.length : Int)
    if ¬ (width ≤ INT_MAX) then init_result.assertion_failed
    else
      eetg_object_init_loop sprite.length ptr
        { address := object.address
          world := none
          sprite := sprite
          type := to_int8 type
          x := 0
          y := 0
          color := EETG_FG_COLOR
          width := to_int8 width
          height := 1 }

/-- The loop of `eetg_object_is_empty` from `ptr` on; the end of the list is the
terminating NUL. -/
def eetg_object_is_empty_loop : List Int → Bool
  | [] => true
  | c :: rest =>
    if c = 0 then true
    else if c ≠ SPACE ∧ c ≠ NEWLINE then false
    else eetg_object_is_empty_loop rest

/-- Source: `eetg_object_is_empty`. -/
def eetg_object_is_empty (object : eetg_object) : Bool :=
  eetg_object_is_empty_loop object.sprite

/-! ## Moving an object, clearing a world -/

/-- Source: `eetg_object_move`.  `world` is the world the memory holds: the pointer
`object->world` is followed when it is the address of that world, and a pointer to
another world leads out of the memory modelled, for which the result is `none`.  The
stores to `object->x` and `object->y` are seen through every pointer to the struct, so
the entry of the member list at the address of the object is the moved object. -/
def eetg_object_move (world : eetg_world) (object : eetg_object) (x y : Int) :
    Option eetg_outcome :=
  let object := { object with x := to_int8 x, y := to_int8 y }
  let world :=
    { world with objects :=
        world.objects.map (fun tmp => if tmp.address = object.address then object else tmp) }
  match object.world with
  | none => some { failed := false, world := world, object := object, calls := [] }
  | some address =>
    if address = world.address then
      some { failed := (eetg_world_scan_collisions world object).1, world := world,
             object := object, calls := (eetg_world_scan_collisions world object).2 }
    else none

/-- What `eetg_world_clear` leaves, at its return or at the failed assertion that
stopped it: whether an assertion failed, the world, and the structs of the former
members, in the order of the list, as they are at that moment. -/
structure clear_outcome where
  failed : Bool
  world : eetg_world
  objects : List eetg_object
deriving DecidableEq

/-- The loop `while (object)` of `eetg_world_clear`, from the member `object` on:
whether the assertion of `eetg_object_unset` failed, and the structs from `object` on
as the loop leaves them. -/
def clear_loop : List eetg_object → Bool × List eetg_object
  | [] => (false, [])
  | object :: next =>
    match eetg_object_unset object with
    | none => (true, object :: next)
    | some object => ((clear_loop next).1, object :: (clear_loop next).2)

/-- Source: `eetg_world_clear`.  When the assertion of `eetg_object_unset` stops the
loop at the first member, nothing was written; when it stops it at a later member,
`world->objects` still points to the first member, whose link `next` is `NULL` since
it was unset. -/
def eetg_world_clear (world : eetg_world) : clear_outcome :=
  match world.objects with
  | [] => { failed := false, world := { world with objects := [] }, objects := [] }
  | first :: next =>
    match eetg_object_unset first with
    | none => { failed := true, world := world, objects := first :: next }
    | some unset =>
      if (clear_loop (first :: next)).1 then
        { failed := true, world := { world with objects := [unset] },
          objects := (clear_loop (first :: next)).2 }
      else
        { failed := false, world := { world with objects := [] },
          objects := (clear_loop (first :: next)).2 }

/-! ## The random number generator -/

/-- Source: `EETG_RAND_MAX`. -/
def EETG_RAND_MAX : Nat := 32767

/-- Source: `eetg_init_rand`.  The state `eetg_rand_next` is an `unsigned int`, of 32
bits; the function takes the state as it is and returns the new one. -/
def eetg_init_rand (seed : Nat) : Nat := seed % 2 ^ 32

/-- Source: `eetg_rand`: the new state and the value returned.  The product and the
sum are formed in `unsigned int` and wrap modulo `2 ^ 32`; the quotient and the
remainder are below `2 ^ 15`, so the conversion to the `int` returned keeps them. -/
def eetg_rand (eetg_rand_next : Nat) : Nat × Int :=
  let eetg_rand_next := ((eetg_rand_next * 1103515245) % 2 ^ 32 + 12345) % 2 ^ 32
  (eetg_rand_next, (((eetg_rand_next / 65536) % (EETG_RAND_MAX + 1) : Nat) : Int))

/-! ## Vocabulary of the rendering claims -/

/-- The cell of a view at row `r` and column `c` (the zero cell outside the grid). -/
def eetg_view.cell (view : eetg_view) (r c : Nat) : eetg_view_cell :=
  match view.rows.get? r with
  | none => { c := 0, color := 0 }
  | some view_row => (view_row.columns.get? c).getD { c := 0, color := 0 }

/-- The view `world->view` points to. -/
def eetg_world.current (world : eetg_world) : eetg_view := world.load world.view

/-- The view `world->prev_view` points to. -/
def eetg_world.previous (world : eetg_world) : eetg_view := world.load world.prev_view

/-- The two worlds have the same members, the same two views and the same view
pointers: they differ at most in the cursor, the colour and what was written. -/
def same_scene (w w' : eetg_world) : Prop :=
  w'.objects = w.objects ∧ w'.views_0 = w.views_0 ∧ w'.views_1 = w.views_1 ∧
    w'.view = w.view ∧ w'.prev_view = w.prev_view

/-- The view the members of a list leave when they are rasterised, head first, into
a cleared view. -/
def rasterised (objects : List eetg_object) : eetg_view :=
  (for_each eetg_object_render objects
    (uniform_view { c := SPACE, color := EETG_FG_COLOR })).getD
    (uniform_view { c := SPACE, color := EETG_FG_COLOR })

/-- The steps the renderers take at a cell they write: `eetg_world_set_cursor`,
`eetg_world_set_color`, `eetg_world_write_char`. -/
def put_cell (world : eetg_world) (row column : Nat) (cell : eetg_view_cell) : eetg_world :=
  match eetg_world_set_cursor world (row : Int) (column : Int) with
  | none => world
  | some world => eetg_world_write_char (eetg_world_set_color world cell.color false) cell.c

/-- The steps `put_cell` for a list of cells, in the order of the list. -/
def put_cells (world : eetg_world) (cells : List (Nat × Nat × eetg_view_cell)) :
    eetg_world :=
  cells.foldl (fun world x => put_cell world x.1 x.2.1 x.2.2) world

/-- The cells of the first `columns` columns of row `r` that `sel` selects, by
ascending column, each with the cell value to write. -/
def selected_in_row (sel : Nat → Nat → Option eetg_view_cell) (r columns : Nat) :
    List (Nat × Nat × eetg_view_cell) :=
  (List.range columns).filterMap (fun c => (sel r c).map (fun cell => (r, c, cell)))

/-- The cells of the first `rows` rows (of `columns` columns) that `sel` selects, in
row-major order. -/
def selected_cells (sel : Nat → Nat → Option eetg_view_cell) (rows columns : Nat) :
    List (Nat × Nat × eetg_view_cell) :=
  (List.range rows).flatMap (fun r => selected_in_row sel r columns)

/-- Selection of the sync renderer: the cells of the view that are not a space. -/
def sel_sync (view : eetg_view) (r c : Nat) : Option eetg_view_cell :=
  if (view.cell r c).c = SPACE then none else some (view.cell r c)

/-- Selection of the delta renderer: the cells whose (character, colour) pair is not
the same in the two views. -/
def sel_delta (view prev_view : eetg_view) (r c : Nat) : Option eetg_view_cell :=
  if view.cell r c ≠ prev_view.cell r c then some (view.cell r c) else none

/-- The cursor-position sequence `ESC [ row+1 ; column+1 H` for the cell of row `row`
and column `column`. -/
def cursor_sequence (row column : Int) : List Int :=
  EETG_CSI ++ format_d (row + 1) ++ chars ";" ++ format_d (column + 1) ++ chars "H"

/-- The colour sequence `ESC [ 30+color ; 40 m`. -/
def color_sequence (color : Int) : List Int :=
  EETG_CSI ++ format_d (color + 30) ++ chars ";" ++ format_d 40 ++ chars "m"

/-- The cell `a` comes before the cell `b` in row-major order. -/
def row_major_lt (a b : Nat × Nat × eetg_view_cell) : Prop :=
  a.1 < b.1 ∨ (a.1 = b.1 ∧ a.2.1 < b.2.1)

/-- The call `eetg_world_set_cursor(world, 0, 0)`, which fails no assertion. -/
def cursor_home (world : eetg_world) : eetg_world :=
  (eetg_world_set_cursor world 0 0).getD world

/-- The steps of `eetg_world_render_sync` before its loops: the cursor is hidden, the
foreground colour is forced, the screen is cleared and the cursor is set to
`(0, 0)`. -/
def sync_header (world : eetg_world) : eetg_world :=
  let world := eetg_world_write_str world (EETG_CSI ++ chars "?25l")
  let world := eetg_world_set_color world EETG_FG_COLOR true
  let world := eetg_world_write_str world (EETG_CSI ++ chars "2J")
  cursor_home world

/-- The world once `eetg_world_render` has cleared the current view and rasterised
the members into it. -/
def rasterised_world (world : eetg_world) : eetg_world :=
  world.store world.view (rasterised world.objects)

/-- The cells at which the two views differ in character or in colour, in row-major
order, each with the cell of `view`. -/
def differing_cells (view prev_view : eetg_view) : List (Nat × Nat × eetg_view_cell) :=
  selected_cells (sel_delta view prev_view) EETG_ROWS EETG_COLUMNS

/-- The cells of the view that are not a space, in row-major order. -/
def non_space_cells (view : eetg_view) : List (Nat × Nat × eetg_view_cell) :=
  selected_cells (sel_sync view) EETG_ROWS EETG_COLUMNS

/-- The cursor-hide sequence `ESC [ ? 2 5 l`. -/
def hide_cursor_sequence : List Int := EETG_CSI ++ chars "?25l"

/-- The clear-screen sequence `ESC [ 2 J`. -/
def clear_screen_sequence : List Int := EETG_CSI ++ chars "2J"

/-- The characters written one at a time (by `eetg_world_write_char`) among the
buffers the sink received; the escape sequences are longer than one character. -/
def char_writes (buffers : List (List Int)) : List Int :=
  buffers.filterMap (fun buffer =>
    match buffer with
    | [c] => some c
    | _ => none)

/-- The object shows a non-space glyph at the grid cell of column `c`, row `r`. -/
def solid_at (o : eetg_object) (c r : Int) : Prop :=
  in_box o c r ∧ glyph_at o c r ≠ SPACE

instance (o : eetg_object) (c r : Int) : Decidable (solid_at o c r) := by
  unfold solid_at; infer_instance

/-- The cell at row `r`, column `c` once the object is rasterised over a cell `old`:
its glyph and colour where the object shows a non-space glyph, the old cell
elsewhere. -/
def raster_cell (o : eetg_object) (old : eetg_view_cell) (r c : Nat) : eetg_view_cell :=
  if solid_at o (c : Int) (r : Int) then
    { c := glyph_at o (c : Int) (r : Int), color := o.color }
  else
    old

/-- What the specification has a rendered view show at row `r`, column `c`: the glyph
and colour of the last member, in list order, with a non-space glyph there, and a
space in the foreground colour when there is none. -/
def shown_cell (objects : List eetg_object) (r c : Nat) : eetg_view_cell :=
  match objects.reverse.find? (fun o => decide (solid_at o (c : Int) (r : Int))) with
  | some o => { c := glyph_at o (c : Int) (r : Int), color := o.color }
  | none => { c := SPACE, color := EETG_FG_COLOR }

/-! ## The model terminal of the refinement claim -/

/-- The model terminal: a grid of (character, colour) cells, a cursor and a current
colour. -/
structure terminal where
  grid : Nat → Nat → eetg_view_cell
  cursor_row : Int
  cursor_column : Int
  color : Int

/-- What a buffer received by the terminal means. -/
inductive terminal_event where
  | position (row column : Int)
  | colour (color : Int)
  | glyph (c : Int)
  | other
deriving DecidableEq, Repr

/-- The decimal digits at the head of a buffer, as a number, and what follows them. -/
def parse_digits : List Int → Nat → Nat × List Int
  | [], acc => (acc, [])
  | c :: rest, acc =>
    if 48 ≤ c ∧ c ≤ 57 then parse_digits rest (acc * 10 + (c - 48).toNat)
    else (acc, c :: rest)

/-- The decimal number at the head of a buffer, with its sign, and what follows it. -/
def parse_number (s : List Int) : Int × List Int :=
  match s with
  | [] => (0, [])
  | c :: rest =>
    if c = 45 then (-((parse_digits rest 0).1 : Int), (parse_digits rest 0).2)
    else (((parse_digits (c :: rest) 0).1 : Int), (parse_digits (c :: rest) 0).2)

/-- The meaning of a buffer: a single character is a character write; `ESC [ n ; m H`
sets the cursor to row `n - 1`, column `m - 1`; `ESC [ n ; m m` sets the colour to
`n - 30`. -/
def decode (buffer : List Int) : terminal_event :=
  match buffer with
  | [] => terminal_event.other
  | [c] => terminal_event.glyph c
  | e :: b :: rest =>
    if e = 27 ∧ b = 91 then
      match (parse_number rest).2 with
      | [] => terminal_event.other
      | s :: rest2 =>
        if s = 59 then
          match (parse_number rest2).2 with
          | [f] =>
            if f = 72 then
              terminal_event.position ((parse_number rest).1 - 1) ((parse_number rest2).1 - 1)
            else if f = 109 then
              terminal_event.colour ((parse_number rest).1 - 30)
            else
              terminal_event.other
          | _ => terminal_event.other
        else
          terminal_event.other
    else
      terminal_event.other

/-- The terminal receives one buffer.  A position sequence sets the cursor, a colour
sequence sets the current colour, and a character write puts the character in the
current colour at the cursor and advances the cursor by one column, wrapping to the
first column of the next row after the last column. -/
def terminal.receive (t : terminal) (buffer : List Int) : terminal :=
  match decode buffer with
  | terminal_event.position row column =>
    { t with cursor_row := row, cursor_column := column }
  | terminal_event.colour color => { t with color := color }
  | terminal_event.glyph ch =>
    { grid := fun r c =>
        if (r : Int) = t.cursor_row ∧ (c : Int) = t.cursor_column then
          { c := ch, color := t.color }
        else t.grid r c
      cursor_row :=
        if t.cursor_column + 1 = (EETG_COLUMNS : Int) then t.cursor_row + 1
        else t.cursor_row
      cursor_column :=
        if t.cursor_column + 1 = (EETG_COLUMNS : Int) then 0 else t.cursor_column + 1
      color := t.color }
  | terminal_event.other => t

/-- The terminal receives the buffers of a list, in order. -/
def terminal.feed (t : terminal) (buffers : List (List Int)) : terminal :=
  buffers.foldl terminal.receive t

/-- The terminal shows the view: its grid equals the view cell for cell. -/
def terminal.shows (t : terminal) (view : eetg_view) : Prop :=
  ∀ r c, r < EETG_ROWS → c < EETG_COLUMNS → t.grid r c = view.cell r c

/-- The terminal's cursor and colour are the ones the world has cached. -/
def terminal.in_step (t : terminal) (w : eetg_world) : Prop :=
  t.cursor_row = w.cursor_row ∧ t.cursor_column = w.cursor_column ∧
    t.color = w.current_color

/-! ## Vocabulary of the object and membership claims -/

/-- The sprite text made of the given lines, each followed by a line break. -/
def text_of_rows (rows : List (List Int)) : List Int :=
  rows.flatMap (fun row => row ++ [NEWLINE])

/-- The lines are `height` lines of `width` characters each, none of them a line
break. -/
def uniform_rows (rows : List (List Int)) (width height : Nat) : Prop :=
  rows.length = height ∧ ∀ row ∈ rows, row.length = width ∧ NEWLINE ∉ row

instance (rows : List (List Int)) (width height : Nat) :
    Decidable (uniform_rows rows width height) := by
  unfold uniform_rows; infer_instance

/-- The characters of a C string before its terminating NUL. -/
def before_nul (text : List Int) : List Int :=
  text.takeWhile (fun c => decide (c ≠ 0))

/-- The buffer is a colour sequence for the terminal. -/
def is_colour_sequence (buffer : List Int) : Bool :=
  match decode buffer with
  | terminal_event.colour _ => true
  | _ => false

/-- The buffer is a cursor-position sequence for the terminal. -/
def is_position_sequence (buffer : List Int) : Bool :=
  match decode buffer with
  | terminal_event.position _ _ => true
  | _ => false

/-- The object has a positive width and a positive height. -/
def positive_size (o : eetg_object) : Prop := 0 < o.width ∧ 0 < o.height

instance (o : eetg_object) : Decidable (positive_size o) := by
  unfold positive_size; infer_instance

/-- The lines of a text that end in a line break, without their line breaks. -/
def text_rows : List Int → List (List Int)
  | [] => []
  | c :: rest =>
    if c = NEWLINE then [] :: text_rows rest
    else
      match text_rows rest with
      | [] => []
      | row :: rows => (c :: row) :: rows

/-- What follows the last line break of a text (the whole text when it has none). -/
def text_tail : List Int → List Int
  | [] => []
  | c :: rest =>
    if c = NEWLINE then text_tail rest
    else
      match text_rows rest with
      | [] => c :: text_tail rest
      | _ :: _ => text_tail rest


/-- The result of initialising the object at `address` with a text given by its
lines and by what follows its last line break: no line is a failure, and so is a
later line whose length is not the stored width; otherwise the object is returned
with the width and the height as its 8-bit fields hold them (`object_init_eq`). -/
def init_of_rows (address : Nat) (type : Int) (tail : List Int) :
    List (List Int) → init_result
  | [] => init_result.assertion_failed
  | first :: rest =>
    if ∀ row ∈ rest, (row.length : Int) = to_int8 (first.length : Int) then
      init_result.returned
        { address := address, world := none,
          sprite := text_of_rows (first :: rest) ++ tail, color := EETG_FG_COLOR,
          type := to_int8 type, x := 0, y := 0,
          width := to_int8 (first.length : Int),
          height := to_int8 ((first :: rest).length : Int) }
    else init_result.assertion_failed
/-! ## Vocabulary of the scan, invariant and generator claims -/

/-- The cells of the bounding box of the object. -/
def box_cells (o : eetg_object) : List (Int × Int) :=
  (List.range o.width.toNat).flatMap (fun (i : Nat) =>
    (List.range o.height.toNat).map (fun (j : Nat) => (o.x + (i : Int), o.y + (j : Int))))

/-- The non-space glyphs of the two objects overlap: at some cell of the box of `a`
both show a non-space glyph. -/
def glyphs_overlap (a b : eetg_object) : Prop :=
  ∃ p ∈ box_cells a, both_solid a b p.1 p.2

instance (a b : eetg_object) : Decidable (glyphs_overlap a b) := by
  unfold glyphs_overlap; infer_instance

/-- The members other than the object `o` whose non-space glyphs overlap those of
`o`, in the order of the member list. -/
def overlapping_members (o : eetg_object) (members : List eetg_object) :
    List eetg_object :=
  members.filter (fun m => decide (m.address ≠ o.address ∧ glyphs_overlap o m))

/-- The handler calls of a scan that fails no assertion, put together from the calls
of `eetg_object_check_collision`: for each member other than the object `o`, in the
order of the member list, the calls that function makes for `o` and that member, with
`o` first, the member second and the registered argument. -/
def calls_per_member (arg : Nat) (o : eetg_object) (members : List eetg_object) :
    List collision_call :=
  (members.filter (fun m => decide (m.address ≠ o.address))).flatMap (fun m =>
    ((eetg_object_check_collision o m).getD []).map (fun p =>
      { object1 := o.address, object2 := m.address, x := p.1, y := p.2, arg := arg }))

/-- The objects and the argument a handler call was made with. -/
def call_parties (call : collision_call) : Nat × Nat × Nat :=
  (call.object1, call.object2, call.arg)

/-- The calls `eetg_world_remove(world, object)` for the given objects, one after the
other: whether one of them failed, the world they leave and the structs of the
objects as the calls leave them. -/
def remove_each (world : eetg_world) : List eetg_object → clear_outcome
  | [] => { failed := false, world := world, objects := [] }
  | object :: rest =>
    if (eetg_world_remove world object).failed then
      { failed := true, world := (eetg_world_remove world object).world,
        objects := object :: rest }
    else
      { failed := (remove_each (eetg_world_remove world object).world rest).failed
        world := (remove_each (eetg_world_remove world object).world rest).world
        objects := (eetg_world_remove world object).object ::
          (remove_each (eetg_world_remove world object).world rest).objects }

/-- The memory of a program that uses one world: the world, whose member list holds
the structs of the objects linked in it, and the structs of its other objects. -/
structure engine_memory where
  world : eetg_world
  objects : List eetg_object
deriving DecidableEq

/-- A call of the engine by the program; an object is passed by its address. -/
inductive engine_call where
  | register (handle_collision_fn : Nat) (arg : Nat)
  | add (object : Nat) (x y : Int)
  | remove (object : Nat)
  | clear
  | move (object : Nat) (x y : Int)
  | render (sync : Bool)
deriving DecidableEq

/-- The struct at an address, in the member list or among the other objects. -/
def engine_memory.object_at (memory : engine_memory) (address : Nat) :
    Option eetg_object :=
  (memory.world.objects ++ memory.objects).find? (fun o => decide (o.address = address))

/-- The memory a successful call leaves; `none` when the call fails an assertion or is
passed an address at which there is no object. -/
def engine_memory.call (memory : engine_memory) : engine_call → Option engine_memory
  | engine_call.register handle_collision_fn arg =>
    match eetg_world_register_collision_fn memory.world (some handle_collision_fn) arg with
    | none => none
    | some world => some { memory with world := world }
  | engine_call.add address x y =>
    match memory.object_at address with
    | none => none
    | some object =>
      if (eetg_world_add memory.world object x y).failed then none
      else
        some { world := (eetg_world_add memory.world object x y).world
               objects := memory.objects.filter (fun o => decide (o.address ≠ address)) }
  | engine_call.remove address =>
    match memory.object_at address with
    | none => none
    | some object =>
      if (eetg_world_remove memory.world object).failed then none
      else
        some { world := (eetg_world_remove memory.world object).world
               objects := (eetg_world_remove memory.world object).object ::
                 memory.objects.filter (fun o => decide (o.address ≠ address)) }
  | engine_call.clear =>
    if (eetg_world_clear memory.world).failed then none
    else
      some { world := (eetg_world_clear memory.world).world
             objects := (eetg_world_clear memory.world).objects ++ memory.objects }
  | engine_call.move address x y =>
    match memory.object_at address with
    | none => none
    | some object =>
      match eetg_object_move memory.world object x y with
      | none => none
      | some outcome =>
        if outcome.failed then none
        else
          some { world := outcome.world
                 objects := memory.objects.map (fun o =>
                   if o.address = address then outcome.object else o) }
  | engine_call.render sync =>
    match eetg_world_render memory.world sync with
    | none => none
    | some world => some { memory with world := world }

/-- The memory states a program reaches: it initialises the world, its objects being
structs at distinct addresses that do not point to this world (as `eetg_object_init`
leaves them), and then makes successful calls. -/
inductive reachable : engine_memory → Prop where
  | init (world initialised : eetg_world) (objects : List eetg_object) :
    eetg_world_init world = some initialised →
    (objects.map (fun o => o.address)).Nodup →
    (∀ o ∈ objects, o.world ≠ some initialised.address) →
    reachable { world := initialised, objects := objects }
  | call (memory after : engine_memory) (c : engine_call) :
    reachable memory → memory.call c = some after → reachable after

/-- The state of the generator after `eetg_init_rand(seed)` and `n` calls of
`eetg_rand`. -/
def rand_state (seed : Nat) : Nat → Nat
  | 0 => eetg_init_rand seed
  | n + 1 => (eetg_rand (rand_state seed n)).1

/-- The value the call number `n + 1` of `eetg_rand` returns after
`eetg_init_rand(seed)`. -/
def rand_value (seed n : Nat) : Int := (eetg_rand (rand_state seed n)).2

/-- A call of the generator by the program. -/
inductive rand_call where
  | init_rand (seed : Nat)
  | rand
deriving DecidableEq

/-- The state the calls leave, from the given state of `eetg_rand_next`, and the
values the calls of `eetg_rand` among them return, in their order. -/
def run_rand (state : Nat) : List rand_call → Nat × List Int
  | [] => (state, [])
  | rand_call.init_rand seed :: rest => run_rand (eetg_init_rand seed) rest
  | rand_call.rand :: rest =>
    ((run_rand (eetg_rand state).1 rest).1,
      (eetg_rand state).2 :: (run_rand (eetg_rand state).1 rest).2)

/-- The two worlds are the same struct with the same handler binding: they have the
same address, handler and handler argument. -/
def same_binding (w w' : eetg_world) : Prop :=
  w'.address = w.address ∧ w'.handle_collision_fn = w.handle_collision_fn ∧
    w'.handle_collision_fn_arg = w.handle_collision_fn_arg

/-- The membership invariant of a memory: no two structs of the member list, and no
two of the other objects, are at one address, no address is in both, every member
points back to the world and no other object does. -/
def engine_memory.coherent (memory : engine_memory) : Prop :=
  (memory.world.objects.map (fun o => o.address)).Nodup ∧
  (memory.objects.map (fun o => o.address)).Nodup ∧
  (∀ m ∈ memory.world.objects, ∀ o ∈ memory.objects, m.address ≠ o.address) ∧
  (∀ m ∈ memory.world.objects, m.world = some memory.world.address) ∧
  (∀ o ∈ memory.objects, o.world ≠ some memory.world.address)

/-! ## The collision scan with a handler that calls the engine

The handler of `eetg_world_scan_collisions` is code of the program; it is passed the
two objects by pointer and may call the engine on them.  Here the scan is embedded over
the memory of the program, the structs being read through their addresses at every
step, so that what the handler stores is seen by the rest of the scan. -/

/-- The code of a collision handler: from the memory and the arguments it is called
with, the memory it leaves; `none` when an assertion fails in it. -/
def collision_handler : Type := engine_memory → collision_call → Option engine_memory

/-- One invocation of the handler during a scan: the arguments, and the values of
`object1->world` and `object2->world` at the moment of the invocation. -/
structure handler_invocation where
  call : collision_call
  object1_world : Option Nat
  object2_world : Option Nat
deriving DecidableEq, Repr

/-- How a scan ends: it returns, an assertion fails, or the model runs out of steps. -/
inductive scan_ending where
  | returned
  | assertion_failed
  | out_of_fuel
deriving DecidableEq, Repr

/-- What a scan leaves: how it ended, the memory at that moment and the invocations of
the handler made until then, in their order. -/
structure scan_outcome where
  ending : scan_ending
  memory : engine_memory
  invocations : List handler_invocation
deriving DecidableEq

/-- The address of the member after the one at `address` in a member list; `none`
for the last member and when no member is at `address`. -/
def next_of : List eetg_object → Nat → Option Nat
  | [], _ => none
  | tmp :: rest, address =>
    if tmp.address = address then rest.head?.map (fun o => o.address)
    else next_of rest address

/-- The link `tmp->next` of the struct at `address`: the member after it in the member
list of the world; `NULL` for the last member and for a struct that is not linked,
in which `eetg_object_init` and `eetg_object_unset` store `NULL`. -/
def engine_memory.next (memory : engine_memory) (address : Nat) : Option Nat :=
  next_of memory.world.objects address

/-- The handler calls of one `eetg_object_check_collision(object1, object2, ...)`, for
the cells that function passes (at most one): each is recorded with the owners of the
two objects at that moment and then run on the memory.  The result is `none` for the
memory when an assertion fails in the handler. -/
def invoke_handler (handler : collision_handler) (arg object1 object2 : Nat) :
    List (Int × Int) → engine_memory → List handler_invocation →
      Option engine_memory × List handler_invocation
  | [], memory, done => (some memory, done)
  | p :: rest, memory, done =>
    match handler memory
        { object1 := object1, object2 := object2, x := p.1, y := p.2, arg := arg } with
    | none =>
      (none, done ++
        [{ call := { object1 := object1, object2 := object2, x := p.1, y := p.2, arg := arg }
           object1_world := (memory.object_at object1).bind (fun o => o.world)
           object2_world := (memory.object_at object2).bind (fun o => o.world) }])
    | some after =>
      invoke_handler handler arg object1 object2 rest after (done ++
        [{ call := { object1 := object1, object2 := object2, x := p.1, y := p.2, arg := arg }
           object1_world := (memory.object_at object1).bind (fun o => o.world)
           object2_world := (memory.object_at object2).bind (fun o => o.world) }])

/-- The loop `for (tmp = world->objects; tmp; tmp = tmp->next)` of
`eetg_world_scan_collisions`, from the pointer `tmp` on, for at most `fuel`
iterations.  `object` is the address of the object the scan is for.  The structs of
the object and of `tmp` are read from the memory when `eetg_object_check_collision`
is called, and `tmp->next` is read from the memory the handler has left. -/
def scan_collisions_loop (handler : collision_handler) (object : Nat) :
    Nat → Option Nat → engine_memory → List handler_invocation → scan_outcome
  | _, none, memory, done =>
    { ending := scan_ending.returned, memory := memory, invocations := done }
  | 0, some _, memory, done =>
    { ending := scan_ending.out_of_fuel, memory := memory, invocations := done }
  | fuel + 1, some tmp, memory, done =>
    if tmp = object then
      scan_collisions_loop handler object fuel (memory.next tmp) memory done
    else
      match memory.object_at object, memory.object_at tmp with
      | some object1, some object2 =>
        match eetg_object_check_collision object1 object2 with
        | none =>
          { ending := scan_ending.assertion_failed, memory := memory, invocations := done }
        | some cells =>
          match invoke_handler handler memory.world.handle_collision_fn_arg object tmp
              cells memory done with
          | (none, done) =>
            { ending := scan_ending.assertion_failed, memory := memory,
              invocations := done }
          | (some after, done) =>
            scan_collisions_loop handler object fuel (after.next tmp) after done
      | _, _ =>
        { ending := scan_ending.assertion_failed, memory := memory, invocations := done }

/-- Source: `eetg_world_scan_collisions`, with the code `handler` at the registered
function pointer. -/
def eetg_world_scan_collisions_with (handler : collision_handler) (fuel : Nat)
    (memory : engine_memory) (object : Nat) : scan_outcome :=
  match memory.world.handle_collision_fn with
  | none => { ending := scan_ending.returned, memory := memory, invocations := [] }
  | some _ =>
    scan_collisions_loop handler object fuel
      (memory.world.objects.head?.map (fun o => o.address)) memory []

/-- Source: `eetg_world_add`, with the code `handler` at the registered function
pointer; the object is passed by its address. -/
def eetg_world_add_with (handler : collision_handler) (fuel : Nat)
    (memory : engine_memory) (address : Nat) (x y : Int) : scan_outcome :=
  match memory.object_at address with
  | none => { ending := scan_ending.assertion_failed, memory := memory, invocations := [] }
  | some object =>
    if eetg_object_get_world object ≠ none then
      { ending := scan_ending.assertion_failed, memory := memory, invocations := [] }
    else
      match eetg_object_set object memory.world x y with
      | none =>
        { ending := scan_ending.assertion_failed, memory := memory, invocations := [] }
      | some object =>
        eetg_world_scan_collisions_with handler fuel
          { world := { memory.world with objects := object :: memory.world.objects }
            objects := memory.objects.filter (fun o => decide (o.address ≠ address)) }
          address

/-- Source: `eetg_object_move`, with the code `handler` at the registered function
pointer; the object is passed by its address.  An object attached to a world other
than the one of the memory leads out of the memory modelled: the result is `none`. -/
def eetg_object_move_with (handler : collision_handler) (fuel : Nat)
    (memory : engine_memory) (address : Nat) (x y : Int) : Option scan_outcome :=
  match memory.object_at address with
  | none =>
    some { ending := scan_ending.assertion_failed, memory := memory, invocations := [] }
  | some object =>
    match object.world with
    | none =>
      some { ending := scan_ending.returned
             memory :=
               { memory with objects := memory.objects.map (fun o =>
                   if o.address = address then
                     { object with x := to_int8 x, y := to_int8 y }
                   else o) }
             invocations := [] }
    | some world =>
      if world = memory.world.address then
        some (eetg_world_scan_collisions_with handler fuel
          { memory with world :=
              { memory.world with objects := memory.world.objects.map (fun o =>
                  if o.address = address then
                    { object with x := to_int8 x, y := to_int8 y }
                  else o) } }
          address)
      else none

/-- A handler that returns without calling the engine. -/
def idle_handler : collision_handler := fun memory _ => some memory

/-! ## The game `ei`

The game keeps its objects in `struct ei_game` and passes them to the engine by
pointer.  Here the structs of the objects are held by the memory of the engine model,
and the game refers to them by address.  Of the fields of `struct ei_game` the model
has the ones the functions embedded below read or write; the text of the status line,
which `ei_game_update_status` prints into `status_sprite`, is not modelled. -/

def EI_FPS : Int := 50
def EI_NR_ALIEN_GROUPS : Nat := 5
def EI_ALIEN_GROUP_SIZE : Nat := 10
def EI_ALIEN_WIDTH : Int := 3

def EI_STATE_INTRO : Int := 0
def EI_STATE_PREPARED : Int := 1
def EI_STATE_PLAYING : Int := 2
def EI_STATE_GAME_OVER : Int := 3

def EI_NR_LIVES : Int := 3
def EI_ALIEN_STARTING_ROW : Int := 3
def EI_ALIENS_SPEED : Int := 10

def EI_SCORE_ALIENS0 : Int := 30
def EI_SCORE_ALIENS12 : Int := 20
def EI_SCORE_ALIENS34 : Int := 10

def EI_TYPE_ALIEN : Int := 6

/-- Source: `struct ei_alien_group`: the addresses of the structs
`aliens[0].object`, ..., `aliens[EI_ALIEN_GROUP_SIZE - 1].object`, by index. -/
structure ei_alien_group where
  aliens : List Nat
deriving DecidableEq, Repr

/-- Source: `struct ei_game`.  `memory` holds `world` and the structs of the objects;
`aliens` is the array of the `EI_NR_ALIEN_GROUPS` groups, by index; `eetg_rand_next`
is the state of the generator of the engine, a static variable of `eetg.c`.  The
counters are `int8_t`, the score is an `int`. -/
structure ei_game where
  memory : engine_memory
  aliens : List ei_alien_group
  eetg_rand_next : Nat
  score : Int
  sync_counter_reload : Int
  sync_counter : Int
  nr_lives : Int
  aliens_speed_counter_reload : Int
  nr_dead_aliens : Int
  state : Int
deriving DecidableEq

/-- Source: `ei_alien_is_dead`, for the alien whose object is at `alien`; `none` when
the memory has no struct at that address. -/
def ei_alien_is_dead (memory : engine_memory) (alien : Nat) : Option Bool :=
  match memory.object_at alien with
  | none => none
  | some object => some (decide (eetg_object_get_world object = none))

/-- Source: `ei_alien_group_get`; `none` when the assertion on the index fails. -/
def ei_alien_group_get (group : ei_alien_group) (index : Nat) : Option Nat :=
  if index < EI_ALIEN_GROUP_SIZE then group.aliens.get? index else none

/-- Source: `ei_alien_group_has_alien`: the pointer lies within the array of the
group. -/
def ei_alien_group_has_alien (group : ei_alien_group) (alien : Nat) : Bool :=
  decide (alien ∈ group.aliens)

/-- The loop of `ei_game_find_alien_group`, from the group of index `i` on. -/
def ei_game_find_alien_group_loop (alien : Nat) : List ei_alien_group → Nat → Option Nat
  | [], _ => none
  | tmp :: rest, i =>
    if ei_alien_group_has_alien tmp alien then some i
    else ei_game_find_alien_group_loop alien rest (i + 1)

/-- Source: `ei_game_find_alien_group`: the index of the group found, `none` for
`NULL`. -/
def ei_game_find_alien_group (game : ei_game) (alien : Nat) : Option Nat :=
  ei_game_find_alien_group_loop alien game.aliens 0

/-- The inner loop `for (j = 0; j < ARRAY_SIZE(game->aliens); j++)` of the first loop
of `ei_game_select_firing_alien`, for the column `i`, from the group `j` on: whether
it has met an alien that is not dead (and broken out); `none` when an assertion
fails. -/
def select_firing_alien_column (memory : engine_memory) (i : Nat) :
    List ei_alien_group → Option Bool
  | [] => some false
  | group :: rest =>
    match ei_alien_group_get group i with
    | none => none
    | some tmp =>
      match ei_alien_is_dead memory tmp with
      | none => none
      | some false => some true
      | some true => select_firing_alien_column memory i rest

/-- The first loop `for (i = 0; i < EI_ALIEN_GROUP_SIZE; i++)` of
`ei_game_select_firing_alien`, from the column `i` on for `count` columns: the value
of `nr_firing_aliens` it leaves. -/
def select_firing_alien_count (game : ei_game) : Nat → Nat → Int → Option Int
  | 0, _, nr_firing_aliens => some nr_firing_aliens
  | count + 1, i, nr_firing_aliens =>
    match select_firing_alien_column game.memory i game.aliens with
    | none => none
    | some true => select_firing_alien_count game count (i + 1) (nr_firing_aliens + 1)
    | some false => select_firing_alien_count game count (i + 1) nr_firing_aliens

/-- The second loop of `ei_game_select_firing_alien`, which goes through the groups
from the last one to the first; the list is the groups still to visit, in that order.
The result is the alien chosen, `none` for `NULL`. -/
def select_firing_alien_pick (memory : engine_memory) (index : Nat) :
    List ei_alien_group → Option (Option Nat)
  | [] => some none
  | group :: rest =>
    match ei_alien_group_get group index with
    | none => none
    | some tmp =>
      match ei_alien_is_dead memory tmp with
      | none => none
      | some false => some (some tmp)
      | some true => select_firing_alien_pick memory index rest

/-- Source: `ei_game_select_firing_alien`: the alien returned, `none` for `NULL`, and
the game, in which the call of `eetg_rand` has advanced the generator.  The value of
`eetg_rand` is not negative, so the C remainder is the Lean one. -/
def ei_game_select_firing_alien (game : ei_game) : Option (Option Nat × ei_game) :=
  match select_firing_alien_count game EI_ALIEN_GROUP_SIZE 0 0 with
  | none => none
  | some nr_firing_aliens =>
    if nr_firing_aliens > 0 then
      let index := (eetg_rand game.eetg_rand_next).2 % nr_firing_aliens
      match select_firing_alien_pick game.memory index.toNat game.aliens.reverse with
      | none => none
      | some alien =>
        some (alien, { game with eetg_rand_next := (eetg_rand game.eetg_rand_next).1 })
    else
      some (none, game)

/-- Source: `ei_game_prepare`. -/
def ei_game_prepare (game : ei_game) : Option ei_game :=
  match game.memory.call engine_call.clear with
  | none => none
  | some memory => some { game with memory := memory, state := EI_STATE_PREPARED }

/-- Source: `ei_game_kill_alien`, for the alien whose object is at `alien`; `none` when
an assertion fails or the alien is in no group.  The quotients are those of C, which
truncate. -/
def ei_game_kill_alien (game : ei_game) (alien : Nat) : Option ei_game :=
  match ei_game_find_alien_group game alien with
  | none => none
  | some group =>
    let score :=
      if group = 0 then EI_SCORE_ALIENS0
      else if group = 1 ∨ group = 2 then EI_SCORE_ALIENS12
      else EI_SCORE_ALIENS34
    let game := { game with score := game.score + score }
    match game.memory.call (engine_call.remove alien) with
    | none => none
    | some memory =>
      let game :=
        { game with memory := memory, nr_dead_aliens := to_int8 (game.nr_dead_aliens + 1) }
      if game.nr_dead_aliens = ((EI_NR_ALIEN_GROUPS * EI_ALIEN_GROUP_SIZE : Nat) : Int) then
        ei_game_prepare game
      else
        let aliens_speed := Int.tdiv game.nr_dead_aliens 2
        let aliens_speed :=
          if aliens_speed < Int.tdiv EI_FPS 5 then Int.tdiv EI_FPS 5
          else if aliens_speed > Int.tdiv (EI_FPS * 4) 5 then Int.tdiv (EI_FPS * 4) 5
          else aliens_speed
        some { game with
          aliens_speed_counter_reload := to_int8 (Int.tdiv EI_FPS aliens_speed) }

/-- Source: `ei_game_reset_history`. -/
def ei_game_reset_history (game : ei_game) : ei_game :=
  { game with score := 0, nr_lives := EI_NR_LIVES }

/-- Source: `ei_game_process_intro_input`: the value returned and the game. -/
def ei_game_process_intro_input (game : ei_game) (c : Int) : Option (Bool × ei_game) :=
  if c = 120 then some (true, game)
  else if c ≠ SPACE then some (false, game)
  else
    match ei_game_prepare (ei_game_reset_history game) with
    | none => none
    | some game => some (false, game)

/-- Source: `ei_game_init`, as far as the fields of the model go: the stores to the
sync counters, the state and the history.  The calls that follow them initialise the
world and the objects of the game and add the title, the help and the start line; they
are not embedded, `game.memory` standing for the memory they leave. -/
def ei_game_init (game : ei_game) : ei_game :=
  let game := { game with sync_counter_reload := to_int8 (EI_FPS * 2) }
  let game := { game with sync_counter := 1 }
  let game := { game with state := EI_STATE_INTRO }
  ei_game_reset_history game

/-- The arms of the `switch` of `ei_game_process` for the states `EI_STATE_PREPARED`
and `EI_STATE_PLAYING`, from the game and the input character: `ei_game_start`, and
the four `ei_game_process_...` steps followed by `ei_game_process_game_input`.  These
functions are not embedded; the code of the two arms is a parameter of the model. -/
def ei_game_arms : Type := ei_game → Int → Option (Bool × ei_game)

/-- What one call of `ei_game_process` leaves: the value of `sync` it has passed to
`eetg_world_render`, the value it returns, and the game. -/
structure process_outcome where
  sync : Bool
  leave : Bool
  game : ei_game

/-- The `switch` statement of `ei_game_process`: the value of `leave` it leaves and
the game; `none` when an assertion fails.  A state that is none of the four has no
arm. -/
def ei_game_process_switch (arms : ei_game_arms) (game : ei_game) (c : Int) :
    Option (Bool × ei_game) :=
  if game.state = EI_STATE_INTRO ∨ game.state = EI_STATE_GAME_OVER then
    if c ≥ 0 then ei_game_process_intro_input game c
    else some (false, game)
  else if game.state = EI_STATE_PREPARED ∨ game.state = EI_STATE_PLAYING then
    arms game c
  else some (false, game)

/-- Source: `ei_game_process`; `none` when an assertion fails.  The decrement of the
counter is formed in `int` and stored in the `int8_t` field; the store of the reload
value under `if (game->sync_counter == 0)` is a store of either value to the field. -/
def ei_game_process (arms : ei_game_arms) (game : ei_game) (c : Int) :
    Option process_outcome :=
  let game := { game with sync_counter := to_int8 (game.sync_counter - 1) }
  let sync := decide (game.sync_counter = (0 : Int))
  let game :=
    { game with sync_counter :=
        (if game.sync_counter = (0 : Int) then game.sync_counter_reload
          else game.sync_counter) }
  match eetg_world_render game.memory.world sync with
  | none => none
  | some world =>
    match ei_game_process_switch arms
        { game with memory := { game.memory with world := world } } c with
    | none => none
    | some (leave, game) => some { sync := sync, leave := leave, game := game }

/-! ## Vocabulary of the game claims -/

/-- The value `v` limited to the interval from `low` to `high`. -/
def clamp (v low high : Int) : Int :=
  if v < low then low else if v > high then high else v

/-- What the specification gives for `aliens_speed_counter_reload` once `d` aliens are
dead: `EI_FPS / clamp(d / 2, EI_FPS / 5, 4 * EI_FPS / 5)`. -/
def speed_reload (d : Int) : Int :=
  EI_FPS / clamp (d / 2) (EI_FPS / 5) (4 * EI_FPS / 5)

/-- The code of the two arms does not write `sync_counter` and
`sync_counter_reload`; in the source the only stores to these fields are in
`ei_game_init` and at the top of `ei_game_process`. -/
def keeps_sync_counters (arms : ei_game_arms) : Prop :=
  ∀ game c leave after, arms game c = some (leave, after) →
    after.sync_counter = game.sync_counter ∧
      after.sync_counter_reload = game.sync_counter_reload

/-- Successive calls of `ei_game_process`, one for each input character: for each call
the value of `sync` it passed to `eetg_world_render` and the value of `sync_counter`
it left, and the game after the last call; `none` when a call fails an assertion. -/
def run_process (arms : ei_game_arms) :
    ei_game → List Int → Option (List (Bool × Int) × ei_game)
  | game, [] => some ([], game)
  | game, c :: rest =>
    (ei_game_process arms game c).bind (fun outcome =>
      (run_process arms outcome.game rest).map (fun result =>
        ((outcome.sync, outcome.game.sync_counter) :: result.1, result.2)))

/-! ## Scenarios -/

/-- The sprite `"abc"` at `(0, 0)`. -/
def scenario_abc : eetg_object :=
  { sprite := chars "abc\n", width := 3, height := 1 }

/-- The sprite `" x "` at `(1, 0)`. -/
def scenario_x : eetg_object :=
  { sprite := chars " x \n", width := 3, height := 1, x := 1 }

/-- An object of one cell at `(0, 0)`. -/
def scenario_dot : eetg_object :=
  { sprite := chars "#\n", width := 1, height := 1 }

/-- An object of one cell at `(5, 0)`. -/
def scenario_far_dot : eetg_object :=
  { sprite := chars "#\n", width := 1, height := 1, x := 5 }

/-- The sprite `"# "` at `(0, 0)`. -/
def scenario_left : eetg_object :=
  { sprite := chars "# \n", width := 2, height := 1 }

/-- The sprite `" #"` at `(0, 0)`. -/
def scenario_right : eetg_object :=
  { sprite := chars " #\n", width := 2, height := 1 }

/-- The sprite `"   \n   \n"`, all spaces. -/
def scenario_blank : eetg_object :=
  { sprite := chars "   \n   \n", width := 3, height := 2 }

/-- The sprite `"  #\n   \n"`. -/
def scenario_hash : eetg_object :=
  { sprite := chars "  #\n   \n", width := 3, height := 2 }

/-- The sprite of the lines `"ab"` and `"cd"`, at `(4, 2)`. -/
def scenario_two_rows : eetg_object :=
  { sprite := text_of_rows [chars "ab", chars "cd"], width := 2, height := 2, x := 4, y := 2 }

/-- The memory of an object that is not initialised yet, at address 7. -/
def scenario_slot : eetg_object :=
  { address := 7, sprite := [], width := 0, height := 0 }

/-- The world `eetg_world_init` leaves: no member, both views all spaces in the
background colour, the cursor unknown, the colour white, nothing written. -/
def fresh_world : eetg_world :=
  { written := []
    objects := []
    views_0 := uniform_view { c := SPACE, color := EETG_BG_COLOR }
    views_1 := uniform_view { c := SPACE, color := EETG_BG_COLOR }
    view := false
    prev_view := true
    cursor_row := -1
    cursor_column := -1
    current_color := EETG_FG_COLOR }

/-- A fresh world to which the one-cell sprite `"A"`, coloured red, was added at
`(2, 1)`. -/
def scenario_red_a : eetg_world :=
  { fresh_world with
    objects := [{ address := 1, world := some 0, sprite := chars "A\n", width := 1,
                  height := 1, color := EETG_COLOR_RED, x := 2, y := 1 }] }

/-- A one-cell object at `(-1, -1)`, where `eetg_object_move` has put it. -/
def scenario_clipped_object : eetg_object :=
  { address := 1, world := some 0, sprite := chars "#\n", width := 1, height := 1,
    x := -1, y := -1 }

/-- A fresh world to which a one-cell object was added at `(5, 5)` and then moved to
`(-1, -1)`; no collision handler is registered, so the two calls only set the
position. -/
def scenario_clipped : eetg_world :=
  { fresh_world with objects := [scenario_clipped_object] }

/-- The world of the second frame: the state a first `eetg_world_render` in sync mode
leaves a fresh world in.  The view rendered is all spaces in the foreground colour and
is now the previous view, the cached cursor is `(0, 0)`. -/
def scenario_second_frame : eetg_world :=
  { written := [hide_cursor_sequence, color_sequence EETG_FG_COLOR, clear_screen_sequence,
      cursor_sequence 0 0]
    objects := []
    views_0 := uniform_view { c := SPACE, color := EETG_FG_COLOR }
    views_1 := uniform_view { c := SPACE, color := EETG_BG_COLOR }
    view := true
    prev_view := false
    cursor_row := 0
    cursor_column := 0
    current_color := EETG_FG_COLOR }

/-- A terminal that shows the previous view of `scenario_red_a` and is in step with
its cached cursor and colour. -/
def scenario_terminal : terminal :=
  { grid := fun r c => scenario_red_a.previous.cell r c
    cursor_row := -1
    cursor_column := -1
    color := EETG_FG_COLOR }


/-- A fresh world in which the collision handler at address 1 was registered. -/
def scenario_handler_world : eetg_world :=
  { fresh_world with handle_collision_fn := some 1 }

/-- The object `eetg_object_init` returns for the sprite text of one empty line, at
address 2: its width is 0. -/
def scenario_empty_line : eetg_object :=
  { address := 2, sprite := chars "\n", width := 0, height := 1 }

/-- The world with a registered handler to which the object of the empty line was
added at `(5, 0)`. -/
def scenario_zero_width_world : eetg_world :=
  { fresh_world with
    handle_collision_fn := some 1
    objects := [{ address := 2, world := some 0, sprite := chars "\n", width := 0,
                  height := 1, x := 5 }] }

/-- The object `eetg_object_init` returns for the sprite `"abc"`, at address 3; it is
attached to no world. -/
def scenario_detached_abc : eetg_object :=
  { address := 3, sprite := chars "abc\n", width := 3, height := 1 }

/-- The one-cell object at address 4, attached to the world at address 0 at
`(9, 9)`. -/
def scenario_member_dot : eetg_object :=
  { address := 4, world := some 0, sprite := chars "#\n", width := 1, height := 1,
    x := 9, y := 9 }

/-- The sprite `"bc"` at address 5, attached to the world at address 0 at `(5, 0)`. -/
def scenario_member_bc : eetg_object :=
  { address := 5, world := some 0, sprite := chars "bc\n", width := 2, height := 1,
    x := 5 }

/-- A world with a registered handler and two members, the one added last first. -/
def scenario_pair : eetg_world :=
  { fresh_world with
    handle_collision_fn := some 1
    objects := [scenario_member_bc, scenario_member_dot] }

/-- A world with no registered handler and two members. -/
def scenario_silent_pair : eetg_world :=
  { fresh_world with objects := [scenario_member_bc, scenario_member_dot] }

/-- The one-cell object at address 4 as `eetg_object_init` leaves it. -/
def scenario_detached_dot : eetg_object :=
  { address := 4, sprite := chars "#\n", width := 1, height := 1 }

/-- The sprite `"abc"` at address 3, attached to the world at address 0 at `(4, 0)`. -/
def scenario_attached_abc : eetg_object :=
  { address := 3, world := some 0, sprite := chars "abc\n", width := 3, height := 1,
    x := 4 }

/-- The memory of a program that has initialised its world and two objects. -/
def scenario_memory_start : engine_memory :=
  { world := fresh_world, objects := [scenario_detached_abc, scenario_detached_dot] }

/-- The memory after the one-cell object was added at `(9, 9)`. -/
def scenario_memory_one : engine_memory :=
  { world := { fresh_world with objects := [scenario_member_dot] }
    objects := [scenario_detached_abc] }

/-- The memory after the sprite `"abc"` was then added at `(4, 0)`. -/
def scenario_memory_two : engine_memory :=
  { world := { fresh_world with objects := [scenario_attached_abc, scenario_member_dot] }
    objects := [] }

/-- The memory after the one-cell object was then removed. -/
def scenario_memory_three : engine_memory :=
  { world := { fresh_world with objects := [scenario_attached_abc] }
    objects := [{ scenario_member_dot with world := none }] }

/-- The memory of a program that has initialised its world and two objects and has
rendered a first frame, in sync mode. -/
def scenario_memory_rendered : engine_memory :=
  { world := scenario_second_frame, objects := [scenario_detached_abc, scenario_detached_dot] }
/-! ## Scenarios of the behaviour claims -/

/-- A fresh world to which a one-cell object `#` was added at the last cell of the
grid, column 79 of row 23. -/
def scenario_corner : eetg_world :=
  { fresh_world with
    objects := [{ address := 1, world := some 0, sprite := chars "#\n", width := 1,
                  height := 1, x := 79, y := 23 }] }

/-- A handler that begins, as `ei_game_handle_player_missile_collision` does with
the missile, by removing its first object from the world, with no test of
`eetg_object_get_world`. -/
def scenario_removing_handler : collision_handler :=
  fun memory call => memory.call (engine_call.remove call.object1)

/-- A handler that removes its first object from the world when that object is
attached to it, and does nothing otherwise. -/
def scenario_tolerant_handler : collision_handler :=
  fun memory call =>
    match memory.object_at call.object1 with
    | none => none
    | some object =>
      if eetg_object_get_world object = some memory.world.address then
        memory.call (engine_call.remove call.object1)
      else some memory

/-- A program memory: a world with a registered handler whose members are two
one-cell objects, at `(6, 5)` (address 6, added last) and at `(5, 5)` (address 5), and
a detached object `"##"` at address 7. -/
def scenario_two_targets : engine_memory :=
  { world :=
      { fresh_world with
        handle_collision_fn := some 1
        objects :=
          [{ address := 6, world := some 0, sprite := chars "#\n", width := 1, height := 1,
             x := 6, y := 5 },
           { address := 5, world := some 0, sprite := chars "#\n", width := 1, height := 1,
             x := 5, y := 5 }] }
    objects := [{ address := 7, sprite := chars "##\n", width := 2, height := 1 }] }

/-- The object of the alien of index `i` of the group `j`, at address
`100 + 10 * j + i`, with the sprite and the colour `ei_game_init_aliens` gives the
group and at the position `ei_game_add_aliens` puts it; `alive` tells whether it is
still attached to the world, at address 0. -/
def scenario_alien (alive : Nat → Nat → Bool) (j i : Nat) : eetg_object :=
  { address := 100 + 10 * j + i
    world := if alive j i then some 0 else none
    sprite :=
      if j = 0 then chars ",^,\n" else if j = 1 ∨ j = 2 then chars "-O_\n"
      else chars "/^\\\n"
    color :=
      if j = 0 then EETG_COLOR_RED else if j = 1 ∨ j = 2 then EETG_COLOR_GREEN
      else EETG_COLOR_BLUE
    type := EI_TYPE_ALIEN
    x := 3 * (i : Int)
    y := 3 + 2 * (j : Int)
    width := 3
    height := 1 }

/-- The objects of the fifty aliens, by group and index. -/
def scenario_aliens (alive : Nat → Nat → Bool) : List eetg_object :=
  (List.range EI_NR_ALIEN_GROUPS).flatMap (fun (j : Nat) =>
    (List.range EI_ALIEN_GROUP_SIZE).map (fun (i : Nat) => scenario_alien alive j i))

/-- A game in the state `EI_STATE_PLAYING` in which the aliens still alive are those
`alive` tells, the other ones having been removed from the world, and
`nr_dead_aliens` has the given value.  The members of the world are the live aliens,
the one added last first. -/
def scenario_fleet (alive : Nat → Nat → Bool) (nr_dead_aliens : Int) : ei_game :=
  { memory :=
      { world :=
          { fresh_world with
            handle_collision_fn := some 1
            objects := (scenario_aliens alive).reverse.filter
              (fun o => decide (o.world ≠ none)) }
        objects := (scenario_aliens alive).filter (fun o => decide (o.world = none)) }
    aliens := (List.range EI_NR_ALIEN_GROUPS).map (fun (j : Nat) =>
      { aliens := (List.range EI_ALIEN_GROUP_SIZE).map (fun (i : Nat) => 100 + 10 * j + i) })
    eetg_rand_next := 1
    score := 0
    sync_counter_reload := 100
    sync_counter := 50
    nr_lives := EI_NR_LIVES
    aliens_speed_counter_reload := 5
    nr_dead_aliens := nr_dead_aliens
    state := EI_STATE_PLAYING }

/-- The game in which the only alien alive is the last one of the first group, in the
rightmost column; its object is at address 109. -/
def scenario_last_alien : ei_game :=
  scenario_fleet (fun j i => decide (j = 0 ∧ i = 9)) 49

/-- The game in which the ten aliens of the first group are alive and the forty other
ones are dead. -/
def scenario_first_group : ei_game :=
  scenario_fleet (fun j _ => decide (j = 0)) 40

/-- A game struct before `ei_game_init`, with arbitrary values in its counters; its
memory is a fresh world with no object. -/
def scenario_raw_game : ei_game :=
  { memory := { world := fresh_world, objects := [] }
    aliens := []
    eetg_rand_next := 1
    score := -7
    sync_counter_reload := -3
    sync_counter := 77
    nr_lives := 0
    aliens_speed_counter_reload := 0
    nr_dead_aliens := 0
    state := 9 }

/-- Code for the two arms of `ei_game_process` that only sets the state to
`EI_STATE_PLAYING`. -/
def scenario_arms : ei_game_arms :=
  fun game _ => some (false, { game with state := EI_STATE_PLAYING })

/-- The object `eetg_object_init` returns for the sprite text of the two bytes `0xC3`,
`0xA9` (the UTF-8 text `é`) and a line break, at address 8: as `char`s the two bytes
are -61 and -87. -/
def scenario_accent : eetg_object :=
  { address := 8, sprite := [-61, -87, 10], width := 2, height := 1 }

/-- The sprite `"##"` at address 9, attached to the world at address 0 at `(0, 0)`. -/
def scenario_member_hashes : eetg_object :=
  { address := 9, world := some 0, sprite := chars "##\n", width := 2, height := 1 }

/-- A world with a registered handler whose only member is the sprite `"##"`. -/
def scenario_hashes : eetg_world :=
  { fresh_world with
    handle_collision_fn := some 1
    objects := [scenario_member_hashes] }

/-! ## Collision detection: lemmas -/

theorem get_char_eq_glyph_at (o : eetg_object) (px py : Int) (h : in_box o px py) :
    eetg_object_get_char o px py = glyph_at o px py := by
  obtain ⟨h1, h2, h3, h4⟩ := h
  have hx : (px - o.x) % o.width = px - o.x :=
    Int.emod_eq_of_lt (by omega) (by omega)
  have hnn : 0 ≤ (o.width + 1) * (py - o.y) :=
    Int.mul_nonneg (by omega) (by omega)
  unfold eetg_object_get_char eetg_object_get_cell glyph_at sprite_at
  simp only [hx]
  rw [if_neg (by omega), if_neg (by omega)]

theorem glyph_printable (o : eetg_object) (px py : Int) (hwf : well_formed_sprite o)
    (h : in_box o px py) : 32 ≤ glyph_at o px py ∧ glyph_at o px py ≤ 126 := by
  obtain ⟨hw, hh, hlen, hall⟩ := hwf
  obtain ⟨h1, h2, h3, h4⟩ := h
  obtain ⟨w, hweq⟩ : ∃ w : Nat, o.width = (w : Int) := ⟨o.width.toNat, by omega⟩
  obtain ⟨ht, hteq⟩ : ∃ t : Nat, o.height = (t : Int) := ⟨o.height.toNat, by omega⟩
  obtain ⟨r, hr⟩ : ∃ r : Nat, py - o.y = (r : Int) := ⟨(py - o.y).toNat, by omega⟩
  obtain ⟨c, hc⟩ : ∃ c : Nat, px - o.x = (c : Int) := ⟨(px - o.x).toNat, by omega⟩
  have hidx : (((o.width + 1) * (py - o.y)) + (px - o.x)).toNat = (w + 1) * r + c := by
    rw [hr, hc, hweq]
    have : (((w : Int) + 1) * (r : Int)) + (c : Int) = (((w + 1) * r + c : Nat) : Int) := by
      push_cast; ring
    rw [this, Int.toNat_natCast]
  have hcw : c < w := by omega
  have hrt : r < ht := by omega
  rw [hweq, hteq] at hlen
  rw [hweq] at hall
  simp only [Int.toNat_natCast] at hlen hall
  have hlt : (w + 1) * r + c < o.sprite.length := by
    rw [hlen]
    calc (w + 1) * r + c < (w + 1) * r + (w + 1) := by omega
      _ = (w + 1) * (r + 1) := by ring
      _ ≤ (w + 1) * ht := Nat.mul_le_mul_left _ hrt
  have hmod : ((w + 1) * r + c) % (w + 1) ≠ w := by
    rw [Nat.mul_add_mod, Nat.mod_eq_of_lt (by omega)]
    omega
  have := (hall _ hlt).2 hmod
  unfold glyph_at
  rw [hidx]
  exact this

/-- The inner loop over cells that lie in both boxes, for sprites whose glyphs are all
positive: it stops at the first cell of the column where both glyphs are non-space. -/
theorem rows_scan_first (a b : eetg_object) (i : Int)
    (hpos : ∀ k, in_box a i k → in_box b i k → 0 < glyph_at a i k ∧ 0 < glyph_at b i k) :
    ∀ (count : Nat) (j : Int),
      (∀ k, j ≤ k → k < j + count → in_box a i k ∧ in_box b i k) →
      (check_collision_rows a b i j count = column_scan.finished ∧
        ∀ k, j ≤ k → k < j + count → ¬ both_solid a b i k) ∨
      (∃ k, j ≤ k ∧ k < j + count ∧
        check_collision_rows a b i j count = column_scan.returned [(i, k)] ∧
        both_solid a b i k ∧ ∀ k', j ≤ k' → k' < k → ¬ both_solid a b i k') := by
  intro count
  induction count with
  | zero =>
    intro j _
    left
    refine ⟨rfl, ?_⟩
    intro k h1 h2
    simp at h2
    omega
  | succ n ih =>
    intro j hbox
    have hj := hbox j (le_refl _) (by push_cast; omega)
    have hp := hpos j hj.1 hj.2
    have e1 := get_char_eq_glyph_at a i j hj.1
    have e2 := get_char_eq_glyph_at b i j hj.2
    unfold check_collision_rows
    simp only [e1, e2]
    rw [if_neg (by omega)]
    by_cases hsp : glyph_at a i j = SPACE ∨ glyph_at b i j = SPACE
    · rw [if_pos hsp]
      have hnot : ¬ both_solid a b i j := by
        intro hs
        rcases hsp with h | h
        · exact hs.2.2.1 h
        · exact hs.2.2.2 h
      rcases ih (j + 1) (fun k h1 h2 => hbox k (by omega) (by push_cast; omega)) with
        ⟨hfin, hno⟩ | ⟨k, hk1, hk2, hret, hsol, hbefore⟩
      · left
        refine ⟨hfin, ?_⟩
        intro k h1 h2
        by_cases hk : k = j
        · subst hk; exact hnot
        · exact hno k (by omega) (by push_cast at h2; omega)
      · right
        refine ⟨k, by omega, by push_cast; omega, hret, hsol, ?_⟩
        intro k' h1 h2
        by_cases hk : k' = j
        · subst hk; exact hnot
        · exact hbefore k' (by omega) h2
    · rw [if_neg hsp]
      right
      refine ⟨j, le_refl _, by push_cast; omega, rfl, ?_, ?_⟩
      · exact ⟨hj.1, hj.2, fun h => hsp (Or.inl h), fun h => hsp (Or.inr h)⟩
      · intro k' h1 h2
        omega

/-- The outer loop over a rectangle inside both boxes, for sprites whose glyphs are
all positive: it reports the first cell, in scan order, where both glyphs are
non-space, or runs to its end when there is none. -/
theorem columns_scan_first (a b : eetg_object) (ytl : Int) (rows : Nat)
    (hpos : ∀ i k, in_box a i k → in_box b i k → 0 < glyph_at a i k ∧ 0 < glyph_at b i k) :
    ∀ (count : Nat) (i : Int),
      (∀ c k, i ≤ c → c < i + count → ytl ≤ k → k < ytl + rows →
        in_box a c k ∧ in_box b c k) →
      (check_collision_columns a b ytl rows i count = [] ∧
        ∀ c k, i ≤ c → c < i + count → ytl ≤ k → k < ytl + rows → ¬ both_solid a b c k) ∨
      (∃ c k, i ≤ c ∧ c < i + count ∧ ytl ≤ k ∧ k < ytl + rows ∧
        check_collision_columns a b ytl rows i count = [(c, k)] ∧
        both_solid a b c k ∧
        ∀ c' k', i ≤ c' → c' < i + count → ytl ≤ k' → k' < ytl + rows →
          both_solid a b c' k' → scan_le c k c' k') := by
  intro count
  induction count with
  | zero =>
    intro i _
    left
    refine ⟨rfl, ?_⟩
    intro c k h1 h2
    simp at h2
    omega
  | succ n ih =>
    intro i hbox
    unfold check_collision_columns
    rcases rows_scan_first a b i (hpos i) rows ytl
        (fun k h1 h2 => hbox i k (le_refl _) (by push_cast; omega) h1 h2) with
      ⟨hfin, hno⟩ | ⟨k, hk1, hk2, hret, hsol, hbefore⟩
    · rw [hfin]
      simp only
      rcases ih (i + 1) (fun c k h1 h2 => hbox c k (by omega) (by push_cast; omega)) with
        ⟨hnil, hno'⟩ | ⟨c, k, hc1, hc2, hk1, hk2, hret, hsol, hmin⟩
      · left
        refine ⟨hnil, ?_⟩
        intro c k h1 h2 h3 h4
        by_cases hc : c = i
        · subst hc; exact hno k h3 h4
        · exact hno' c k (by omega) (by push_cast at h2; omega) h3 h4
      · right
        refine ⟨c, k, by omega, by push_cast; omega, hk1, hk2, hret, hsol, ?_⟩
        intro c' k' h1 h2 h3 h4 hs
        by_cases hc : c' = i
        · subst hc; exact absurd hs (hno k' h3 h4)
        · exact hmin c' k' (by omega) (by push_cast at h2; omega) h3 h4 hs
    · rw [hret]
      simp only
      right
      refine ⟨i, k, le_refl _, by push_cast; omega, hk1, hk2, rfl, hsol, ?_⟩
      intro c' k' h1 h2 h3 h4 hs
      by_cases hc : c' = i
      · subst hc
        right
        refine ⟨rfl, ?_⟩
        by_contra hlt
        exact hbefore k' h3 (by omega) hs
      · left; omega

/-- The inner loop over cells that lie in both boxes and of which, at every cell, one
glyph at least is a space: the handler is not called. -/
theorem rows_scan_transparent (a b : eetg_object) (i : Int) :
    ∀ (count : Nat) (j : Int),
      (∀ k, j ≤ k → k < j + count →
        in_box a i k ∧ in_box b i k ∧ (glyph_at a i k = SPACE ∨ glyph_at b i k = SPACE)) →
      check_collision_rows a b i j count = column_scan.finished ∨
      check_collision_rows a b i j count = column_scan.returned [] := by
  intro count
  induction count with
  | zero => intro j _; left; rfl
  | succ n ih =>
    intro j hbox
    obtain ⟨ha, hb, hsp⟩ := hbox j (le_refl _) (by push_cast; omega)
    unfold check_collision_rows
    simp only [get_char_eq_glyph_at a i j ha, get_char_eq_glyph_at b i j hb]
    by_cases hz : glyph_at a i j ≤ 0 ∨ glyph_at b i j ≤ 0
    · rw [if_pos hz]; right; rfl
    · rw [if_neg hz, if_pos hsp]
      exact ih (j + 1) (fun k h1 h2 => hbox k (by omega) (by push_cast; omega))

theorem columns_scan_transparent (a b : eetg_object) (ytl : Int) (rows : Nat) :
    ∀ (count : Nat) (i : Int),
      (∀ c k, i ≤ c → c < i + count → ytl ≤ k → k < ytl + rows →
        in_box a c k ∧ in_box b c k ∧ (glyph_at a c k = SPACE ∨ glyph_at b c k = SPACE)) →
      check_collision_columns a b ytl rows i count = [] := by
  intro count
  induction count with
  | zero => intro i _; rfl
  | succ n ih =>
    intro i hbox
    unfold check_collision_columns
    rcases rows_scan_transparent a b i rows ytl
        (fun k h1 h2 => hbox i k (le_refl _) (by push_cast; omega) h1 h2) with h | h
    · rw [h]
      exact ih (i + 1) (fun c k h1 h2 => hbox c k (by omega) (by push_cast; omega))
    · rw [h]

/-- When the boxes have a common cell, no assertion fails and the result is the scan of
the intersection rectangle. -/
theorem check_collision_of_intersect (a b : eetg_object) (h : boxes_intersect a b) :
    ∃ (xtl ytl : Int) (columns rows : Nat),
      eetg_object_check_collision a b =
        some (check_collision_columns a b ytl rows xtl columns) ∧
      ∀ c k, (xtl ≤ c ∧ c < xtl + columns ∧ ytl ≤ k ∧ k < ytl + rows) ↔
        (in_box a c k ∧ in_box b c k) := by
  obtain ⟨px, py, ⟨a1, a2, a3, a4⟩, ⟨b1, b2, b3, b4⟩⟩ := h
  unfold eetg_object_check_collision
  simp only
  rw [if_neg (by omega), if_neg (by split_ifs <;> omega), if_neg (by split_ifs <;> omega)]
  refine ⟨_, _, _, _, rfl, ?_⟩
  intro c k
  unfold in_box
  split_ifs <;> omega

/-- C1: for two objects with well-formed sprites of printable glyphs that both show a
non-space glyph at some grid cell, `eetg_object_check_collision` returns after exactly
one handler call, and the cell it passes is the first cell, in the scan with x
ascending outside and y ascending inside, where both glyphs are non-space. -/
theorem check_collision_reports_first_overlap (a b : eetg_object)
    (ha : well_formed_sprite a) (hb : well_formed_sprite b)
    (h : ∃ qx qy, both_solid a b qx qy) :
    ∃ px py, both_solid a b px py ∧
      (∀ qx qy, both_solid a b qx qy → scan_le px py qx qy) ∧
      eetg_object_check_collision a b = some [(px, py)] := by
  obtain ⟨qx, qy, hq⟩ := h
  obtain ⟨xtl, ytl, columns, rows, heq, hrect⟩ :=
    check_collision_of_intersect a b ⟨qx, qy, hq.1, hq.2.1⟩
  have hpos : ∀ i k, in_box a i k → in_box b i k →
      0 < glyph_at a i k ∧ 0 < glyph_at b i k := by
    intro i k h1 h2
    have := glyph_printable a i k ha h1
    have := glyph_printable b i k hb h2
    omega
  rcases columns_scan_first a b ytl rows hpos columns xtl
      (fun c k h1 h2 h3 h4 => (hrect c k).1 ⟨h1, h2, h3, h4⟩) with
    ⟨_, hno⟩ | ⟨c, k, _, _, _, _, hret, hsol, hmin⟩
  · obtain ⟨h1, h2, h3, h4⟩ := (hrect qx qy).2 ⟨hq.1, hq.2.1⟩
    exact absurd hq (hno qx qy h1 h2 h3 h4)
  · refine ⟨c, k, hsol, ?_, by rw [heq, hret]⟩
    intro c' k' hs
    obtain ⟨h1, h2, h3, h4⟩ := (hrect c' k').2 ⟨hs.1, hs.2.1⟩
    exact hmin c' k' h1 h2 h3 h4 hs

/-- C1 at the scenario of the specification: `"abc"` at `(0, 0)` against `" x "` at
`(1, 0)` reports the cell `(2, 0)`. -/
theorem check_collision_reports_first_overlap_witness :
    well_formed_sprite scenario_abc ∧ well_formed_sprite scenario_x ∧
    both_solid scenario_abc scenario_x 2 0 ∧
    eetg_object_check_collision scenario_abc scenario_x = some [(2, 0)] ∧
    ∃ px py, both_solid scenario_abc scenario_x px py ∧
      (∀ qx qy, both_solid scenario_abc scenario_x qx qy → scan_le px py qx qy) ∧
      eetg_object_check_collision scenario_abc scenario_x = some [(px, py)] :=
  ⟨by decide, by decide, by decide, by decide,
    check_collision_reports_first_overlap scenario_abc scenario_x (by decide) (by decide)
      ⟨2, 0, by decide⟩⟩

/-- C2: when the bounding boxes of the two objects have no cell in common,
`eetg_object_check_collision` makes no handler call, whatever the sprites hold: it
returns at once, or (only for a box of no cell) stops at an assertion before any
scan; for objects of positive width and height it returns at once. -/
theorem check_collision_disjoint_boxes (a b : eetg_object)
    (h : ¬ boxes_intersect a b) :
    (eetg_object_check_collision a b = some [] ∨
      eetg_object_check_collision a b = none) ∧
    (0 < a.width ∧ 0 < a.height ∧ 0 < b.width ∧ 0 < b.height →
      eetg_object_check_collision a b = some []) := by
  unfold eetg_object_check_collision
  simp only
  by_cases h1 : b.x > a.x + a.width - 1 ∨ a.x > b.x + b.width - 1 ∨
      b.y > a.y + a.height - 1 ∨ a.y > b.y + b.height - 1
  · rw [if_pos h1]
    exact ⟨Or.inl rfl, fun _ => rfl⟩
  · rw [if_neg h1]
    refine ⟨?_, ?_⟩
    · right
      by_cases h2 : (if a.x > b.x then a.x else b.x) ≤
          (if a.x + a.width - 1 < b.x + b.width - 1 then a.x + a.width - 1
            else b.x + b.width - 1)
      · rw [if_neg (not_not.mpr h2)]
        by_cases h3 : (if a.y > b.y then a.y else b.y) ≤
            (if a.y + a.height - 1 < b.y + b.height - 1 then a.y + a.height - 1
              else b.y + b.height - 1)
        · exfalso
          apply h
          refine ⟨if a.x > b.x then a.x else b.x, if a.y > b.y then a.y else b.y, ?_, ?_⟩
          · unfold in_box; split_ifs at h2 h3 ⊢ <;> omega
          · unfold in_box; split_ifs at h2 h3 ⊢ <;> omega
        · rw [if_pos h3]
      · rw [if_pos h2]
    · rintro ⟨ha1, ha2, hb1, hb2⟩
      exfalso
      apply h
      refine ⟨if a.x > b.x then a.x else b.x, if a.y > b.y then a.y else b.y, ?_, ?_⟩
      · unfold in_box; split_ifs <;> omega
      · unfold in_box; split_ifs <;> omega

theorem scenario_dots_disjoint : ¬ boxes_intersect scenario_dot scenario_far_dot := by
  rintro ⟨px, py, ⟨h1, h2, _, _⟩, ⟨h3, h4, _, _⟩⟩
  simp only [scenario_dot, scenario_far_dot] at h1 h2 h3 h4
  omega

/-- C2 at two one-cell objects five columns apart. -/
theorem check_collision_disjoint_boxes_witness :
    ¬ boxes_intersect scenario_dot scenario_far_dot ∧
    (eetg_object_check_collision scenario_dot scenario_far_dot = some [] ∨
      eetg_object_check_collision scenario_dot scenario_far_dot = none) ∧
    (0 < scenario_dot.width ∧ 0 < scenario_dot.height ∧ 0 < scenario_far_dot.width ∧
        0 < scenario_far_dot.height →
      eetg_object_check_collision scenario_dot scenario_far_dot = some []) :=
  ⟨scenario_dots_disjoint,
    check_collision_disjoint_boxes scenario_dot scenario_far_dot scenario_dots_disjoint⟩

/-- C3: when the bounding boxes intersect and at every cell of the intersection one
of the two glyphs at least is a space, `eetg_object_check_collision` returns without
a handler call. -/
theorem check_collision_transparent_overlap (a b : eetg_object)
    (h : boxes_intersect a b)
    (hsp : ∀ px py, in_box a px py → in_box b px py →
      glyph_at a px py = SPACE ∨ glyph_at b px py = SPACE) :
    eetg_object_check_collision a b = some [] := by
  obtain ⟨xtl, ytl, columns, rows, heq, hrect⟩ := check_collision_of_intersect a b h
  rw [heq, columns_scan_transparent a b ytl rows columns xtl]
  intro c k h1 h2 h3 h4
  obtain ⟨ha, hb⟩ := (hrect c k).1 ⟨h1, h2, h3, h4⟩
  exact ⟨ha, hb, hsp c k ha hb⟩

/-- C3 at `"# "` and `" #"` laid over each other: every cell of the overlap shows a
space in one of the two sprites. -/
theorem check_collision_transparent_overlap_witness :
    boxes_intersect scenario_left scenario_right ∧
    eetg_object_check_collision scenario_left scenario_right = some [] :=
  have hb : boxes_intersect scenario_left scenario_right := ⟨0, 0, by decide, by decide⟩
  ⟨hb, check_collision_transparent_overlap scenario_left scenario_right hb (by
    intro px py ⟨h1, h2, h3, h4⟩ _
    simp only [scenario_left] at h1 h2 h3 h4
    have hy : py = 0 := by omega
    have hx : px = 0 ∨ px = 1 := by omega
    subst hy
    rcases hx with hx | hx <;> subst hx <;> decide)⟩

/-! ## Loops and views: lemmas -/

theorem for_loop_succ {σ : Type} (body : Nat → σ → Option σ) (n : Nat) (s : σ) :
    for_loop body (n + 1) s =
      match for_loop body n s with
      | none => none
      | some s => body n s := rfl

/-- Invariant rule of `for_loop`: the loop ends without a failed assertion and the
invariant holds at its end. -/
theorem for_loop_inv {σ : Type} (body : Nat → σ → Option σ) (I : Nat → σ → Prop)
    (n : Nat) (s : σ) (h0 : I 0 s)
    (hstep : ∀ i, i < n → ∀ t, I i t → ∃ t', body i t = some t' ∧ I (i + 1) t') :
    ∃ t, for_loop body n s = some t ∧ I n t := by
  induction n with
  | zero => exact ⟨s, rfl, h0⟩
  | succ k ih =>
    obtain ⟨t, ht, hI⟩ := ih (fun i hi => hstep i (by omega))
    obtain ⟨t', ht', hI'⟩ := hstep k (by omega) t hI
    exact ⟨t', by rw [for_loop_succ, ht]; exact ht', hI'⟩

/-- Invariant rule of `for_loop`, with a consequence of the invariant at the end. -/
theorem for_loop_inv_post {σ : Type} (body : Nat → σ → Option σ) (I : Nat → σ → Prop)
    (n : Nat) (s : σ) (Q : σ → Prop) (h0 : I 0 s)
    (hstep : ∀ i, i < n → ∀ t, I i t → ∃ t', body i t = some t' ∧ I (i + 1) t')
    (hQ : ∀ t, I n t → Q t) :
    ∃ t, for_loop body n s = some t ∧ Q t := by
  obtain ⟨t, ht, hI⟩ := for_loop_inv body I n s h0 hstep
  exact ⟨t, ht, hQ t hI⟩

/-- Invariant rule of `for_loop`, for an invariant that fixes the final state. -/
theorem for_loop_eq_of_inv {σ : Type} (body : Nat → σ → Option σ) (I : Nat → σ → Prop)
    (n : Nat) (s x : σ) (h0 : I 0 s)
    (hstep : ∀ i, i < n → ∀ t, I i t → ∃ t', body i t = some t' ∧ I (i + 1) t')
    (hx : ∀ t, I n t → t = x) :
    for_loop body n s = some x := by
  obtain ⟨t, ht, hI⟩ := for_loop_inv body I n s h0 hstep
  rw [ht, hx t hI]

theorem view_row_get_cell_nat (view_row : eetg_view_row) (i : Nat) (h : i < EETG_COLUMNS) :
    eetg_view_row_get_cell view_row (i : Int) = some ⟨i, h⟩ := by
  unfold eetg_view_row_get_cell
  rw [dif_pos ⟨by omega, by omega⟩]
  simp

theorem view_get_row_nat (view : eetg_view) (i : Nat) (h : i < EETG_ROWS) :
    eetg_view_get_row view (i : Int) = some ⟨i, h⟩ := by
  unfold eetg_view_get_row
  rw [dif_pos ⟨by omega, by omega⟩]
  simp

theorem view_row_load_eq (view_row : eetg_view_row) (p : Fin EETG_COLUMNS) :
    view_row.columns.get? p.val = some (view_row.load p) := by
  unfold eetg_view_row.load
  rw [List.get?_eq_get]

theorem view_load_eq (view : eetg_view) (p : Fin EETG_ROWS) :
    view.rows.get? p.val = some (view.load p) := by
  unfold eetg_view.load
  rw [List.get?_eq_get]

theorem view_cell_eq_load (view : eetg_view) (p : Fin EETG_ROWS) (q : Fin EETG_COLUMNS) :
    view.cell p.val q.val = (view.load p).load q := by
  unfold eetg_view.cell
  rw [view_load_eq]
  simp only [view_row_load_eq, Option.getD_some]

theorem view_cell_store (view : eetg_view) (p : Fin EETG_ROWS) (view_row : eetg_view_row)
    (r c : Nat) :
    (view.store p view_row).cell r c =
      if r = p.val then (view_row.columns.get? c).getD { c := 0, color := 0 }
      else view.cell r c := by
  unfold eetg_view.cell eetg_view.store
  simp only [List.get?_eq_getElem?, List.getElem?_set]
  by_cases h : r = p.val
  · subst h
    have : p.val < view.rows.length := by rw [view.size]; exact p.isLt
    simp [this]
  · have h' : ¬ p.val = r := fun e => h e.symm
    simp [h, h']

theorem view_row_store_get (view_row : eetg_view_row) (p : Fin EETG_COLUMNS)
    (cell : eetg_view_cell) (c : Nat) :
    (view_row.store p cell).columns.get? c =
      if c = p.val then some cell else view_row.columns.get? c := by
  unfold eetg_view_row.store
  simp only [List.get?_eq_getElem?, List.getElem?_set]
  by_cases h : c = p.val
  · subst h
    have : p.val < view_row.columns.length := by rw [view_row.size]; exact p.isLt
    simp [this]
  · have h' : ¬ p.val = c := fun e => h e.symm
    simp [h, h']

/-- Two views with the same cells are the same view. -/
theorem view_ext (v v' : eetg_view)
    (h : ∀ r c, r < EETG_ROWS → c < EETG_COLUMNS → v.cell r c = v'.cell r c) : v = v' := by
  obtain ⟨rows, hrows⟩ := v
  obtain ⟨rows', hrows'⟩ := v'
  have hlist : rows = rows' := by
    apply List.ext_get (by rw [hrows, hrows'])
    intro r h1 h2
    have hr : r < EETG_ROWS := by rw [← hrows]; exact h1
    generalize hx : rows.get ⟨r, h1⟩ = x
    generalize hy : rows'.get ⟨r, h2⟩ = y
    obtain ⟨cols, hcols⟩ := x
    obtain ⟨cols', hcols'⟩ := y
    have hcl : cols = cols' := by
      apply List.ext_get (by rw [hcols, hcols'])
      intro c h3 h4
      have hc : c < EETG_COLUMNS := by rw [← hcols]; exact h3
      have := h r c hr hc
      unfold eetg_view.cell at this
      simp only [List.get?_eq_get h1, List.get?_eq_get h2, hx, hy,
        List.get?_eq_get h3, List.get?_eq_get h4, Option.getD_some] at this
      exact this
    subst hcl
    rfl
  subst hlist
  rfl

/-! ## Rasterisation: lemmas -/

theorem uniform_view_cell (x : eetg_view_cell) (r c : Nat) (hr : r < EETG_ROWS)
    (hc : c < EETG_COLUMNS) : (uniform_view x).cell r c = x := by
  unfold eetg_view.cell uniform_view uniform_row
  simp only [List.get?_eq_getElem?]
  rw [List.getElem?_replicate, if_pos hr]
  simp only
  rw [List.getElem?_replicate, if_pos hc]
  rfl

/-- The loop that stores one cell value at every column of a row. -/
theorem fill_row (ch color : Int) (view_row : eetg_view_row) :
    ∃ row', for_loop (fun column row_value =>
        match eetg_view_row_get_cell row_value (column : Int) with
        | none => none
        | some view_cell =>
          some (row_value.store view_cell
            (eetg_view_cell_set (row_value.load view_cell) ch color)))
        EETG_COLUMNS view_row = some row' ∧
      ∀ c, c < EETG_COLUMNS → row'.columns.get? c = some { c := ch, color := color } := by
  refine for_loop_inv _
    (fun k (t : eetg_view_row) => ∀ c, c < k →
      t.columns.get? c = some { c := ch, color := color })
    EETG_COLUMNS view_row (by intro c hc; omega) ?_
  intro i hi t hI
  refine ⟨t.store ⟨i, hi⟩ (eetg_view_cell_set (t.load ⟨i, hi⟩) ch color),
    by simp only [view_row_get_cell_nat t i hi], ?_⟩
  intro c hc
  rw [view_row_store_get]
  by_cases hci : c = i
  · simp [hci, eetg_view_cell_set]
  · simp only [hci, if_false]
    exact hI c (by omega)

/-- The loop that stores one cell value at every cell of a view. -/
theorem fill_view (ch color : Int) (view : eetg_view) :
    for_loop (fun row view =>
      match eetg_view_get_row view (row : Int) with
      | none => none
      | some view_row =>
        match
          for_loop (fun column row_value =>
            match eetg_view_row_get_cell row_value (column : Int) with
            | none => none
            | some view_cell =>
              some (row_value.store view_cell
                (eetg_view_cell_set (row_value.load view_cell) ch color)))
            EETG_COLUMNS (view.load view_row) with
        | none => none
        | some row_value => some (view.store view_row row_value))
      EETG_ROWS view = some (uniform_view { c := ch, color := color }) := by
  refine for_loop_eq_of_inv _
    (fun k (t : eetg_view) => ∀ r c, r < k → c < EETG_COLUMNS →
      t.cell r c = { c := ch, color := color })
    EETG_ROWS view _ (by intro r c hr; omega) ?_ ?_
  · intro i hi t hI
    obtain ⟨row', hrow, hcells⟩ := fill_row ch color (t.load ⟨i, hi⟩)
    refine ⟨t.store ⟨i, hi⟩ row', ?_, ?_⟩
    · simp only [view_get_row_nat t i hi]
      rw [hrow]
    · intro r c hr hc
      rw [view_cell_store]
      by_cases hri : r = i
      · simp only [hri, if_true]
        rw [hcells c hc]; rfl
      · simp only [hri, if_false]
        exact hI r c (by omega) hc
  · intro t hI
    apply view_ext
    intro r c hr hc
    rw [hI r c hr hc, uniform_view_cell _ r c hr hc]

theorem render_clear_eq (view : eetg_view) :
    eetg_world_render_clear view =
      some (uniform_view { c := SPACE, color := EETG_FG_COLOR }) :=
  fill_view SPACE EETG_FG_COLOR view

theorem view_init_eq (view : eetg_view) :
    eetg_view_init view = some (uniform_view { c := SPACE, color := EETG_BG_COLOR }) := by
  have h := fill_view SPACE EETG_BG_COLOR view
  unfold eetg_view_init eetg_view_row_init
  exact h

theorem world_init_eq (world : eetg_world) :
    eetg_world_init world =
      some { fresh_world with
        address := world.address
        handle_collision_fn_arg := world.handle_collision_fn_arg } := by
  unfold eetg_world_init
  rw [view_init_eq, view_init_eq]
  rfl

theorem view_row_get_cell_int (view_row : eetg_view_row) (index : Int) (h0 : 0 ≤ index)
    (h1 : index < (EETG_COLUMNS : Int)) :
    ∃ p : Fin EETG_COLUMNS, p.val = index.toNat ∧
      eetg_view_row_get_cell view_row index = some p := by
  unfold eetg_view_row_get_cell
  rw [dif_pos ⟨h0, h1⟩]
  exact ⟨_, rfl, rfl⟩

theorem view_get_row_int (view : eetg_view) (index : Int) (h0 : 0 ≤ index)
    (h1 : index < (EETG_ROWS : Int)) :
    ∃ p : Fin EETG_ROWS, p.val = index.toNat ∧ eetg_view_get_row view index = some p := by
  unfold eetg_view_get_row
  rw [dif_pos ⟨h0, h1⟩]
  exact ⟨_, rfl, rfl⟩

theorem step_cond_congr (o : eetg_object) (c r i : Nat) (hci : ¬ (c : Int) = o.x + (i : Int))
    {α : Type} (x y : α) :
    (if o.x ≤ (c : Int) ∧ (c : Int) < o.x + (i : Int) ∧
        glyph_at o (c : Int) (r : Int) ≠ SPACE then x else y) =
    (if o.x ≤ (c : Int) ∧ (c : Int) < o.x + ((i + 1 : Nat) : Int) ∧
        glyph_at o (c : Int) (r : Int) ≠ SPACE then x else y) := by
  refine if_congr ?_ rfl rfl
  constructor
  · rintro ⟨h1, h2, h3⟩; exact ⟨h1, by omega, h3⟩
  · rintro ⟨h1, h2, h3⟩; exact ⟨h1, by omega, h3⟩

/-- The function `eetg_object_render_row` fails no assertion for a row of the sprite, and writes
into the view row exactly the non-space glyphs of that sprite row that fall on a
column of the grid. -/
theorem object_render_row_spec (o : eetg_object) (k : Nat) (hk : (k : Int) < o.height)
    (r : Nat) (hr : (r : Int) = o.y + (k : Int)) (view_row : eetg_view_row) :
    ∃ row', eetg_object_render_row o (k : Int) view_row = some row' ∧
      ∀ c, c < EETG_COLUMNS →
        row'.columns.get? c =
          some (raster_cell o ((view_row.columns.get? c).getD { c := 0, color := 0 }) r c) := by
  unfold eetg_object_render_row
  rw [if_neg (by omega)]
  simp only
  refine for_loop_inv_post _
    (fun j (t : eetg_view_row) => ∀ c, c < EETG_COLUMNS →
      t.columns.get? c =
        some (if o.x ≤ (c : Int) ∧ (c : Int) < o.x + (j : Int) ∧
            glyph_at o (c : Int) (r : Int) ≠ SPACE then
          { c := glyph_at o (c : Int) (r : Int), color := o.color }
        else (view_row.columns.get? c).getD { c := 0, color := 0 }))
    o.width.toNat view_row _
    (by
      intro c hc
      rw [if_neg (by omega)]
      have : c < view_row.columns.length := by rw [view_row.size]; exact hc
      rw [List.get?_eq_get this]; rfl)
    (by
      intro i hi t hI
      by_cases hcol : o.x + (i : Int) < 0 ∨ o.x + (i : Int) ≥ (EETG_COLUMNS : Int)
      · refine ⟨t, by simp only [if_pos hcol], ?_⟩
        intro c hc
        rw [hI c hc]
        congr 1
        by_cases hci : (c : Int) = o.x + (i : Int)
        · omega
        · exact step_cond_congr o c r i hci _ _
      · have hglyph : sprite_at o.sprite ((o.width + 1) * (k : Int) + (i : Int)) =
            glyph_at o (o.x + (i : Int)) (r : Int) := by
          unfold sprite_at glyph_at
          rw [hr]
          congr 2
          ring
        obtain ⟨p, hp, hget⟩ := view_row_get_cell_int t (o.x + (i : Int))
          (by omega) (by omega)
        have hpc : ((p.val : Nat) : Int) = o.x + (i : Int) := by rw [hp]; omega
        by_cases hsp : glyph_at o (o.x + (i : Int)) (r : Int) = SPACE
        · refine ⟨t, by simp only [if_neg hcol, hglyph, hsp, ne_eq, not_true, if_false], ?_⟩
          intro c hc
          rw [hI c hc]
          congr 1
          by_cases hci : (c : Int) = o.x + (i : Int)
          · rw [if_neg, if_neg]
            · rintro ⟨_, _, h3⟩; rw [hci] at h3; exact h3 hsp
            · rintro ⟨_, h2, _⟩; omega
          · exact step_cond_congr o c r i hci _ _
        · refine ⟨t.store p (eetg_view_cell_set (t.load p)
              (glyph_at o (o.x + (i : Int)) (r : Int)) o.color), ?_, ?_⟩
          · simp only [if_neg hcol, hglyph, ne_eq, hsp, not_false_eq_true, if_true, hget]
          · intro c hc
            rw [view_row_store_get]
            by_cases hci : c = p.val
            · have hci' : (c : Int) = o.x + (i : Int) := by rw [hci]; exact hpc
              rw [if_pos hci, if_pos]
              · rw [hci']; rfl
              · refine ⟨by omega, by omega, ?_⟩
                rw [hci']; exact hsp
            · have hci' : (c : Int) ≠ o.x + (i : Int) := by
                intro e; apply hci; omega
              rw [if_neg hci, hI c hc]
              congr 1
              exact step_cond_congr o c r i hci' _ _) ?_
  intro row' hI c hc
  rw [hI c hc]
  congr 1
  unfold raster_cell solid_at in_box
  have : (o.x ≤ (c : Int) ∧ (c : Int) < o.x + (o.width.toNat : Int) ∧
      glyph_at o (c : Int) (r : Int) ≠ SPACE) ↔
    ((o.x ≤ (c : Int) ∧ (c : Int) ≤ o.x + o.width - 1 ∧ o.y ≤ (r : Int) ∧
      (r : Int) ≤ o.y + o.height - 1) ∧ glyph_at o (c : Int) (r : Int) ≠ SPACE) := by
    constructor
    · rintro ⟨h1, h2, h3⟩; exact ⟨⟨h1, by omega, by omega, by omega⟩, h3⟩
    · rintro ⟨⟨h1, h2, _, _⟩, h3⟩; exact ⟨h1, by omega, h3⟩
  simp only [this]

theorem view_cell_of_load (view : eetg_view) (p : Fin EETG_ROWS) (c : Nat) :
    ((view.load p).columns.get? c).getD { c := 0, color := 0 } = view.cell p.val c := by
  unfold eetg_view.cell
  rw [view_load_eq]

theorem raster_cell_outside (o : eetg_object) (old : eetg_view_cell) (r c : Nat)
    (h : ¬ in_box o (c : Int) (r : Int)) : raster_cell o old r c = old := by
  unfold raster_cell solid_at
  rw [if_neg (fun hs => h hs.1)]

/-- The function `eetg_object_render` fails no assertion, and writes into the view exactly the
non-space glyphs of the sprite that fall on a cell of the grid. -/
theorem object_render_spec (o : eetg_object) (view : eetg_view) :
    ∃ v', eetg_object_render o view = some v' ∧
      ∀ r c, r < EETG_ROWS → c < EETG_COLUMNS →
        v'.cell r c = raster_cell o (view.cell r c) r c := by
  unfold eetg_object_render
  refine for_loop_inv_post _
    (fun k (t : eetg_view) => ∀ r c, r < EETG_ROWS → c < EETG_COLUMNS →
      t.cell r c = if o.y ≤ (r : Int) ∧ (r : Int) < o.y + (k : Int) then
        raster_cell o (view.cell r c) r c else view.cell r c)
    o.height.toNat view _
    (by intro r c _ _; rw [if_neg (by omega)]) ?_ ?_
  · intro i hi t hI
    by_cases hrow : o.y + (i : Int) < 0 ∨ o.y + (i : Int) ≥ (EETG_ROWS : Int)
    · refine ⟨t, by simp only [if_pos hrow], ?_⟩
      intro r c hr hc
      rw [hI r c hr hc]
      refine if_congr ?_ rfl rfl
      constructor
      · rintro ⟨h1, h2⟩; exact ⟨h1, by omega⟩
      · rintro ⟨h1, h2⟩; exact ⟨h1, by omega⟩
    · obtain ⟨p, hp, hget⟩ := view_get_row_int t (o.y + (i : Int)) (by omega) (by omega)
      have hpr : ((p.val : Nat) : Int) = o.y + (i : Int) := by rw [hp]; omega
      obtain ⟨row', hrow', hcells⟩ :=
        object_render_row_spec o i (by omega) p.val hpr (t.load p)
      refine ⟨t.store p row', by simp only [if_neg hrow, hget, hrow'], ?_⟩
      intro r c hr hc
      rw [view_cell_store]
      by_cases hrp : r = p.val
      · rw [if_pos hrp, hcells c hc, Option.getD_some, view_cell_of_load,
          hI p.val c p.isLt hc, if_neg (by omega), if_pos (by omega), hrp]
      · rw [if_neg hrp, hI r c hr hc]
        refine if_congr ?_ rfl rfl
        constructor
        · rintro ⟨h1, h2⟩; exact ⟨h1, by omega⟩
        · rintro ⟨h1, h2⟩; exact ⟨h1, by omega⟩
  · intro t hI r c hr hc
    rw [hI r c hr hc]
    by_cases hin : o.y ≤ (r : Int) ∧ (r : Int) < o.y + (o.height.toNat : Int)
    · rw [if_pos hin]
    · rw [if_neg hin, raster_cell_outside]
      unfold in_box
      omega

/-- The cell the members of a list leave at row `r`, column `c` when they are
rasterised head first over a cell `old`. -/
theorem for_each_render_spec (objects : List eetg_object) :
    ∀ view : eetg_view, ∃ v', for_each eetg_object_render objects view = some v' ∧
      ∀ r c, r < EETG_ROWS → c < EETG_COLUMNS →
        v'.cell r c =
          match objects.reverse.find? (fun o => decide (solid_at o (c : Int) (r : Int))) with
          | some o => { c := glyph_at o (c : Int) (r : Int), color := o.color }
          | none => view.cell r c := by
  induction objects with
  | nil => intro view; exact ⟨view, rfl, fun r c _ _ => rfl⟩
  | cons o rest ih =>
    intro view
    obtain ⟨v1, h1, hc1⟩ := object_render_spec o view
    obtain ⟨v2, h2, hc2⟩ := ih v1
    refine ⟨v2, by unfold for_each; rw [h1]; exact h2, ?_⟩
    intro r c hr hc
    rw [hc2 r c hr hc, List.reverse_cons, List.find?_append]
    cases hfind : rest.reverse.find? (fun o => decide (solid_at o (c : Int) (r : Int))) with
    | some o' => rfl
    | none =>
      simp only [Option.none_or, List.find?_cons, List.find?_nil]
      rw [hc1 r c hr hc]
      unfold raster_cell
      by_cases hs : solid_at o (c : Int) (r : Int)
      · simp [hs]
      · simp [hs]

/-- The first two loops of `eetg_world_render` fail no assertion and leave, in the
view `world->view` points to, the rasterised members. -/
theorem rasterise_eq (world : eetg_world) :
    eetg_world_render_rasterise world =
      some (world.store world.view (rasterised world.objects)) := by
  unfold eetg_world_render_rasterise rasterised
  rw [render_clear_eq]
  obtain ⟨v, hv, _⟩ := for_each_render_spec world.objects
    (uniform_view { c := SPACE, color := EETG_FG_COLOR })
  simp only [hv, Option.getD_some]

/-- The rasterised view shows what `shown_cell` describes. -/
theorem rasterised_cell (objects : List eetg_object) (r c : Nat) (hr : r < EETG_ROWS)
    (hc : c < EETG_COLUMNS) : (rasterised objects).cell r c = shown_cell objects r c := by
  unfold rasterised
  obtain ⟨v, hv, hcells⟩ := for_each_render_spec objects
    (uniform_view { c := SPACE, color := EETG_FG_COLOR })
  rw [hv, Option.getD_some, hcells r c hr hc, uniform_view_cell _ r c hr hc]
  rfl

/-! ## Output: lemmas -/

theorem same_scene_refl (w : eetg_world) : same_scene w w := ⟨rfl, rfl, rfl, rfl, rfl⟩

theorem same_scene_trans {a b c : eetg_world} (h1 : same_scene a b) (h2 : same_scene b c) :
    same_scene a c := by
  obtain ⟨a1, a2, a3, a4, a5⟩ := h1
  obtain ⟨b1, b2, b3, b4, b5⟩ := h2
  exact ⟨b1.trans a1, b2.trans a2, b3.trans a3, b4.trans a4, b5.trans a5⟩

theorem same_scene_load {w w' : eetg_world} (h : same_scene w w') (p : Bool) :
    w'.load p = w.load p := by
  obtain ⟨_, h2, h3, _, _⟩ := h
  unfold eetg_world.load
  rw [h2, h3]

theorem same_scene_current {w w' : eetg_world} (h : same_scene w w') :
    w'.load w'.view = w.load w.view := by
  rw [same_scene_load h, h.2.2.2.1]

theorem same_scene_previous {w w' : eetg_world} (h : same_scene w w') :
    w'.load w'.prev_view = w.load w.prev_view := by
  rw [same_scene_load h, h.2.2.2.2]

theorem to_int8_of_range (v : Int) (h0 : -128 ≤ v) (h1 : v ≤ 127) : to_int8 v = v := by
  unfold to_int8
  omega

theorem write_same_scene (w : eetg_world) (buffer : List Int) :
    same_scene w (eetg_world_write w buffer) := ⟨rfl, rfl, rfl, rfl, rfl⟩

theorem set_color_same_scene (w : eetg_world) (color : Int) (force : Bool) :
    same_scene w (eetg_world_set_color w color force) := by
  unfold eetg_world_set_color
  split
  · exact same_scene_refl w
  · exact ⟨rfl, rfl, rfl, rfl, rfl⟩

theorem write_char_same_scene (w : eetg_world) (c : Int) :
    same_scene w (eetg_world_write_char w c) := by
  unfold eetg_world_write_char
  simp only
  split
  · split <;> exact ⟨rfl, rfl, rfl, rfl, rfl⟩
  · exact ⟨rfl, rfl, rfl, rfl, rfl⟩

theorem set_cursor_same_scene (w w' : eetg_world) (row column : Int)
    (h : eetg_world_set_cursor w row column = some w') : same_scene w w' := by
  unfold eetg_world_set_cursor at h
  split at h
  · exact absurd h (by simp)
  · split at h
    · cases h; exact same_scene_refl w
    · cases h; exact ⟨rfl, rfl, rfl, rfl, rfl⟩

/-- The function `eetg_world_set_cursor` fails no assertion for a cell of the grid. -/
theorem set_cursor_some (w : eetg_world) (r c : Nat) (hr : r < EETG_ROWS)
    (hc : c < EETG_COLUMNS) : ∃ w', eetg_world_set_cursor w (r : Int) (c : Int) = some w' := by
  unfold eetg_world_set_cursor
  rw [if_neg (by
    intro h; apply h
    exact ⟨by omega, by omega, by omega, by omega⟩)]
  split
  · exact ⟨_, rfl⟩
  · exact ⟨_, rfl⟩

theorem put_cell_same_scene (w : eetg_world) (r c : Nat) (cell : eetg_view_cell) :
    same_scene w (put_cell w r c cell) := by
  unfold put_cell
  cases h : eetg_world_set_cursor w (r : Int) (c : Int) with
  | none => exact same_scene_refl w
  | some w1 =>
    exact same_scene_trans (set_cursor_same_scene w w1 _ _ h)
      (same_scene_trans (set_color_same_scene w1 _ _) (write_char_same_scene _ _))

theorem put_cells_nil (w : eetg_world) : put_cells w [] = w := rfl

theorem put_cells_append (w : eetg_world) (l1 l2 : List (Nat × Nat × eetg_view_cell)) :
    put_cells w (l1 ++ l2) = put_cells (put_cells w l1) l2 := by
  unfold put_cells
  rw [List.foldl_append]

theorem put_cells_same_scene (cells : List (Nat × Nat × eetg_view_cell)) :
    ∀ w : eetg_world, same_scene w (put_cells w cells) := by
  induction cells with
  | nil => intro w; exact same_scene_refl w
  | cons x rest ih =>
    intro w
    exact same_scene_trans (put_cell_same_scene w x.1 x.2.1 x.2.2) (ih _)

theorem selected_in_row_succ (sel : Nat → Nat → Option eetg_view_cell) (r k : Nat) :
    selected_in_row sel r (k + 1) =
      selected_in_row sel r k ++
        (match sel r k with
        | some cell => [(r, k, cell)]
        | none => []) := by
  unfold selected_in_row
  rw [List.range_succ, List.filterMap_append]
  congr 1
  cases h : sel r k <;> simp [List.filterMap_cons, h]

theorem selected_cells_succ (sel : Nat → Nat → Option eetg_view_cell) (k columns : Nat) :
    selected_cells sel (k + 1) columns =
      selected_cells sel k columns ++ selected_in_row sel k columns := by
  unfold selected_cells
  rw [List.range_succ, List.flatMap_append]
  simp

/-- One pass of the body shared by the two renderers at a cell they write. -/
theorem put_cell_step (w : eetg_world) (r c : Nat) (hr : r < EETG_ROWS)
    (hc : c < EETG_COLUMNS) (cell : eetg_view_cell) :
    (match eetg_world_set_cursor w (r : Int) (c : Int) with
      | none => none
      | some world =>
        some (eetg_world_write_char (eetg_world_set_color world cell.color false) cell.c)) =
      some (put_cell w r c cell) := by
  obtain ⟨w1, h1⟩ := set_cursor_some w r c hr hc
  unfold put_cell
  rw [h1]

theorem cell_ne_iff (a b : eetg_view_cell) : (a.color ≠ b.color ∨ a.c ≠ b.c) ↔ a ≠ b := by
  obtain ⟨ac, acol⟩ := a
  obtain ⟨bc, bcol⟩ := b
  simp only [ne_eq, eetg_view_cell.mk.injEq]
  tauto

theorem put_cells_singleton (w : eetg_world) (r c : Nat) (cell : eetg_view_cell) :
    put_cells w [(r, c, cell)] = put_cell w r c cell := rfl

/-- The loops of `eetg_world_render_delta` fail no assertion and take the steps
`put_cell` at exactly the cells at which the two views differ, in row-major order. -/
theorem render_delta_eq (w : eetg_world) :
    eetg_world_render_delta w =
      some (put_cells w
        (selected_cells (sel_delta w.current w.previous) EETG_ROWS EETG_COLUMNS)) := by
  unfold eetg_world_render_delta
  refine for_loop_eq_of_inv _
    (fun k t => t = put_cells w
      (selected_cells (sel_delta w.current w.previous) k EETG_COLUMNS))
    EETG_ROWS w _ rfl ?_ (fun t h => h)
  intro i hi t ht
  refine ⟨put_cells t (selected_in_row (sel_delta w.current w.previous) i EETG_COLUMNS),
    ?_, ?_⟩
  · simp only [view_get_row_nat _ i hi]
    refine for_loop_eq_of_inv _
      (fun k u => u = put_cells t
        (selected_in_row (sel_delta w.current w.previous) i k))
      EETG_COLUMNS t _ rfl ?_ (fun u h => h)
    intro j hj u hu
    have hs : same_scene w u := by
      rw [hu, ht]
      exact same_scene_trans (put_cells_same_scene _ w) (put_cells_same_scene _ _)
    have hcur : (u.load u.view).cell i j = w.current.cell i j := by
      rw [same_scene_current hs]; rfl
    have hprev : (u.load u.prev_view).cell i j = w.previous.cell i j := by
      rw [same_scene_previous hs]; rfl
    simp only [view_row_get_cell_nat _ j hj, eetg_view_cell_get_color, eetg_view_cell_get_c]
    rw [← view_cell_eq_load (u.load u.view) ⟨i, hi⟩ ⟨j, hj⟩,
      ← view_cell_eq_load (u.load u.prev_view) ⟨i, hi⟩ ⟨j, hj⟩]
    simp only [hcur, hprev]
    rw [selected_in_row_succ, put_cells_append, ← hu]
    by_cases hd : w.current.cell i j ≠ w.previous.cell i j
    · rw [if_pos ((cell_ne_iff _ _).2 hd)]
      simp only [sel_delta, if_pos hd, put_cells_singleton]
      exact ⟨_, put_cell_step u i j hi hj _, rfl⟩
    · rw [if_neg (fun h => hd ((cell_ne_iff _ _).1 h))]
      simp only [sel_delta, if_neg hd, put_cells_nil]
      exact ⟨_, rfl, rfl⟩
  · beta_reduce
    rw [selected_cells_succ, put_cells_append, ← ht]

theorem set_cursor_home (w : eetg_world) :
    eetg_world_set_cursor w 0 0 = some (cursor_home w) := by
  obtain ⟨w', h⟩ := set_cursor_some w 0 0 (by decide) (by decide)
  simp only [Nat.cast_zero] at h
  unfold cursor_home
  rw [h]; rfl

theorem cursor_home_same_scene (w : eetg_world) : same_scene w (cursor_home w) :=
  set_cursor_same_scene w _ 0 0 (set_cursor_home w)

theorem sync_header_same_scene (w : eetg_world) : same_scene w (sync_header w) := by
  unfold sync_header
  exact same_scene_trans (write_same_scene w _)
    (same_scene_trans (set_color_same_scene _ _ _)
      (same_scene_trans (write_same_scene _ _) (cursor_home_same_scene _)))

/-- The loops of `eetg_world_render_sync` fail no assertion and take the steps
`put_cell` at exactly the cells of the current view that are not a space, in
row-major order. -/
theorem render_sync_eq (w : eetg_world) :
    eetg_world_render_sync w =
      some (put_cells (sync_header w)
        (selected_cells (sel_sync w.current) EETG_ROWS EETG_COLUMNS)) := by
  unfold eetg_world_render_sync
  simp only [set_cursor_home]
  have hs0 : same_scene w (sync_header w) := sync_header_same_scene w
  refine for_loop_eq_of_inv _
    (fun k t => t = put_cells (sync_header w)
      (selected_cells (sel_sync w.current) k EETG_COLUMNS))
    EETG_ROWS _ _ rfl ?_ (fun t h => h)
  intro i hi t ht
  refine ⟨put_cells t (selected_in_row (sel_sync w.current) i EETG_COLUMNS), ?_, ?_⟩
  · simp only [view_get_row_nat _ i hi]
    refine for_loop_eq_of_inv _
      (fun k u => u = put_cells t (selected_in_row (sel_sync w.current) i k))
      EETG_COLUMNS t _ rfl ?_ (fun u h => h)
    intro j hj u hu
    have hs : same_scene w u := by
      rw [hu, ht]
      exact same_scene_trans hs0
        (same_scene_trans (put_cells_same_scene _ _) (put_cells_same_scene _ _))
    have hcur : (u.load u.view).cell i j = w.current.cell i j := by
      rw [same_scene_current hs]; rfl
    simp only [view_row_get_cell_nat _ j hj, eetg_view_cell_get_color, eetg_view_cell_get_c]
    rw [← view_cell_eq_load (u.load u.view) ⟨i, hi⟩ ⟨j, hj⟩]
    simp only [hcur]
    rw [selected_in_row_succ, put_cells_append, ← hu]
    by_cases hd : (w.current.cell i j).c = SPACE
    · rw [if_pos hd]
      simp only [sel_sync, if_pos hd, put_cells_nil]
      exact ⟨_, rfl, rfl⟩
    · rw [if_neg hd]
      simp only [sel_sync, if_neg hd, put_cells_singleton]
      exact ⟨_, put_cell_step u i j hi hj _, rfl⟩
  · beta_reduce
    rw [selected_cells_succ, put_cells_append, ← ht]

/-- The cells `eetg_world_render` writes, in the order it writes them. -/
theorem render_eq (w : eetg_world) (sync : Bool) :
    eetg_world_render w sync =
      some (eetg_world_swap_views (cursor_home
        (if sync then
          put_cells (sync_header (rasterised_world w))
            (selected_cells (sel_sync (rasterised_world w).current) EETG_ROWS EETG_COLUMNS)
        else
          put_cells (rasterised_world w)
            (selected_cells
              (sel_delta (rasterised_world w).current (rasterised_world w).previous)
              EETG_ROWS EETG_COLUMNS)))) := by
  unfold eetg_world_render
  rw [rasterise_eq]
  cases sync
  · simp only [Bool.false_eq_true, if_false, render_delta_eq, set_cursor_home]
    rfl
  · simp only [if_true, render_sync_eq, set_cursor_home]
    rfl

/-! ### What the steps write -/

theorem char_writes_append (a b : List (List Int)) :
    char_writes (a ++ b) = char_writes a ++ char_writes b := by
  unfold char_writes
  rw [List.filterMap_append]

theorem char_writes_cursor_sequence (row column : Int) :
    char_writes [cursor_sequence row column] = [] := by
  simp [char_writes, cursor_sequence, EETG_CSI]

theorem char_writes_color_sequence (color : Int) :
    char_writes [color_sequence color] = [] := by
  simp [char_writes, color_sequence, EETG_CSI]

theorem char_writes_single (c : Int) : char_writes [[c]] = [c] := rfl

/-- What `eetg_world_set_cursor` writes and caches for a cell of the grid. -/
theorem set_cursor_effect (w : eetg_world) (r c : Nat) (hr : r < EETG_ROWS)
    (hc : c < EETG_COLUMNS) :
    ∃ w', eetg_world_set_cursor w (r : Int) (c : Int) = some w' ∧
      w'.written = w.written ++
        (if w.cursor_row = (r : Int) ∧ w.cursor_column = (c : Int) then []
          else [cursor_sequence (r : Int) (c : Int)]) ∧
      w'.cursor_row = (r : Int) ∧ w'.cursor_column = (c : Int) ∧
      w'.current_color = w.current_color := by
  have hr' : (r : Int) < 24 := by
    have : EETG_ROWS = 24 := rfl
    omega
  have hc' : (c : Int) < 80 := by
    have : EETG_COLUMNS = 80 := rfl
    omega
  unfold eetg_world_set_cursor
  rw [if_neg (by
    intro h; apply h
    exact ⟨by omega, by omega, by omega, by omega⟩)]
  by_cases h : w.cursor_row = (r : Int) ∧ w.cursor_column = (c : Int)
  · rw [if_pos h]
    exact ⟨w, rfl, by simp [h], h.1, h.2, rfl⟩
  · rw [if_neg h]
    refine ⟨_, rfl, ?_, ?_, ?_, rfl⟩
    · rw [if_neg h]; rfl
    · exact to_int8_of_range _ (by omega) (by omega)
    · exact to_int8_of_range _ (by omega) (by omega)

/-- What `eetg_world_set_color` writes and caches. -/
theorem set_color_effect (w : eetg_world) (color : Int) (force : Bool) :
    (eetg_world_set_color w color force).written = w.written ++
        (if color = w.current_color ∧ ¬ force then [] else [color_sequence color]) ∧
      (eetg_world_set_color w color force).cursor_row = w.cursor_row ∧
      (eetg_world_set_color w color force).cursor_column = w.cursor_column := by
  unfold eetg_world_set_color
  by_cases h : color = w.current_color ∧ ¬ force
  · rw [if_pos h, if_pos h]
    exact ⟨by simp, rfl, rfl⟩
  · rw [if_neg h, if_neg h]
    exact ⟨rfl, rfl, rfl⟩

theorem write_char_written (w : eetg_world) (c : Int) :
    (eetg_world_write_char w c).written = w.written ++ [[c]] := by
  unfold eetg_world_write_char
  simp only
  split
  · split <;> rfl
  · rfl

/-- The steps at one cell write at most a cursor sequence, at most a colour sequence,
and then the character of the cell. -/
theorem put_cell_written (w : eetg_world) (r c : Nat) (hr : r < EETG_ROWS)
    (hc : c < EETG_COLUMNS) (cell : eetg_view_cell) :
    ∃ pre, (put_cell w r c cell).written = w.written ++ pre ++ [[cell.c]] ∧
      char_writes pre = [] := by
  obtain ⟨w1, h1, hw1, _, _, _⟩ := set_cursor_effect w r c hr hc
  obtain ⟨hw2, _, _⟩ := set_color_effect w1 cell.color false
  unfold put_cell
  rw [h1]
  simp only
  rw [write_char_written, hw2, hw1]
  refine ⟨(if w.cursor_row = (r : Int) ∧ w.cursor_column = (c : Int) then []
      else [cursor_sequence (r : Int) (c : Int)]) ++
    (if cell.color = w1.current_color ∧ ¬ (false = true) then []
      else [color_sequence cell.color]), by simp, ?_⟩
  have e1 : char_writes (if w.cursor_row = (r : Int) ∧ w.cursor_column = (c : Int) then []
      else [cursor_sequence (r : Int) (c : Int)]) = [] := by
    split
    · rfl
    · exact char_writes_cursor_sequence _ _
  have e2 : char_writes (if cell.color = w1.current_color ∧ ¬ (false = true) then []
      else [color_sequence cell.color]) = [] := by
    split
    · rfl
    · exact char_writes_color_sequence _
  rw [char_writes_append, e1, e2]
  rfl

theorem mem_selected_in_row (sel : Nat → Nat → Option eetg_view_cell) (r columns : Nat)
    (x : Nat × Nat × eetg_view_cell) :
    x ∈ selected_in_row sel r columns ↔
      x.1 = r ∧ x.2.1 < columns ∧ sel r x.2.1 = some x.2.2 := by
  unfold selected_in_row
  rw [List.mem_filterMap]
  constructor
  · rintro ⟨c, hc, hx⟩
    cases hs : sel r c with
    | none => rw [hs] at hx; exact absurd hx (by simp)
    | some cell =>
      rw [hs] at hx
      simp only [Option.map_some', Option.some.injEq] at hx
      subst hx
      exact ⟨rfl, List.mem_range.1 hc, hs⟩
  · rintro ⟨h1, h2, h3⟩
    refine ⟨x.2.1, List.mem_range.2 h2, ?_⟩
    rw [h3]
    simp only [Option.map_some', Option.some.injEq]
    rw [← h1]

theorem mem_selected_cells (sel : Nat → Nat → Option eetg_view_cell) (rows columns : Nat)
    (x : Nat × Nat × eetg_view_cell) :
    x ∈ selected_cells sel rows columns ↔
      x.1 < rows ∧ x.2.1 < columns ∧ sel x.1 x.2.1 = some x.2.2 := by
  unfold selected_cells
  rw [List.mem_flatMap]
  constructor
  · rintro ⟨r, hr, hx⟩
    obtain ⟨h1, h2, h3⟩ := (mem_selected_in_row sel r columns x).1 hx
    subst h1
    exact ⟨List.mem_range.1 hr, h2, h3⟩
  · rintro ⟨h1, h2, h3⟩
    exact ⟨x.1, List.mem_range.2 h1, (mem_selected_in_row sel x.1 columns x).2 ⟨rfl, h2, h3⟩⟩

/-- The selected cells come in strictly ascending row-major order. -/
theorem selected_cells_row_major (sel : Nat → Nat → Option eetg_view_cell)
    (rows columns : Nat) :
    (selected_cells sel rows columns).Pairwise row_major_lt := by
  have hrow : ∀ r k, (selected_in_row sel r k).Pairwise row_major_lt := by
    intro r k
    induction k with
    | zero => simp [selected_in_row]
    | succ k ih =>
      rw [selected_in_row_succ, List.pairwise_append]
      refine ⟨ih, ?_, ?_⟩
      · cases sel r k <;> simp
      · intro a ha b hb
        obtain ⟨a1, a2, _⟩ := (mem_selected_in_row sel r k a).1 ha
        cases hs : sel r k with
        | none => rw [hs] at hb; simp at hb
        | some cell =>
          rw [hs] at hb
          simp only [List.mem_singleton] at hb
          subst hb
          right
          exact ⟨a1, a2⟩
  induction rows with
  | zero => simp [selected_cells]
  | succ k ih =>
    rw [selected_cells_succ, List.pairwise_append]
    refine ⟨ih, hrow k columns, ?_⟩
    intro a ha b hb
    obtain ⟨a1, _, _⟩ := (mem_selected_cells sel k columns a).1 ha
    obtain ⟨b1, _, _⟩ := (mem_selected_in_row sel k columns b).1 hb
    left
    omega

/-- The sink receives, for a list of cells of the grid, one character per cell, in
the order of the list. -/
theorem put_cells_written (cells : List (Nat × Nat × eetg_view_cell))
    (hcells : ∀ x ∈ cells, x.1 < EETG_ROWS ∧ x.2.1 < EETG_COLUMNS) :
    ∀ w : eetg_world, ∃ out, (put_cells w cells).written = w.written ++ out ∧
      char_writes out = cells.map (fun x => x.2.2.c) := by
  induction cells with
  | nil => intro w; exact ⟨[], by simp [put_cells], rfl⟩
  | cons x rest ih =>
    intro w
    obtain ⟨hx1, hx2⟩ := hcells x (List.mem_cons_self _ _)
    obtain ⟨pre, hpre, hchars⟩ := put_cell_written w x.1 x.2.1 hx1 hx2 x.2.2
    obtain ⟨out, hout, hmap⟩ :=
      ih (fun y hy => hcells y (List.mem_cons_of_mem _ hy)) (put_cell w x.1 x.2.1 x.2.2)
    refine ⟨pre ++ [[x.2.2.c]] ++ out, ?_, ?_⟩
    · show (put_cells (put_cell w x.1 x.2.1 x.2.2) rest).written = _
      rw [hout, hpre]
      simp
    · rw [char_writes_append, char_writes_append, hchars, hmap]
      rfl

/-! ## Whole renders: lemmas -/

theorem load_store_same (w : eetg_world) (p : Bool) (v : eetg_view) :
    (w.store p v).load p = v := by
  cases p <;> rfl

theorem load_store_other (w : eetg_world) (p q : Bool) (v : eetg_view) (h : q ≠ p) :
    (w.store p v).load q = w.load q := by
  cases p <;> cases q <;> first | rfl | exact absurd rfl h

theorem store_view (w : eetg_world) (p : Bool) (v : eetg_view) :
    (w.store p v).view = w.view := by cases p <;> rfl

theorem store_prev_view (w : eetg_world) (p : Bool) (v : eetg_view) :
    (w.store p v).prev_view = w.prev_view := by cases p <;> rfl

theorem store_objects (w : eetg_world) (p : Bool) (v : eetg_view) :
    (w.store p v).objects = w.objects := by cases p <;> rfl

theorem store_written (w : eetg_world) (p : Bool) (v : eetg_view) :
    (w.store p v).written = w.written := by cases p <;> rfl

theorem store_cursor_row (w : eetg_world) (p : Bool) (v : eetg_view) :
    (w.store p v).cursor_row = w.cursor_row := by cases p <;> rfl

theorem store_cursor_column (w : eetg_world) (p : Bool) (v : eetg_view) :
    (w.store p v).cursor_column = w.cursor_column := by cases p <;> rfl

theorem store_current_color (w : eetg_world) (p : Bool) (v : eetg_view) :
    (w.store p v).current_color = w.current_color := by cases p <;> rfl

theorem rasterised_world_current (w : eetg_world) :
    (rasterised_world w).current = rasterised w.objects := by
  unfold rasterised_world eetg_world.current
  rw [store_view, load_store_same]

/-- After `eetg_world_set_cursor(world, 0, 0)` the cached cursor is `(0, 0)`. -/
theorem cursor_home_cursor (w : eetg_world) :
    (cursor_home w).cursor_row = 0 ∧ (cursor_home w).cursor_column = 0 := by
  unfold cursor_home eetg_world_set_cursor
  rw [if_neg (by decide)]
  by_cases h : w.cursor_row = 0 ∧ w.cursor_column = 0
  · rw [if_pos h]; exact h
  · rw [if_neg h]; exact ⟨rfl, rfl⟩

/-- With the cached cursor at `(0, 0)`, `eetg_world_set_cursor(world, 0, 0)` does
nothing. -/
theorem cursor_home_of_home (w : eetg_world) (h1 : w.cursor_row = 0)
    (h2 : w.cursor_column = 0) : cursor_home w = w := by
  unfold cursor_home eetg_world_set_cursor
  rw [if_neg (by decide), if_pos ⟨h1, h2⟩]
  rfl

theorem selected_cells_nil (sel : Nat → Nat → Option eetg_view_cell) (rows columns : Nat)
    (h : ∀ r c, r < rows → c < columns → sel r c = none) :
    selected_cells sel rows columns = [] := by
  unfold selected_cells selected_in_row
  rw [List.flatMap_eq_nil_iff]
  intro r hr
  rw [List.filterMap_eq_nil_iff]
  intro c hc
  rw [h r c (List.mem_range.1 hr) (List.mem_range.1 hc)]
  rfl

/-- The state `eetg_world_render` leaves: the members are the same, the view just
rendered is the rasterised members and is now the previous view, the pointers are
exchanged, the cached cursor is `(0, 0)`. -/
theorem render_result (w : eetg_world) (sync : Bool) :
    ∃ w', eetg_world_render w sync = some w' ∧
      w'.objects = w.objects ∧ w'.view = w.prev_view ∧ w'.prev_view = w.view ∧
      w'.load w.view = rasterised w.objects ∧
      w'.cursor_row = 0 ∧ w'.cursor_column = 0 := by
  refine ⟨_, render_eq w sync, ?_⟩
  generalize hX : (if sync then
      put_cells (sync_header (rasterised_world w))
        (selected_cells (sel_sync (rasterised_world w).current) EETG_ROWS EETG_COLUMNS)
    else
      put_cells (rasterised_world w)
        (selected_cells
          (sel_delta (rasterised_world w).current (rasterised_world w).previous)
          EETG_ROWS EETG_COLUMNS)) = X
  have hs : same_scene (rasterised_world w) X := by
    rw [← hX]
    cases sync
    · exact put_cells_same_scene _ _
    · exact same_scene_trans (sync_header_same_scene _) (put_cells_same_scene _ _)
  have hs' : same_scene (rasterised_world w) (cursor_home X) :=
    same_scene_trans hs (cursor_home_same_scene X)
  obtain ⟨h1, h2⟩ := cursor_home_cursor X
  refine ⟨?_, ?_, ?_, ?_, h1, h2⟩
  · show (cursor_home X).objects = w.objects
    rw [hs'.1]; exact store_objects _ _ _
  · show (cursor_home X).prev_view = w.prev_view
    rw [hs'.2.2.2.2]; exact store_prev_view _ _ _
  · show (cursor_home X).view = w.view
    rw [hs'.2.2.2.1]; exact store_view _ _ _
  · show (eetg_world_swap_views (cursor_home X)).load w.view = _
    have : (eetg_world_swap_views (cursor_home X)).load w.view =
        (cursor_home X).load w.view := by
      cases w.view <;> rfl
    rw [this, same_scene_load hs']
    exact load_store_same _ _ _

theorem cursor_home_written (w : eetg_world) :
    (cursor_home w).written = w.written ++
      (if w.cursor_row = 0 ∧ w.cursor_column = 0 then [] else [cursor_sequence 0 0]) := by
  obtain ⟨w', h, hw, _, _, _⟩ := set_cursor_effect w 0 0 (by decide) (by decide)
  simp only [Nat.cast_zero] at h hw
  unfold cursor_home
  rw [h]
  exact hw

theorem cursor_home_char_writes (w : eetg_world) :
    ∃ tail, (cursor_home w).written = w.written ++ tail ∧ char_writes tail = [] := by
  refine ⟨_, cursor_home_written w, ?_⟩
  split
  · rfl
  · exact char_writes_cursor_sequence _ _

/-- What the steps of `eetg_world_render_sync` before its loops write and cache. -/
theorem sync_header_effect (w : eetg_world) :
    (sync_header w).written = w.written ++
        [hide_cursor_sequence, color_sequence EETG_FG_COLOR, clear_screen_sequence] ++
        (if w.cursor_row = 0 ∧ w.cursor_column = 0 then [] else [cursor_sequence 0 0]) ∧
      (sync_header w).cursor_row = 0 ∧ (sync_header w).cursor_column = 0 := by
  unfold sync_header
  simp only
  refine ⟨?_, cursor_home_cursor _⟩
  rw [cursor_home_written]
  simp only [eetg_world_write_str, eetg_world_write, eetg_world_set_color, Bool.not_true,
    and_false, if_false, hide_cursor_sequence, clear_screen_sequence, color_sequence,
    eetg_convert_fg_color, eetg_convert_bg_color, EETG_BG_COLOR, EETG_COLOR_BLACK,
    List.append_assoc, List.singleton_append, List.cons_append, List.nil_append]
  norm_num

theorem sync_header_char_writes :
    char_writes
      [hide_cursor_sequence, color_sequence EETG_FG_COLOR, clear_screen_sequence] = [] := by
  decide

theorem rasterised_world_written (w : eetg_world) :
    (rasterised_world w).written = w.written := store_written _ _ _

theorem rasterised_world_previous (w : eetg_world) (h : w.view ≠ w.prev_view) :
    (rasterised_world w).previous = w.previous := by
  unfold rasterised_world eetg_world.previous
  rw [store_prev_view, load_store_other _ _ _ _ (fun e => h e.symm)]

theorem differing_cells_in_grid (view prev_view : eetg_view) :
    ∀ x ∈ differing_cells view prev_view, x.1 < EETG_ROWS ∧ x.2.1 < EETG_COLUMNS := by
  intro x hx
  obtain ⟨h1, h2, _⟩ := (mem_selected_cells _ _ _ x).1 hx
  exact ⟨h1, h2⟩

theorem non_space_cells_in_grid (view : eetg_view) :
    ∀ x ∈ non_space_cells view, x.1 < EETG_ROWS ∧ x.2.1 < EETG_COLUMNS := by
  intro x hx
  obtain ⟨h1, h2, _⟩ := (mem_selected_cells _ _ _ x).1 hx
  exact ⟨h1, h2⟩

theorem mem_differing_cells (view prev_view : eetg_view) (x : Nat × Nat × eetg_view_cell) :
    x ∈ differing_cells view prev_view ↔
      x.1 < EETG_ROWS ∧ x.2.1 < EETG_COLUMNS ∧ x.2.2 = view.cell x.1 x.2.1 ∧
        view.cell x.1 x.2.1 ≠ prev_view.cell x.1 x.2.1 := by
  unfold differing_cells
  rw [mem_selected_cells]
  unfold sel_delta
  by_cases h : view.cell x.1 x.2.1 ≠ prev_view.cell x.1 x.2.1
  · rw [if_pos h]
    simp only [Option.some.injEq, ne_eq]
    constructor
    · rintro ⟨h1, h2, h3⟩; exact ⟨h1, h2, h3.symm, h⟩
    · rintro ⟨h1, h2, h3, _⟩; exact ⟨h1, h2, h3.symm⟩
  · rw [if_neg h]
    constructor
    · rintro ⟨_, _, h3⟩; exact absurd h3 (by simp)
    · rintro ⟨_, _, _, h4⟩; exact absurd h4 h

theorem mem_non_space_cells (view : eetg_view) (x : Nat × Nat × eetg_view_cell) :
    x ∈ non_space_cells view ↔
      x.1 < EETG_ROWS ∧ x.2.1 < EETG_COLUMNS ∧ x.2.2 = view.cell x.1 x.2.1 ∧
        (view.cell x.1 x.2.1).c ≠ SPACE := by
  unfold non_space_cells
  rw [mem_selected_cells]
  unfold sel_sync
  by_cases h : (view.cell x.1 x.2.1).c = SPACE
  · rw [if_pos h]
    constructor
    · rintro ⟨_, _, h3⟩; exact absurd h3 (by simp)
    · rintro ⟨_, _, _, h4⟩; exact absurd h h4
  · rw [if_neg h]
    simp only [Option.some.injEq, ne_eq]
    constructor
    · rintro ⟨h1, h2, h3⟩; exact ⟨h1, h2, h3.symm, h⟩
    · rintro ⟨h1, h2, h3, _⟩; exact ⟨h1, h2, h3.symm⟩

theorem rasterised_nil_cell (r c : Nat) (hr : r < EETG_ROWS) (hc : c < EETG_COLUMNS) :
    (rasterised []).cell r c = { c := SPACE, color := EETG_FG_COLOR } := by
  rw [rasterised_cell _ r c hr hc]
  rfl

theorem non_space_cells_rasterised_nil : non_space_cells (rasterised []) = [] := by
  apply selected_cells_nil
  intro r c hr hc
  unfold sel_sync
  rw [rasterised_nil_cell r c hr hc, if_pos rfl]

theorem rasterised_nil :
    rasterised [] = uniform_view { c := SPACE, color := EETG_FG_COLOR } := rfl

/-- The world of the second frame is the state a first sync render leaves a fresh
world in. -/
theorem scenario_second_frame_reached :
    eetg_world_render fresh_world true = some scenario_second_frame := by
  rw [render_eq]
  have hnil := non_space_cells_rasterised_nil
  unfold non_space_cells at hnil
  simp only [if_true, rasterised_world_current]
  have hobj : fresh_world.objects = [] := rfl
  rw [hobj, hnil, put_cells_nil]
  rfl

/-- The world of the second frame has no member and its cached cursor is `(0, 0)`. -/
theorem scenario_second_frame_state :
    scenario_second_frame.objects = [] ∧ scenario_second_frame.cursor_row = 0 ∧
      scenario_second_frame.cursor_column = 0 := ⟨rfl, rfl, rfl⟩

set_option maxRecDepth 100000 in
theorem scenario_red_a_non_space_cells :
    non_space_cells (rasterised scenario_red_a.objects) =
      [(1, 2, { c := 65, color := EETG_COLOR_RED })] := by
  decide

set_option maxRecDepth 100000 in
theorem scenario_red_a_output :
    (eetg_world_render scenario_red_a true).map (fun w => w.written) =
      some [chars "\x1b[?25l", chars "\x1b[37;40m", chars "\x1b[2J", chars "\x1b[1;1H",
        chars "\x1b[2;3H", chars "\x1b[31;40m", chars "A", chars "\x1b[1;1H"] := by
  rw [render_eq]
  simp only [if_true, rasterised_world_current, Option.map_some']
  have h := scenario_red_a_non_space_cells
  unfold non_space_cells at h
  rw [h]
  decide

/-! ## The model terminal: lemmas -/

set_option maxRecDepth 100000 in
theorem decode_cursor_sequence_fin :
    ∀ r : Fin 24, ∀ c : Fin 80,
      decode (cursor_sequence (r.val : Int) (c.val : Int)) =
        terminal_event.position (r.val : Int) (c.val : Int) := by
  decide

set_option maxRecDepth 100000 in
theorem decode_color_sequence_fin :
    ∀ k : Fin 256,
      decode (color_sequence ((k.val : Int) - 128)) =
        terminal_event.colour ((k.val : Int) - 128) := by
  decide

theorem decode_cursor_sequence (r c : Nat) (hr : r < EETG_ROWS) (hc : c < EETG_COLUMNS) :
    decode (cursor_sequence (r : Int) (c : Int)) =
      terminal_event.position (r : Int) (c : Int) :=
  decode_cursor_sequence_fin ⟨r, hr⟩ ⟨c, hc⟩

theorem decode_color_sequence (color : Int) (h0 : -128 ≤ color) (h1 : color ≤ 127) :
    decode (color_sequence color) = terminal_event.colour color := by
  have h := decode_color_sequence_fin ⟨(color + 128).toNat, by omega⟩
  have e : (((color + 128).toNat : Nat) : Int) - 128 = color := by omega
  simp only [e] at h
  exact h

theorem feed_nil (t : terminal) : t.feed [] = t := rfl

theorem feed_append (t : terminal) (a b : List (List Int)) :
    t.feed (a ++ b) = (t.feed a).feed b := by
  unfold terminal.feed
  rw [List.foldl_append]

theorem feed_single (t : terminal) (buffer : List Int) :
    t.feed [buffer] = t.receive buffer := rfl

/-- What `eetg_world_write_char` caches, for a cached cursor on the grid. -/
theorem write_char_effect (w : eetg_world) (ch : Int) (r c : Nat) (hr : r < EETG_ROWS)
    (hc : c < EETG_COLUMNS) (h1 : w.cursor_row = (r : Int))
    (h2 : w.cursor_column = (c : Int)) :
    (eetg_world_write_char w ch).cursor_row =
        (if (c : Int) + 1 = (EETG_COLUMNS : Int) then (r : Int) + 1 else (r : Int)) ∧
      (eetg_world_write_char w ch).cursor_column =
        (if (c : Int) + 1 = (EETG_COLUMNS : Int) then 0 else (c : Int) + 1) ∧
      (eetg_world_write_char w ch).current_color = w.current_color := by
  have hR : EETG_ROWS = 24 := rfl
  have hC : EETG_COLUMNS = 80 := rfl
  have e1 : to_int8 ((c : Int) + 1) = (c : Int) + 1 :=
    to_int8_of_range _ (by omega) (by omega)
  have e2 : to_int8 ((r : Int) + 1) = (r : Int) + 1 :=
    to_int8_of_range _ (by omega) (by omega)
  unfold eetg_world_write_char eetg_world_write
  simp only [h1, h2, e1, e2]
  by_cases hwrap : (c : Int) + 1 = (EETG_COLUMNS : Int)
  · rw [if_pos hwrap, if_neg (by omega)]
    simp only [hwrap, if_true, e2, and_self]
  · rw [if_neg hwrap]
    simp only [hwrap, if_false, and_self]

theorem set_color_current (w : eetg_world) (color : Int) (h0 : -128 ≤ color)
    (h1 : color ≤ 127) :
    (eetg_world_set_color w color false).current_color = color := by
  unfold eetg_world_set_color
  by_cases h : color = w.current_color ∧ ¬ (false = true)
  · rw [if_pos h]; exact h.1.symm
  · rw [if_neg h]
    exact to_int8_of_range _ h0 h1

/-- One writing step, seen on the terminal: the cell is put on the grid and the
terminal stays in step with the cached cursor and colour. -/
theorem put_cell_on_terminal (w : eetg_world) (t : terminal) (r c : Nat)
    (hr : r < EETG_ROWS) (hc : c < EETG_COLUMNS) (cell : eetg_view_cell)
    (h0 : -128 ≤ cell.color) (h1 : cell.color ≤ 127) (hstep : t.in_step w) :
    ∃ out, (put_cell w r c cell).written = w.written ++ out ∧
      (t.feed out).in_step (put_cell w r c cell) ∧
      ∀ r' c', (t.feed out).grid r' c' =
        if r' = r ∧ c' = c then cell else t.grid r' c' := by
  obtain ⟨ht1, ht2, ht3⟩ := hstep
  obtain ⟨w1, hw1, hwr1, hrow1, hcol1, hcolor1⟩ := set_cursor_effect w r c hr hc
  obtain ⟨hwr2, hrow2, hcol2⟩ := set_color_effect w1 cell.color false
  have hcolor2 := set_color_current w1 cell.color h0 h1
  obtain ⟨hrow3, hcol3, hcolor3⟩ := write_char_effect
    (eetg_world_set_color w1 cell.color false) cell.c r c hr hc
    (by rw [hrow2, hrow1]) (by rw [hcol2, hcol1])
  have hput : put_cell w r c cell =
      eetg_world_write_char (eetg_world_set_color w1 cell.color false) cell.c := by
    unfold put_cell; rw [hw1]
  -- the terminal after the cursor step
  have hA : ∃ tA : terminal,
      tA = t.feed (if w.cursor_row = (r : Int) ∧ w.cursor_column = (c : Int) then []
        else [cursor_sequence (r : Int) (c : Int)]) ∧
      tA.cursor_row = (r : Int) ∧ tA.cursor_column = (c : Int) ∧ tA.color = t.color ∧
      tA.grid = t.grid := by
    refine ⟨_, rfl, ?_⟩
    by_cases h : w.cursor_row = (r : Int) ∧ w.cursor_column = (c : Int)
    · rw [if_pos h, feed_nil]
      exact ⟨ht1.trans h.1, ht2.trans h.2, rfl, rfl⟩
    · rw [if_neg h, feed_single]
      unfold terminal.receive
      rw [decode_cursor_sequence r c hr hc]
      exact ⟨rfl, rfl, rfl, rfl⟩
  obtain ⟨tA, htA, hAr, hAc, hAcol, hAg⟩ := hA
  -- the terminal after the colour step
  have hB : ∃ tB : terminal,
      tB = tA.feed (if cell.color = w1.current_color ∧ ¬ (false = true) then []
        else [color_sequence cell.color]) ∧
      tB.cursor_row = (r : Int) ∧ tB.cursor_column = (c : Int) ∧ tB.color = cell.color ∧
      tB.grid = t.grid := by
    refine ⟨_, rfl, ?_⟩
    by_cases h : cell.color = w1.current_color ∧ ¬ (false = true)
    · rw [if_pos h, feed_nil]
      exact ⟨hAr, hAc, by rw [hAcol, ht3, ← hcolor1]; exact h.1.symm, hAg⟩
    · rw [if_neg h, feed_single]
      unfold terminal.receive
      rw [decode_color_sequence cell.color h0 h1]
      exact ⟨hAr, hAc, rfl, hAg⟩
  obtain ⟨tB, htB, hBr, hBc, hBcol, hBg⟩ := hB
  refine ⟨(if w.cursor_row = (r : Int) ∧ w.cursor_column = (c : Int) then []
      else [cursor_sequence (r : Int) (c : Int)]) ++
    (if cell.color = w1.current_color ∧ ¬ (false = true) then []
      else [color_sequence cell.color]) ++ [[cell.c]], ?_, ?_, ?_⟩
  · rw [hput, write_char_written, hwr2, hwr1]
    simp only [List.append_assoc]
  · rw [feed_append, feed_append, ← htA, ← htB, feed_single, hput]
    unfold terminal.in_step terminal.receive
    have hd : decode [cell.c] = terminal_event.glyph cell.c := rfl
    rw [hd]
    simp only [hBr, hBc, hBcol, hrow3, hcol3, hcolor3, hcolor2, and_self]
  · intro r' c'
    rw [feed_append, feed_append, ← htA, ← htB, feed_single]
    unfold terminal.receive
    have hd : decode [cell.c] = terminal_event.glyph cell.c := rfl
    rw [hd]
    simp only [hBr, hBc, hBcol, hBg]
    by_cases h : r' = r ∧ c' = c
    · rw [if_pos h, if_pos ⟨by omega, by omega⟩]
    · rw [if_neg h, if_neg (by omega)]

/-- The writing steps for a list of cells, seen on the terminal: every cell of the
list is put on the grid, the other cells of the grid are left as they were. -/
theorem put_cells_on_terminal (f : Nat → Nat → eetg_view_cell)
    (cells : List (Nat × Nat × eetg_view_cell))
    (hcells : ∀ x ∈ cells, x.1 < EETG_ROWS ∧ x.2.1 < EETG_COLUMNS ∧ x.2.2 = f x.1 x.2.1 ∧
      -128 ≤ x.2.2.color ∧ x.2.2.color ≤ 127) :
    ∀ (w : eetg_world) (t : terminal), t.in_step w →
      ∃ out, (put_cells w cells).written = w.written ++ out ∧
        (t.feed out).in_step (put_cells w cells) ∧
        ∀ r c, (t.feed out).grid r c =
          if (∃ x ∈ cells, x.1 = r ∧ x.2.1 = c) then f r c else t.grid r c := by
  induction cells with
  | nil =>
    intro w t hstep
    refine ⟨[], by simp [put_cells], hstep, ?_⟩
    intro r c
    rw [if_neg (by simp)]
    rfl
  | cons x rest ih =>
    intro w t hstep
    obtain ⟨hx1, hx2, hx3, hx4, hx5⟩ := hcells x (List.mem_cons_self _ _)
    obtain ⟨out1, hw1, hs1, hg1⟩ :=
      put_cell_on_terminal w t x.1 x.2.1 hx1 hx2 x.2.2 hx4 hx5 hstep
    obtain ⟨out2, hw2, hs2, hg2⟩ :=
      ih (fun y hy => hcells y (List.mem_cons_of_mem _ hy))
        (put_cell w x.1 x.2.1 x.2.2) (t.feed out1) hs1
    refine ⟨out1 ++ out2, ?_, ?_, ?_⟩
    · show (put_cells (put_cell w x.1 x.2.1 x.2.2) rest).written = _
      rw [hw2, hw1, List.append_assoc]
    · rw [feed_append]
      exact hs2
    · intro r c
      rw [feed_append, hg2 r c]
      by_cases hrest : ∃ y ∈ rest, y.1 = r ∧ y.2.1 = c
      · rw [if_pos hrest, if_pos]
        obtain ⟨y, hy, hyc⟩ := hrest
        exact ⟨y, List.mem_cons_of_mem _ hy, hyc⟩
      · rw [if_neg hrest, hg1 r c]
        by_cases hx : r = x.1 ∧ c = x.2.1
        · rw [if_pos hx, if_pos ⟨x, List.mem_cons_self _ _, hx.1.symm, hx.2.symm⟩,
            hx.1, hx.2]
          exact hx3
        · rw [if_neg hx, if_neg]
          rintro ⟨y, hy, hy1, hy2⟩
          rcases List.mem_cons.1 hy with e | e
          · subst e; exact hx ⟨hy1.symm, hy2.symm⟩
          · exact hrest ⟨y, e, hy1, hy2⟩

/-- The call `eetg_world_set_cursor(world, 0, 0)`, seen on the terminal: the grid is left as it
was and the terminal stays in step. -/
theorem cursor_home_on_terminal (w : eetg_world) (t : terminal) (hstep : t.in_step w) :
    ∃ tail, (cursor_home w).written = w.written ++ tail ∧
      (t.feed tail).in_step (cursor_home w) ∧ (t.feed tail).grid = t.grid := by
  obtain ⟨w', h, hw, hrow, hcol, hcolor⟩ := set_cursor_effect w 0 0 (by decide) (by decide)
  simp only [Nat.cast_zero] at h hw hrow hcol
  have e : cursor_home w = w' := by unfold cursor_home; rw [h]; rfl
  refine ⟨_, by rw [e]; exact hw, ?_, ?_⟩
  · rw [e]
    by_cases hh : w.cursor_row = 0 ∧ w.cursor_column = 0
    · rw [if_pos hh, feed_nil]
      exact ⟨hstep.1.trans (hh.1.trans hrow.symm), hstep.2.1.trans (hh.2.trans hcol.symm),
        hstep.2.2.trans hcolor.symm⟩
    · rw [if_neg hh, feed_single]
      unfold terminal.receive
      have hd := decode_cursor_sequence 0 0 (by decide) (by decide)
      simp only [Nat.cast_zero] at hd
      rw [hd]
      exact ⟨hrow.symm, hcol.symm, hstep.2.2.trans hcolor.symm⟩
  · by_cases hh : w.cursor_row = 0 ∧ w.cursor_column = 0
    · rw [if_pos hh, feed_nil]
    · rw [if_neg hh, feed_single]
      unfold terminal.receive
      have hd := decode_cursor_sequence 0 0 (by decide) (by decide)
      simp only [Nat.cast_zero] at hd
      rw [hd]

/-- The colour of a cell of the rasterised view is the colour of a member, or the
foreground colour. -/
theorem rasterised_color_range (objects : List eetg_object)
    (hcolors : ∀ o ∈ objects, -128 ≤ o.color ∧ o.color ≤ 127) (r c : Nat)
    (hr : r < EETG_ROWS) (hc : c < EETG_COLUMNS) :
    -128 ≤ ((rasterised objects).cell r c).color ∧
      ((rasterised objects).cell r c).color ≤ 127 := by
  rw [rasterised_cell objects r c hr hc]
  unfold shown_cell
  cases hfind : objects.reverse.find? (fun o => decide (solid_at o (c : Int) (r : Int))) with
  | none => simp only [EETG_FG_COLOR, EETG_COLOR_WHITE]; omega
  | some o =>
    have hmem : o ∈ objects := List.mem_reverse.1 (List.mem_of_find?_eq_some hfind)
    exact hcolors o hmem

/-! ## The cursor and colour caches: lemmas -/

/-- What the steps at one cell write and cache. -/
theorem put_cell_effect (w : eetg_world) (r c : Nat) (hr : r < EETG_ROWS)
    (hc : c < EETG_COLUMNS) (cell : eetg_view_cell) :
    (put_cell w r c cell).written = w.written ++
        (if w.cursor_row = (r : Int) ∧ w.cursor_column = (c : Int) then []
          else [cursor_sequence (r : Int) (c : Int)]) ++
        (if cell.color = w.current_color then [] else [color_sequence cell.color]) ++
        [[cell.c]] ∧
      (put_cell w r c cell).cursor_row =
        (if (c : Int) + 1 = (EETG_COLUMNS : Int) then (r : Int) + 1 else (r : Int)) ∧
      (put_cell w r c cell).cursor_column =
        (if (c : Int) + 1 = (EETG_COLUMNS : Int) then 0 else (c : Int) + 1) ∧
      (-128 ≤ cell.color → cell.color ≤ 127 →
        (put_cell w r c cell).current_color = cell.color) := by
  obtain ⟨w1, hw1, hwr1, hrow1, hcol1, hcolor1⟩ := set_cursor_effect w r c hr hc
  obtain ⟨hwr2, hrow2, hcol2⟩ := set_color_effect w1 cell.color false
  obtain ⟨hrow3, hcol3, hcolor3⟩ := write_char_effect
    (eetg_world_set_color w1 cell.color false) cell.c r c hr hc
    (by rw [hrow2, hrow1]) (by rw [hcol2, hcol1])
  have hput : put_cell w r c cell =
      eetg_world_write_char (eetg_world_set_color w1 cell.color false) cell.c := by
    unfold put_cell; rw [hw1]
  rw [hput]
  refine ⟨?_, hrow3, hcol3, ?_⟩
  · rw [write_char_written, hwr2, hwr1, hcolor1]
    simp only [Bool.false_eq_true, not_false_eq_true, and_true]
  · intro h0 h1
    rw [hcolor3]
    exact set_color_current w1 cell.color h0 h1

theorem is_colour_sequence_cursor (r c : Nat) (hr : r < EETG_ROWS) (hc : c < EETG_COLUMNS) :
    is_colour_sequence (cursor_sequence (r : Int) (c : Int)) = false := by
  unfold is_colour_sequence
  rw [decode_cursor_sequence r c hr hc]

theorem is_colour_sequence_color (color : Int) (h0 : -128 ≤ color) (h1 : color ≤ 127) :
    is_colour_sequence (color_sequence color) = true := by
  unfold is_colour_sequence
  rw [decode_color_sequence color h0 h1]

theorem is_colour_sequence_char (ch : Int) : is_colour_sequence [ch] = false := rfl

/-- A run of cells of one colour: at most one colour sequence is written, and none
when the colour is the cached one. -/
theorem put_cells_colour_run (color : Int) (h0 : -128 ≤ color) (h1 : color ≤ 127) :
    ∀ (cells : List (Nat × Nat × eetg_view_cell)),
      (∀ x ∈ cells, x.1 < EETG_ROWS ∧ x.2.1 < EETG_COLUMNS ∧ x.2.2.color = color) →
      ∀ start : eetg_world, ∃ out,
        (put_cells start cells).written = start.written ++ out ∧
        (out.filter is_colour_sequence).length ≤
          (if start.current_color = color then 0 else 1) := by
  intro cells
  induction cells with
  | nil =>
    intro _ start
    exact ⟨[], by simp [put_cells], by simp⟩
  | cons x rest ih =>
    intro hcells start
    obtain ⟨hx1, hx2, hx3⟩ := hcells x (List.mem_cons_self _ _)
    obtain ⟨hw, _, _, hcur⟩ := put_cell_effect start x.1 x.2.1 hx1 hx2 x.2.2
    have hcur' : (put_cell start x.1 x.2.1 x.2.2).current_color = color := by
      rw [hcur (by rw [hx3]; exact h0) (by rw [hx3]; exact h1), hx3]
    obtain ⟨out, hout, hcount⟩ :=
      ih (fun y hy => hcells y (List.mem_cons_of_mem _ hy)) (put_cell start x.1 x.2.1 x.2.2)
    rw [if_pos hcur'] at hcount
    rw [hx3] at hw
    refine ⟨(if start.cursor_row = (x.1 : Int) ∧ start.cursor_column = (x.2.1 : Int) then []
        else [cursor_sequence (x.1 : Int) (x.2.1 : Int)]) ++
      (if color = start.current_color then [] else [color_sequence color]) ++
      [[x.2.2.c]] ++ out, ?_, ?_⟩
    · show (put_cells (put_cell start x.1 x.2.1 x.2.2) rest).written = _
      rw [hout, hw]
      simp only [List.append_assoc]
    · simp only [List.filter_append, List.length_append]
      have eA : (List.filter is_colour_sequence
          (if start.cursor_row = (x.1 : Int) ∧ start.cursor_column = (x.2.1 : Int) then []
            else [cursor_sequence (x.1 : Int) (x.2.1 : Int)])).length = 0 := by
        split
        · rfl
        · simp [is_colour_sequence_cursor x.1 x.2.1 hx1 hx2]
      have eB : (List.filter is_colour_sequence
          (if color = start.current_color then [] else [color_sequence color])).length =
          (if start.current_color = color then 0 else 1) := by
        by_cases h : color = start.current_color
        · rw [if_pos h, if_pos h.symm]; rfl
        · rw [if_neg h, if_neg (fun e => h e.symm)]
          simp [is_colour_sequence_color color h0 h1]
      have eC : (List.filter is_colour_sequence [[x.2.2.c]]).length = 0 := by
        simp [is_colour_sequence_char]
      omega

/-! ## Object initialisation: lemmas -/

theorem text_of_rows_cons (row : List Int) (rows : List (List Int)) :
    text_of_rows (row :: rows) = row ++ NEWLINE :: text_of_rows rows := by
  unfold text_of_rows
  simp

/-- The character of line `r` at position `c` is at the index `(w + 1) * r + c` of the
text of lines of `w` characters. -/
theorem text_of_rows_getD (w : Nat) :
    ∀ (rows : List (List Int)) (r c : Nat), (∀ row ∈ rows, row.length = w) →
      r < rows.length → c < w →
      (text_of_rows rows).getD ((w + 1) * r + c) 0 = (rows.getD r []).getD c 0 := by
  intro rows
  induction rows with
  | nil => intro r c _ hr; simp at hr
  | cons row rest ih =>
    intro r c hrows hr hc
    have hlen : row.length = w := hrows row (List.mem_cons_self _ _)
    rw [text_of_rows_cons]
    cases r with
    | zero =>
      simp only [Nat.mul_zero, Nat.zero_add, List.getD_cons_zero]
      exact List.getD_append _ _ _ _ (by omega)
    | succ r' =>
      have hidx : (w + 1) * (r' + 1) + c = row.length + (((w + 1) * r' + c) + 1) := by
        rw [hlen]; ring
      rw [hidx, List.getD_append_right _ _ _ _ (by omega)]
      simp only [Nat.add_sub_cancel_left, List.getD_cons_succ]
      exact ih r' c (fun x hx => hrows x (List.mem_cons_of_mem _ hx))
        (by simpa using hr) hc

theorem strchr_none (c : Int) (s : List Int) (h : c ∉ s) : strchr c s = none := by
  induction s with
  | nil => rfl
  | cons a rest ih =>
    unfold strchr
    rw [if_neg (fun e => h (by rw [e]; exact List.mem_cons_self _ _))]
    exact ih (fun hm => h (List.mem_cons_of_mem _ hm))

theorem strchr_row (c : Int) (row rest : List Int) (h : c ∉ row) :
    strchr c (row ++ c :: rest) = some (c :: rest) := by
  induction row with
  | nil => simp [strchr]
  | cons a tl ih =>
    rw [List.cons_append]
    unfold strchr
    rw [if_neg (fun e => h (by rw [e]; exact List.mem_cons_self _ _))]
    exact ih (fun hm => h (List.mem_cons_of_mem _ hm))

theorem to_int8_range (v : Int) : -128 ≤ to_int8 v ∧ to_int8 v ≤ 127 := by
  unfold to_int8
  omega

theorem to_int8_succ (v : Int) : to_int8 (to_int8 v + 1) = to_int8 (v + 1) := by
  unfold to_int8
  omega

theorem text_of_rows_length_le (rows : List (List Int)) :
    rows.length ≤ (text_of_rows rows).length := by
  induction rows with
  | nil => simp [text_of_rows]
  | cons row rest ih =>
    rw [text_of_rows_cons]
    simp only [List.length_append, List.length_cons]
    omega

theorem row_length_le_text (rows : List (List Int)) (row : List Int) (h : row ∈ rows) :
    row.length ≤ (text_of_rows rows).length := by
  induction rows with
  | nil => simp at h
  | cons r rest ih =>
    rw [text_of_rows_cons]
    simp only [List.length_append, List.length_cons]
    rcases List.mem_cons.1 h with e | e
    · subst e; omega
    · have := ih e; omega

/-- The loop of `eetg_object_init` over the lines that follow the first: it fails at
the first line whose length is not the stored width, and otherwise counts the lines
into the 8-bit height. -/
theorem init_loop_eq (tail : List Int) (htail : NEWLINE ∉ tail) :
    ∀ (rest : List (List Int)) (fuel : Nat) (object : eetg_object) (k : Int),
      (∀ row ∈ rest, NEWLINE ∉ row) →
      rest.length + 1 ≤ fuel →
      ((text_of_rows rest).length : Int) ≤ INT_MAX →
      object.height = to_int8 k →
      eetg_object_init_loop fuel (NEWLINE :: (text_of_rows rest ++ tail)) object =
        if ∀ row ∈ rest, (row.length : Int) = object.width then
          init_result.returned { object with height := to_int8 (k + (rest.length : Int)) }
        else init_result.assertion_failed := by
  intro rest
  induction rest with
  | nil =>
    intro fuel object k _ hfuel _ hk
    obtain ⟨f, rfl⟩ : ∃ f, fuel = f + 1 := ⟨fuel - 1, by simp at hfuel; omega⟩
    unfold eetg_object_init_loop
    simp only [List.tail_cons, text_of_rows, List.flatMap_nil, List.nil_append,
      strchr_none NEWLINE tail htail]
    rw [if_pos (by simp)]
    congr 1
    simp only [List.length_nil, Nat.cast_zero, add_zero]
    rw [← hk]
  | cons row rest ih =>
    intro fuel object k hrows hfuel hlen hk
    obtain ⟨f, rfl⟩ : ∃ f, fuel = f + 1 := ⟨fuel - 1, by simp at hfuel; omega⟩
    have hrow : NEWLINE ∉ row := hrows row (List.mem_cons_self _ _)
    have hrest : ∀ r ∈ rest, NEWLINE ∉ r := fun r hr => hrows r (List.mem_cons_of_mem _ hr)
    rw [text_of_rows_cons] at hlen
    simp only [List.length_append, List.length_cons, Nat.cast_add, Nat.cast_one] at hlen
    have hstr : strchr NEWLINE (text_of_rows (row :: rest) ++ tail) =
        some (NEWLINE :: (text_of_rows rest ++ tail)) := by
      rw [text_of_rows_cons, List.append_assoc, List.cons_append]
      exact strchr_row NEWLINE row _ hrow
    have hwidth : (((text_of_rows (row :: rest) ++ tail).length : Nat) : Int) -
        (((NEWLINE :: (text_of_rows rest ++ tail)).length : Nat) : Int) = (row.length : Int) := by
      rw [text_of_rows_cons]
      simp only [List.length_append, List.length_cons, Nat.cast_add, Nat.cast_one]
      ring
    unfold eetg_object_init_loop
    simp only [List.tail_cons, hstr, hwidth]
    rw [if_neg (by
      have : (0 : Int) ≤ ((text_of_rows rest).length : Int) := Int.natCast_nonneg _
      omega)]
    by_cases hw : (row.length : Int) = object.width
    · have hh := to_int8_range k
      have hI : INT_MAX = 2147483647 := rfl
      rw [if_neg (not_not.2 hw), if_neg (by rw [hk]; omega)]
      rw [ih f { object with height := to_int8 (object.height + 1) } (k + 1) hrest
        (by simp at hfuel; omega) (by
          have : (0 : Int) ≤ (row.length : Int) := Int.natCast_nonneg _
          omega) (by
          show to_int8 (object.height + 1) = to_int8 (k + 1)
          rw [hk, to_int8_succ])]
      have hiff : (∀ r ∈ row :: rest, (r.length : Int) = object.width) ↔
          (∀ r ∈ rest, (r.length : Int) = object.width) := by
        constructor
        · intro h r hr; exact h r (List.mem_cons_of_mem _ hr)
        · intro h r hr
          rcases List.mem_cons.1 hr with e | e
          · subst e; exact hw
          · exact h r e
      simp only [hiff]
      have hk1 : k + 1 + (rest.length : Int) = k + ((row :: rest).length : Int) := by
        simp only [List.length_cons, Nat.cast_add, Nat.cast_one]; ring
      rw [hk1]
    · rw [if_pos hw, if_neg]
      intro h
      exact hw (h row (List.mem_cons_self _ _))

/-- What `eetg_object_init` does with a text, by its lines: it fails when there is no
line break, or when a later line has a length other than the stored 8-bit width;
otherwise it returns, never out of fuel, with the length of the first line and the
number of lines, each narrowed to 8 bits. -/
theorem object_init_eq (object : eetg_object) (type : Int) (rows : List (List Int))
    (tail : List Int) (hrows : ∀ row ∈ rows, NEWLINE ∉ row) (htail : NEWLINE ∉ tail)
    (hlen : ((text_of_rows rows).length : Int) ≤ INT_MAX) :
    eetg_object_init object type (text_of_rows rows ++ tail) =
      init_of_rows object.address type tail rows := by
  cases rows with
  | nil =>
    unfold eetg_object_init init_of_rows
    simp only [text_of_rows, List.flatMap_nil, List.nil_append,
      strchr_none NEWLINE tail htail]
  | cons first rest =>
    have hfirst : NEWLINE ∉ first := hrows first (List.mem_cons_self _ _)
    have hrest : ∀ r ∈ rest, NEWLINE ∉ r := fun r hr => hrows r (List.mem_cons_of_mem _ hr)
    have hstr : strchr NEWLINE (text_of_rows (first :: rest) ++ tail) =
        some (NEWLINE :: (text_of_rows rest ++ tail)) := by
      rw [text_of_rows_cons, List.append_assoc, List.cons_append]
      exact strchr_row NEWLINE first _ hfirst
    have hwidth : (((text_of_rows (first :: rest) ++ tail).length : Nat) : Int) -
        (((NEWLINE :: (text_of_rows rest ++ tail)).length : Nat) : Int) =
        (first.length : Int) := by
      rw [text_of_rows_cons]
      simp only [List.length_append, List.length_cons, Nat.cast_add, Nat.cast_one]
      ring
    have hlen' := hlen
    rw [text_of_rows_cons] at hlen'
    simp only [List.length_append, List.length_cons, Nat.cast_add, Nat.cast_one] at hlen'
    have hfuel : rest.length + 1 ≤ (text_of_rows (first :: rest) ++ tail).length := by
      have := text_of_rows_length_le rest
      rw [text_of_rows_cons]
      simp only [List.length_append, List.length_cons]
      omega
    unfold eetg_object_init init_of_rows
    simp only [hstr, hwidth]
    rw [if_neg (by
      have : (0 : Int) ≤ ((text_of_rows rest).length : Int) := Int.natCast_nonneg _
      omega)]
    rw [init_loop_eq tail htail rest _ _ 1 hrest hfuel (by
      have : (0 : Int) ≤ (first.length : Int) := Int.natCast_nonneg _
      omega) (by
      show (1 : Int) = to_int8 1
      decide)]
    simp only [List.length_cons, Nat.cast_add, Nat.cast_one]
    have hk : (1 : Int) + (rest.length : Int) = (rest.length : Int) + 1 := by ring
    rw [hk]

/-- Every text is its lines that end in a line break, followed by what comes after
the last line break. -/
theorem text_rows_spec (text : List Int) :
    text = text_of_rows (text_rows text) ++ text_tail text ∧
      (∀ row ∈ text_rows text, NEWLINE ∉ row) ∧ NEWLINE ∉ text_tail text := by
  induction text with
  | nil => simp [text_rows, text_tail, text_of_rows]
  | cons c rest ih =>
    obtain ⟨h1, h2, h3⟩ := ih
    unfold text_rows text_tail
    by_cases hc : c = NEWLINE
    · rw [if_pos hc, if_pos hc, text_of_rows_cons]
      refine ⟨?_, ?_, h3⟩
      · rw [List.nil_append, List.cons_append, ← h1, hc]
      · intro row hrow
        rcases List.mem_cons.1 hrow with e | e
        · subst e; simp
        · exact h2 row e
    · rw [if_neg hc, if_neg hc]
      cases hrows : text_rows rest with
      | nil =>
        rw [hrows] at h1
        simp only [text_of_rows, List.flatMap_nil, List.nil_append] at h1 ⊢
        refine ⟨by rw [← h1], by simp, ?_⟩
        intro hm
        rcases List.mem_cons.1 hm with e | e
        · exact hc e.symm
        · exact h3 e
      | cons row rows =>
        rw [hrows] at h1 h2
        simp only
        refine ⟨?_, ?_, h3⟩
        · rw [text_of_rows_cons] at h1 ⊢
          simp only [List.cons_append, List.append_assoc] at h1 ⊢
          rw [← h1]
        · intro r hr
          rcases List.mem_cons.1 hr with e | e
          · subst e
            intro hm
            rcases List.mem_cons.1 hm with e' | e'
            · exact hc e'.symm
            · exact h2 row (List.mem_cons_self _ _) e'
          · exact h2 r (List.mem_cons_of_mem _ e)

/-- The loop of `eetg_object_init` ends within its fuel: for every text that fits an
`int`, the call returns or fails an assertion. -/
theorem object_init_total (object : eetg_object) (type : Int) (text : List Int)
    (hlen : (text.length : Int) ≤ INT_MAX) :
    eetg_object_init object type text ≠ init_result.out_of_fuel := by
  obtain ⟨htext, hrows, htail⟩ := text_rows_spec text
  have hlen' : ((text_of_rows (text_rows text)).length : Int) ≤ INT_MAX := by
    have : (text_of_rows (text_rows text)).length ≤ text.length := by
      conv_rhs => rw [htext]
      simp
    omega
  have key := object_init_eq object type (text_rows text) (text_tail text) hrows htail hlen'
  rw [← htext] at key
  rw [key]
  cases text_rows text with
  | nil => simp [init_of_rows]
  | cons first rest =>
    simp only [init_of_rows]
    split <;> simp

/-! ## The member list -/

/-- With positive widths and heights the assertions of `eetg_object_check_collision`
hold. -/
theorem check_collision_of_positive (a b : eetg_object) (ha : positive_size a)
    (hb : positive_size b) : eetg_object_check_collision a b ≠ none := by
  obtain ⟨ha1, ha2⟩ := ha
  obtain ⟨hb1, hb2⟩ := hb
  unfold eetg_object_check_collision
  simp only
  split
  · simp
  · rename_i hbox
    simp only [not_or, not_lt, gt_iff_lt] at hbox
    obtain ⟨h1, h2, h3, h4⟩ := hbox
    rw [if_neg (by
      rw [not_not]
      split <;> split <;> omega)]
    rw [if_neg (by
      rw [not_not]
      split <;> split <;> omega)]
    simp

/-- The collision scan of positive-size objects fails no assertion. -/
theorem scan_members_of_positive (arg : Nat) (object : eetg_object)
    (members : List eetg_object) (ho : positive_size object)
    (hm : ∀ m ∈ members, positive_size m) :
    (scan_members arg object members).1 = false := by
  induction members with
  | nil => rfl
  | cons tmp next ih =>
    have ih' := ih (fun m h => hm m (List.mem_cons_of_mem _ h))
    unfold scan_members
    split
    · exact ih'
    · cases hc : eetg_object_check_collision object tmp with
      | none =>
        exact absurd hc
          (check_collision_of_positive object tmp ho (hm tmp (List.mem_cons_self _ _)))
      | some cells => exact ih'

/-- The collision scan fails no assertion when no handler is registered or when the
object and all members have a positive width and height. -/
theorem scan_collisions_ok (world : eetg_world) (object : eetg_object)
    (h : world.handle_collision_fn = none ∨
      (positive_size object ∧ ∀ m ∈ world.objects, positive_size m)) :
    (eetg_world_scan_collisions world object).1 = false := by
  unfold eetg_world_scan_collisions
  cases hf : world.handle_collision_fn with
  | none => rfl
  | some fn =>
    rcases h with h | ⟨ho, hm⟩
    · rw [hf] at h; exact absurd h (by simp)
    · exact scan_members_of_positive _ object world.objects ho hm

/-- What `eetg_world_add` does to a detached object: the object is positioned and
attached, it is linked at the head of the member list, and then the collisions are
scanned. -/
theorem world_add_detached (world : eetg_world) (object : eetg_object) (x y : Int)
    (hdet : object.world = none) :
    eetg_world_add world object x y =
      { failed := (eetg_world_scan_collisions
          { world with objects :=
              { object with world := some world.address, x := to_int8 x, y := to_int8 y }
                :: world.objects }
          { object with world := some world.address, x := to_int8 x, y := to_int8 y }).1
        world := { world with objects :=
              { object with world := some world.address, x := to_int8 x, y := to_int8 y }
                :: world.objects }
        object := { object with world := some world.address, x := to_int8 x, y := to_int8 y }
        calls := (eetg_world_scan_collisions
          { world with objects :=
              { object with world := some world.address, x := to_int8 x, y := to_int8 y }
                :: world.objects }
          { object with world := some world.address, x := to_int8 x, y := to_int8 y }).2 } := by
  unfold eetg_world_add eetg_object_get_world eetg_object_set
  simp [hdet]

/-- What `eetg_world_add` does to an attached object: the first assertion fails. -/
theorem world_add_attached (world : eetg_world) (object : eetg_object) (x y : Int)
    (hatt : object.world ≠ none) :
    eetg_world_add world object x y =
      { failed := true, world := world, object := object, calls := [] } := by
  unfold eetg_world_add eetg_object_get_world
  rw [if_pos hatt]

/-- The search loop of `eetg_world_remove` drops the first entry after `tmp` that is
the object. -/
theorem remove_loop_eq (object : eetg_object) (rest : List eetg_object) :
    ∀ tmp : eetg_object, remove_loop object (tmp :: rest) =
      tmp :: rest.eraseP (fun m => decide (m.address = object.address)) := by
  induction rest with
  | nil => intro tmp; rfl
  | cons next rest ih =>
    intro tmp
    unfold remove_loop
    by_cases h : next.address = object.address
    · rw [if_pos h, List.eraseP_cons_of_pos (by simpa using h)]
    · rw [if_neg h, ih next, List.eraseP_cons_of_neg (by simpa using h)]

/-! ## The collision scan of a world: lemmas -/

/-- The overlap of the non-space glyphs, searched in the box of the first object, is
the existence of a cell where both objects show a non-space glyph. -/
theorem glyphs_overlap_iff (a b : eetg_object) :
    glyphs_overlap a b ↔ ∃ px py, both_solid a b px py := by
  unfold glyphs_overlap
  constructor
  · rintro ⟨p, _, hp⟩
    exact ⟨p.1, p.2, hp⟩
  · rintro ⟨px, py, hp⟩
    refine ⟨(px, py), ?_, hp⟩
    obtain ⟨h1, h2, h3, h4⟩ := hp.1
    have hi : (px - a.x).toNat < a.width.toNat := by omega
    have hj : (py - a.y).toNat < a.height.toNat := by omega
    have hpx : a.x + ((px - a.x).toNat : Int) = px := by omega
    have hpy : a.y + ((py - a.y).toNat : Int) = py := by omega
    unfold box_cells
    rw [List.mem_flatMap]
    refine ⟨(px - a.x).toNat, List.mem_range.2 hi, ?_⟩
    exact List.mem_map.2 ⟨(py - a.y).toNat, List.mem_range.2 hj, by rw [hpx, hpy]⟩

/-- For objects of positive size whose boxes have no common cell,
`eetg_object_check_collision` returns at once. -/
theorem check_collision_of_disjoint (a b : eetg_object) (ha : positive_size a)
    (hb : positive_size b) (h : ¬ boxes_intersect a b) :
    eetg_object_check_collision a b = some [] := by
  obtain ⟨ha1, ha2⟩ := ha
  obtain ⟨hb1, hb2⟩ := hb
  unfold eetg_object_check_collision
  simp only
  split
  · rfl
  · rename_i hbox
    exfalso
    apply h
    simp only [not_or, not_lt, gt_iff_lt] at hbox
    obtain ⟨h1, h2, h3, h4⟩ := hbox
    refine ⟨max a.x b.x, max a.y b.y, ?_, ?_⟩
    · unfold in_box
      omega
    · unfold in_box
      omega

/-- A well-formed sprite has a positive width and height. -/
theorem positive_of_well_formed (o : eetg_object) (h : well_formed_sprite o) :
    positive_size o :=
  ⟨by have := h.1; omega, by have := h.2.1; omega⟩

/-- The handler calls of `eetg_object_check_collision` for two well-formed sprites:
one call, at the first cell where both glyphs are non-space, when there is such a
cell, and none otherwise. -/
theorem check_collision_calls (a b : eetg_object) (ha : well_formed_sprite a)
    (hb : well_formed_sprite b) :
    (glyphs_overlap a b →
      ∃ px py, both_solid a b px py ∧
        (∀ qx qy, both_solid a b qx qy → scan_le px py qx qy) ∧
        eetg_object_check_collision a b = some [(px, py)]) ∧
    (¬ glyphs_overlap a b → eetg_object_check_collision a b = some []) := by
  have hpos : ∀ i k, in_box a i k → in_box b i k →
      0 < glyph_at a i k ∧ 0 < glyph_at b i k := by
    intro i k h1 h2
    have := glyph_printable a i k ha h1
    have := glyph_printable b i k hb h2
    omega
  by_cases hbx : boxes_intersect a b
  · obtain ⟨xtl, ytl, columns, rows, heq, hrect⟩ := check_collision_of_intersect a b hbx
    rcases columns_scan_first a b ytl rows hpos columns xtl
        (fun c k h1 h2 h3 h4 => (hrect c k).1 ⟨h1, h2, h3, h4⟩) with
      ⟨hnil, hno⟩ | ⟨c, k, _, _, _, _, hret, hsol, hmin⟩
    · refine ⟨?_, fun _ => by rw [heq, hnil]⟩
      intro hov
      obtain ⟨qx, qy, hq⟩ := (glyphs_overlap_iff a b).1 hov
      obtain ⟨h1, h2, h3, h4⟩ := (hrect qx qy).2 ⟨hq.1, hq.2.1⟩
      exact absurd hq (hno qx qy h1 h2 h3 h4)
    · refine ⟨fun _ => ⟨c, k, hsol, ?_, by rw [heq, hret]⟩, ?_⟩
      · intro c' k' hs
        obtain ⟨h1, h2, h3, h4⟩ := (hrect c' k').2 ⟨hs.1, hs.2.1⟩
        exact hmin c' k' h1 h2 h3 h4 hs
      · intro hno
        exact absurd ((glyphs_overlap_iff a b).2 ⟨c, k, hsol⟩) hno
  · refine ⟨?_, fun _ => check_collision_of_disjoint a b (positive_of_well_formed a ha)
      (positive_of_well_formed b hb) hbx⟩
    intro hov
    obtain ⟨qx, qy, hq⟩ := (glyphs_overlap_iff a b).1 hov
    exact absurd ⟨qx, qy, hq.1, hq.2.1⟩ hbx

/-- The scan of a member list for a well-formed object against well-formed members:
no assertion fails, the handler is called once for each member other than the object
whose glyphs overlap those of the object, in the order of the list, with the object,
that member and the registered argument, at a cell where both show a non-space
glyph. -/
theorem scan_members_calls (arg : Nat) (object : eetg_object)
    (ho : well_formed_sprite object) (members : List eetg_object)
    (hm : ∀ m ∈ members, m.address ≠ object.address → well_formed_sprite m) :
    (scan_members arg object members).1 = false ∧
    (scan_members arg object members).2.map call_parties =
      (overlapping_members object members).map
        (fun m => (object.address, m.address, arg)) ∧
    (∀ c ∈ (scan_members arg object members).2,
      ∃ m ∈ members, m.address = c.object2 ∧ m.address ≠ object.address ∧
        both_solid object m c.x c.y ∧
        ∀ qx qy, both_solid object m qx qy → scan_le c.x c.y qx qy) := by
  induction members with
  | nil => exact ⟨rfl, rfl, fun c hc => absurd hc (by simp [scan_members])⟩
  | cons tmp next ih =>
    obtain ⟨ih1, ih2, ih3⟩ := ih (fun m h => hm m (List.mem_cons_of_mem _ h))
    have ih3' : ∀ c ∈ (scan_members arg object next).2,
        ∃ m ∈ tmp :: next, m.address = c.object2 ∧ m.address ≠ object.address ∧
          both_solid object m c.x c.y ∧
          ∀ qx qy, both_solid object m qx qy → scan_le c.x c.y qx qy := by
      intro c hc
      obtain ⟨m, hmem, rest⟩ := ih3 c hc
      exact ⟨m, List.mem_cons_of_mem _ hmem, rest⟩
    unfold scan_members overlapping_members
    by_cases hself : tmp.address = object.address
    · rw [if_pos hself, List.filter_cons_of_neg (by simp [hself])]
      exact ⟨ih1, ih2, ih3'⟩
    · rw [if_neg hself]
      have htmp := hm tmp (List.mem_cons_self _ _) hself
      obtain ⟨hyes, hno⟩ := check_collision_calls object tmp ho htmp
      by_cases hov : glyphs_overlap object tmp
      · obtain ⟨px, py, hsol, hmin, hcheck⟩ := hyes hov
        rw [hcheck, List.filter_cons_of_pos (by simp [hself, hov])]
        refine ⟨ih1, ?_, ?_⟩
        · simp only [List.map_cons, List.map_nil, List.singleton_append, call_parties]
          congr 1
        · intro c hc
          simp only [List.map_cons, List.map_nil, List.singleton_append,
            List.mem_cons] at hc
          rcases hc with rfl | hc
          · exact ⟨tmp, List.mem_cons_self _ _, rfl, hself, hsol, hmin⟩
          · exact ih3' c hc
      · rw [hno hov, List.filter_cons_of_neg (by simp [hov])]
        exact ⟨ih1, ih2, ih3'⟩

/-- The collision scan of a world with a registered handler, for a well-formed object
against well-formed members. -/
theorem scan_collisions_calls (world : eetg_world) (object : eetg_object) (fn : Nat)
    (hfn : world.handle_collision_fn = some fn) (ho : well_formed_sprite object)
    (hm : ∀ m ∈ world.objects, m.address ≠ object.address → well_formed_sprite m) :
    (eetg_world_scan_collisions world object).1 = false ∧
    (eetg_world_scan_collisions world object).2.map call_parties =
      (overlapping_members object world.objects).map
        (fun m => (object.address, m.address, world.handle_collision_fn_arg)) ∧
    (∀ c ∈ (eetg_world_scan_collisions world object).2,
      ∃ m ∈ world.objects, m.address = c.object2 ∧ m.address ≠ object.address ∧
        both_solid object m c.x c.y ∧
        ∀ qx qy, both_solid object m qx qy → scan_le c.x c.y qx qy) := by
  unfold eetg_world_scan_collisions
  rw [hfn]
  exact scan_members_calls _ object ho world.objects hm

/-- What `eetg_object_move` does to an object that is detached or attached to the
world given. -/
theorem object_move_eq (world : eetg_world) (object : eetg_object) (x y : Int)
    (hworld : object.world = none ∨ object.world = some world.address) :
    eetg_object_move world object x y =
      some
        { failed :=
            if object.world = none then false
            else (eetg_world_scan_collisions
              { world with objects := world.objects.map (fun tmp =>
                  if tmp.address = object.address then
                    { object with x := to_int8 x, y := to_int8 y }
                  else tmp) }
              { object with x := to_int8 x, y := to_int8 y }).1
          world := { world with objects := world.objects.map (fun tmp =>
            if tmp.address = object.address then
              { object with x := to_int8 x, y := to_int8 y }
            else tmp) }
          object := { object with x := to_int8 x, y := to_int8 y }
          calls :=
            if object.world = none then []
            else (eetg_world_scan_collisions
              { world with objects := world.objects.map (fun tmp =>
                  if tmp.address = object.address then
                    { object with x := to_int8 x, y := to_int8 y }
                  else tmp) }
              { object with x := to_int8 x, y := to_int8 y }).2 } := by
  unfold eetg_object_move
  rcases hworld with h | h
  · simp [h]
  · simp [h]

/-- The inner loop of `eetg_object_check_collision` calls the handler at most once. -/
theorem rows_scan_at_most_one (a b : eetg_object) (i : Int) :
    ∀ (count : Nat) (j : Int) (calls : List (Int × Int)),
      check_collision_rows a b i j count = column_scan.returned calls →
      calls.length ≤ 1 := by
  intro count
  induction count with
  | zero =>
    intro j calls h
    unfold check_collision_rows at h
    exact absurd h (by simp)
  | succ n ih =>
    intro j calls h
    unfold check_collision_rows at h
    simp only at h
    split at h
    · injection h with h; rw [← h]; exact Nat.zero_le _
    · split at h
      · exact ih _ _ h
      · injection h with h; rw [← h]; exact Nat.le_refl _

/-- The function `eetg_object_check_collision` calls the handler at most once. -/
theorem check_collision_at_most_one (a b : eetg_object) (cells : List (Int × Int))
    (h : eetg_object_check_collision a b = some cells) : cells.length ≤ 1 := by
  have hcols : ∀ (ytl : Int) (rows count : Nat) (i : Int),
      (check_collision_columns a b ytl rows i count).length ≤ 1 := by
    intro ytl rows count
    induction count with
    | zero => intro i; exact Nat.zero_le _
    | succ n ih =>
      intro i
      unfold check_collision_columns
      cases hr : check_collision_rows a b i ytl rows with
      | returned calls => exact rows_scan_at_most_one a b i rows ytl calls hr
      | finished => exact ih _
  unfold eetg_object_check_collision at h
  simp only at h
  by_cases h1 : b.x > a.x + a.width - 1 ∨ a.x > b.x + b.width - 1 ∨
      b.y > a.y + a.height - 1 ∨ a.y > b.y + b.height - 1
  · rw [if_pos h1] at h
    injection h with h
    rw [← h]
    exact Nat.zero_le _
  · rw [if_neg h1] at h
    by_cases h2 : ¬ ((if a.x > b.x then a.x else b.x) ≤
        (if a.x + a.width - 1 < b.x + b.width - 1 then a.x + a.width - 1
          else b.x + b.width - 1))
    · rw [if_pos h2] at h
      exact absurd h (by simp)
    · rw [if_neg h2] at h
      by_cases h3 : ¬ ((if a.y > b.y then a.y else b.y) ≤
          (if a.y + a.height - 1 < b.y + b.height - 1 then a.y + a.height - 1
            else b.y + b.height - 1))
      · rw [if_pos h3] at h
        exact absurd h (by simp)
      · rw [if_neg h3] at h
        injection h with h
        rw [← h]
        exact hcols _ _ _ _

/-- A scan of the member list that fails no assertion makes, for each member other
than the object and in the order of the list, the handler calls of
`eetg_object_check_collision` for the object and that member. -/
theorem scan_members_per_member (arg : Nat) (object : eetg_object)
    (members : List eetg_object) (hok : (scan_members arg object members).1 = false) :
    (scan_members arg object members).2 = calls_per_member arg object members := by
  induction members with
  | nil => rfl
  | cons tmp next ih =>
    unfold scan_members at hok ⊢
    unfold calls_per_member
    by_cases hself : tmp.address = object.address
    · rw [if_pos hself] at hok ⊢
      rw [List.filter_cons_of_neg (by simp [hself])]
      exact ih hok
    · rw [if_neg hself] at hok ⊢
      rw [List.filter_cons_of_pos (by simp [hself]), List.flatMap_cons]
      cases hc : eetg_object_check_collision object tmp with
      | none => rw [hc] at hok; exact absurd hok (by simp)
      | some cells =>
        rw [hc] at hok
        simp only at hok ⊢
        rw [ih hok]
        rfl

/-- A collision scan of a world with a handler that fails no assertion makes the
calls of `eetg_object_check_collision` member by member. -/
theorem scan_collisions_per_member (world : eetg_world) (object : eetg_object) (fn : Nat)
    (hfn : world.handle_collision_fn = some fn)
    (hok : (eetg_world_scan_collisions world object).1 = false) :
    (eetg_world_scan_collisions world object).2 =
      calls_per_member world.handle_collision_fn_arg object world.objects := by
  unfold eetg_world_scan_collisions at hok ⊢
  rw [hfn] at hok ⊢
  exact scan_members_per_member _ object world.objects hok

/-! ## Unlinking members: lemmas -/

/-- In a member list that holds no struct twice, two entries at one address are one
entry. -/
theorem member_eq_of_address (members : List eetg_object)
    (hnodup : (members.map (fun m => m.address)).Nodup) (a b : eetg_object)
    (ha : a ∈ members) (hb : b ∈ members) (h : a.address = b.address) : a = b :=
  List.inj_on_of_nodup_map hnodup ha hb h

/-- What `eetg_world_remove` does to a member: the first entry at the address of the
object is unlinked and the object is detached. -/
theorem world_remove_member (world : eetg_world) (object : eetg_object)
    (hback : object.world = some world.address)
    (hmem : ∃ m ∈ world.objects, m.address = object.address) :
    eetg_world_remove world object =
      { failed := false
        world := { world with objects :=
          (world.objects.eraseP (fun m => decide (m.address = object.address))) }
        object := { object with world := none }
        calls := [] } := by
  obtain ⟨m, hm, hma⟩ := hmem
  unfold eetg_world_remove eetg_object_get_world eetg_object_unset
  rw [if_neg (by simpa using hback)]
  cases hobj : world.objects with
  | nil => rw [hobj] at hm; exact absurd hm (by simp)
  | cons head next =>
    simp only
    by_cases hh : head.address = object.address
    · rw [if_pos hh, List.eraseP_cons_of_pos (by simpa using hh)]
      simp [hback]
    · rw [if_neg hh, remove_loop_eq, List.eraseP_cons_of_neg (by simpa using hh)]
      simp [hback]

/-- Unlinking a member of a list that holds no struct twice deletes exactly that
member. -/
theorem eraseP_member (members : List eetg_object) (object : eetg_object)
    (hmem : object ∈ members) (hnodup : (members.map (fun m => m.address)).Nodup) :
    ∃ before after, members = before ++ object :: after ∧
      members.eraseP (fun m => decide (m.address = object.address)) = before ++ after ∧
      ∀ m ∈ before ++ after, m.address ≠ object.address := by
  have hp : (fun m : eetg_object => decide (m.address = object.address)) object = true := by
    simp
  have hex : ∃ a l₁ l₂,
      (∀ b ∈ l₁, ¬ (fun m : eetg_object => decide (m.address = object.address)) b = true) ∧
      (fun m : eetg_object => decide (m.address = object.address)) a = true ∧
      members = l₁ ++ a :: l₂ ∧
      members.eraseP (fun m => decide (m.address = object.address)) = l₁ ++ l₂ :=
    List.exists_of_eraseP hmem hp
  obtain ⟨a, before, after, hbefore, hpa, hsplit, herase⟩ := hex
  have ha : a ∈ members := by rw [hsplit]; simp
  have haeq : a = object :=
    member_eq_of_address members hnodup a object ha hmem (by simpa using hpa)
  subst haeq
  refine ⟨before, after, hsplit, herase, ?_⟩
  intro m hm hma
  rw [hsplit, List.map_append, List.map_cons] at hnodup
  have hnd := List.nodup_middle.1 hnodup
  rw [← List.map_append] at hnd
  exact (List.nodup_cons.1 hnd).1 (by
    rw [← hma]
    exact List.mem_map_of_mem _ hm)

/-- The loop of `eetg_world_clear` over members that all have an owning world: no
assertion fails and every member is detached. -/
theorem clear_loop_attached (members : List eetg_object)
    (h : ∀ m ∈ members, m.world ≠ none) :
    clear_loop members = (false, members.map (fun m => { m with world := none })) := by
  induction members with
  | nil => rfl
  | cons object next ih =>
    have ih' := ih (fun m hm => h m (List.mem_cons_of_mem _ hm))
    unfold clear_loop eetg_object_unset
    rw [if_neg (h object (List.mem_cons_self _ _))]
    simp only [ih', List.map_cons]

/-- What `eetg_world_clear` does to a world whose members all have an owning world. -/
theorem world_clear_eq (world : eetg_world) (h : ∀ m ∈ world.objects, m.world ≠ none) :
    eetg_world_clear world =
      { failed := false, world := { world with objects := [] },
        objects := world.objects.map (fun m => { m with world := none }) } := by
  unfold eetg_world_clear
  cases hobj : world.objects with
  | nil => rfl
  | cons first next =>
    rw [hobj] at h
    simp only
    unfold eetg_object_unset
    rw [if_neg (h first (List.mem_cons_self _ _))]
    simp only [clear_loop_attached (first :: next) h]
    rfl

/-- Removing the members one after the other, in any order, from a world whose member
list holds no struct twice and whose members point back to it: no call fails, the
member list ends empty, every object is detached and nothing else changes. -/
theorem remove_each_eq (order : List eetg_object) :
    ∀ world : eetg_world, order.Perm world.objects →
      (world.objects.map (fun m => m.address)).Nodup →
      (∀ m ∈ world.objects, m.world = some world.address) →
      remove_each world order =
        { failed := false, world := { world with objects := [] },
          objects := order.map (fun m => { m with world := none }) } := by
  induction order with
  | nil =>
    intro world hperm _ _
    have : world.objects = [] := List.Perm.eq_nil (List.Perm.symm hperm)
    cases world
    simp only at this
    subst this
    rfl
  | cons object rest ih =>
    intro world hperm hnodup hback
    have hmem : object ∈ world.objects := hperm.subset (List.mem_cons_self _ _)
    obtain ⟨before, after, hsplit, herase, _⟩ := eraseP_member world.objects object hmem hnodup
    have hrem := world_remove_member world object (hback object hmem) ⟨object, hmem, rfl⟩
    rw [herase] at hrem
    have hperm' : rest.Perm (before ++ after) := by
      have h1 : (object :: rest).Perm (object :: (before ++ after)) := by
        rw [hsplit] at hperm
        exact hperm.trans List.perm_middle
      exact List.Perm.cons_inv h1
    have hsub : List.Sublist (before ++ after) world.objects := by
      rw [hsplit]
      exact List.Sublist.append (List.Sublist.refl _) (List.sublist_cons_self _ _)
    have hnodup' : ((before ++ after).map (fun m => m.address)).Nodup :=
      List.Nodup.sublist (List.Sublist.map _ hsub) hnodup
    have hback' : ∀ m ∈ before ++ after, m.world = some world.address :=
      fun m hm => hback m (hsub.subset hm)
    have key := ih { world with objects := before ++ after } hperm' hnodup' hback'
    unfold remove_each
    rw [hrem]
    simp only [Bool.false_eq_true, if_false, key, List.map_cons]

/-! ## The calls of a program: lemmas -/

theorem same_binding_refl (w : eetg_world) : same_binding w w := ⟨rfl, rfl, rfl⟩

theorem same_binding_trans {a b c : eetg_world} (h1 : same_binding a b)
    (h2 : same_binding b c) : same_binding a c := by
  obtain ⟨a1, a2, a3⟩ := h1
  obtain ⟨b1, b2, b3⟩ := h2
  exact ⟨b1.trans a1, b2.trans a2, b3.trans a3⟩

theorem set_color_same_binding (w : eetg_world) (color : Int) (force : Bool) :
    same_binding w (eetg_world_set_color w color force) := by
  unfold eetg_world_set_color
  split
  · exact same_binding_refl w
  · exact ⟨rfl, rfl, rfl⟩

theorem write_char_same_binding (w : eetg_world) (c : Int) :
    same_binding w (eetg_world_write_char w c) := by
  unfold eetg_world_write_char
  simp only
  split
  · split <;> exact ⟨rfl, rfl, rfl⟩
  · exact ⟨rfl, rfl, rfl⟩

theorem set_cursor_same_binding (w w' : eetg_world) (row column : Int)
    (h : eetg_world_set_cursor w row column = some w') : same_binding w w' := by
  unfold eetg_world_set_cursor at h
  split at h
  · exact absurd h (by simp)
  · split at h
    · cases h; exact same_binding_refl w
    · cases h; exact ⟨rfl, rfl, rfl⟩

theorem put_cell_same_binding (w : eetg_world) (r c : Nat) (cell : eetg_view_cell) :
    same_binding w (put_cell w r c cell) := by
  unfold put_cell
  cases h : eetg_world_set_cursor w (r : Int) (c : Int) with
  | none => exact same_binding_refl w
  | some w1 =>
    exact same_binding_trans (set_cursor_same_binding w w1 _ _ h)
      (same_binding_trans (set_color_same_binding w1 _ _) (write_char_same_binding _ _))

theorem put_cells_same_binding (cells : List (Nat × Nat × eetg_view_cell)) :
    ∀ w : eetg_world, same_binding w (put_cells w cells) := by
  induction cells with
  | nil => intro w; exact same_binding_refl w
  | cons x rest ih =>
    intro w
    exact same_binding_trans (put_cell_same_binding w x.1 x.2.1 x.2.2) (ih _)

theorem cursor_home_same_binding (w : eetg_world) : same_binding w (cursor_home w) :=
  set_cursor_same_binding w _ 0 0 (set_cursor_home w)

theorem sync_header_same_binding (w : eetg_world) : same_binding w (sync_header w) := by
  unfold sync_header
  exact same_binding_trans (⟨rfl, rfl, rfl⟩ : same_binding w (eetg_world_write_str w _))
    (same_binding_trans (set_color_same_binding _ _ _)
      (same_binding_trans
        (⟨rfl, rfl, rfl⟩ : same_binding _ (eetg_world_write_str _ _))
        (cursor_home_same_binding _)))

theorem store_same_binding (w : eetg_world) (p : Bool) (v : eetg_view) :
    same_binding w (w.store p v) := by
  cases p <;> exact ⟨rfl, rfl, rfl⟩

/-- The renderer leaves the address of the world and its handler binding alone. -/
theorem render_same_binding (w w' : eetg_world) (sync : Bool)
    (h : eetg_world_render w sync = some w') : same_binding w w' := by
  rw [render_eq] at h
  injection h with h
  rw [← h]
  have hr : same_binding w (rasterised_world w) := store_same_binding _ _ _
  have hswap : ∀ u : eetg_world, same_binding u (eetg_world_swap_views u) :=
    fun _ => ⟨rfl, rfl, rfl⟩
  cases sync
  · exact same_binding_trans hr
      (same_binding_trans (put_cells_same_binding _ _)
        (same_binding_trans (cursor_home_same_binding _) (hswap _)))
  · exact same_binding_trans hr
      (same_binding_trans (sync_header_same_binding _)
        (same_binding_trans (put_cells_same_binding _ _)
          (same_binding_trans (cursor_home_same_binding _) (hswap _))))

/-- The struct found at an address is in the memory, at that address. -/
theorem object_at_some (memory : engine_memory) (address : Nat) (o : eetg_object)
    (h : memory.object_at address = some o) :
    (o ∈ memory.world.objects ∨ o ∈ memory.objects) ∧ o.address = address := by
  unfold engine_memory.object_at at h
  have hmem := List.mem_of_find?_eq_some h
  have hp := List.find?_some h
  exact ⟨List.mem_append.1 hmem, by simpa using hp⟩

/-- The world a freshly initialised memory starts from has no member. -/
theorem init_coherent (world initialised : eetg_world) (objects : List eetg_object)
    (hinit : eetg_world_init world = some initialised)
    (hnodup : (objects.map (fun o => o.address)).Nodup)
    (hback : ∀ o ∈ objects, o.world ≠ some initialised.address) :
    engine_memory.coherent { world := initialised, objects := objects } := by
  rw [world_init_eq] at hinit
  injection hinit with hinit
  have hobj : initialised.objects = [] := by rw [← hinit]; rfl
  unfold engine_memory.coherent
  simp only [hobj]
  exact ⟨List.nodup_nil, hnodup, fun m hm => absurd hm (by simp),
    fun m hm => absurd hm (by simp), hback⟩

theorem call_register (memory : engine_memory) (fn arg : Nat) :
    memory.call (engine_call.register fn arg) =
      some { memory with world :=
        { memory.world with handle_collision_fn := some fn, handle_collision_fn_arg := arg } } :=
  rfl

theorem call_add (memory : engine_memory) (a : Nat) (x y : Int) :
    memory.call (engine_call.add a x y) =
      match memory.object_at a with
      | none => none
      | some object =>
        if (eetg_world_add memory.world object x y).failed then none
        else
          some { world := (eetg_world_add memory.world object x y).world
                 objects := memory.objects.filter (fun o => decide (o.address ≠ a)) } :=
  rfl

theorem call_remove (memory : engine_memory) (a : Nat) :
    memory.call (engine_call.remove a) =
      match memory.object_at a with
      | none => none
      | some object =>
        if (eetg_world_remove memory.world object).failed then none
        else
          some { world := (eetg_world_remove memory.world object).world
                 objects := (eetg_world_remove memory.world object).object ::
                   memory.objects.filter (fun o => decide (o.address ≠ a)) } :=
  rfl

theorem call_clear (memory : engine_memory) :
    memory.call engine_call.clear =
      if (eetg_world_clear memory.world).failed then none
      else
        some { world := (eetg_world_clear memory.world).world
               objects := (eetg_world_clear memory.world).objects ++ memory.objects } :=
  rfl

theorem call_move (memory : engine_memory) (a : Nat) (x y : Int) :
    memory.call (engine_call.move a x y) =
      match memory.object_at a with
      | none => none
      | some object =>
        match eetg_object_move memory.world object x y with
        | none => none
        | some outcome =>
          if outcome.failed then none
          else
            some { world := outcome.world
                   objects := memory.objects.map (fun o =>
                     if o.address = a then outcome.object else o) } :=
  rfl

theorem call_render (memory : engine_memory) (sync : Bool) :
    memory.call (engine_call.render sync) =
      match eetg_world_render memory.world sync with
      | none => none
      | some world => some { memory with world := world } :=
  rfl

/-- The calls that change the member list leave everything else of the world alone. -/
theorem world_add_frame (world : eetg_world) (o : eetg_object) (x y : Int) :
    ∃ objects, (eetg_world_add world o x y).world = { world with objects := objects } := by
  by_cases hdet : o.world = none
  · rw [world_add_detached world o x y hdet]
    exact ⟨_, rfl⟩
  · rw [world_add_attached world o x y hdet]
    exact ⟨world.objects, rfl⟩

theorem world_remove_frame (world : eetg_world) (o : eetg_object) :
    ∃ objects, (eetg_world_remove world o).world = { world with objects := objects } := by
  unfold eetg_world_remove
  split
  · exact ⟨world.objects, rfl⟩
  · cases world.objects with
    | nil => exact ⟨world.objects, rfl⟩
    | cons head next =>
      simp only
      by_cases hh : head.address = o.address
      · rw [if_pos hh]
        cases eetg_object_unset o <;> exact ⟨_, rfl⟩
      · rw [if_neg hh]
        cases eetg_object_unset o <;> exact ⟨_, rfl⟩

theorem world_clear_frame (world : eetg_world) :
    ∃ objects, (eetg_world_clear world).world = { world with objects := objects } := by
  unfold eetg_world_clear
  cases world.objects with
  | nil => exact ⟨_, rfl⟩
  | cons first next =>
    simp only
    cases eetg_object_unset first with
    | none => exact ⟨world.objects, rfl⟩
    | some unset =>
      simp only
      split <;> exact ⟨_, rfl⟩

theorem object_move_frame (world : eetg_world) (o : eetg_object) (x y : Int)
    (r : eetg_outcome) (h : eetg_object_move world o x y = some r) :
    ∃ objects, r.world = { world with objects := objects } := by
  unfold eetg_object_move at h
  simp only at h
  cases hw : o.world with
  | none =>
    rw [hw] at h
    injection h with h
    rw [← h]
    exact ⟨_, rfl⟩
  | some address =>
    rw [hw] at h
    simp only at h
    split at h
    · injection h with h
      rw [← h]
      exact ⟨_, rfl⟩
    · exact absurd h (by simp)

/-- A successful call keeps the membership invariant and the address of the world. -/
theorem call_coherent (memory after : engine_memory) (c : engine_call)
    (hco : memory.coherent) (hcall : memory.call c = some after) :
    after.coherent ∧ after.world.address = memory.world.address := by
  obtain ⟨n1, n2, n3, b2, b3⟩ := hco
  cases c with
  | register fn arg =>
    rw [call_register] at hcall
    injection hcall with hcall
    rw [← hcall]
    exact ⟨⟨n1, n2, n3, b2, b3⟩, rfl⟩
  | add a x y =>
    rw [call_add] at hcall
    cases hat : memory.object_at a with
    | none => rw [hat] at hcall; exact absurd hcall (by simp)
    | some o =>
      rw [hat] at hcall
      simp only at hcall
      obtain ⟨hin, haddr⟩ := object_at_some memory a o hat
      by_cases hdet : o.world = none
      · rw [world_add_detached memory.world o x y hdet] at hcall
        simp only at hcall
        split at hcall
        · exact absurd hcall (by simp)
        · injection hcall with hcall
          have hpool : o ∈ memory.objects := by
            rcases hin with h | h
            · rw [b2 o h] at hdet; exact absurd hdet (by simp)
            · exact h
          rw [← hcall]
          refine ⟨⟨?_, ?_, ?_, ?_, ?_⟩, rfl⟩
          · simp only [List.map_cons, List.nodup_cons]
            refine ⟨?_, n1⟩
            intro hmem
            obtain ⟨m, hm, hma⟩ := List.mem_map.1 hmem
            exact n3 m hm o hpool hma
          · exact List.Nodup.sublist (List.Sublist.map _ (List.filter_sublist _)) n2
          · intro m hm p hp
            obtain ⟨hp1, hp2⟩ := List.mem_filter.1 hp
            have hp3 : p.address ≠ a := by simpa using hp2
            rcases List.mem_cons.1 hm with rfl | hm
            · simp only
              rw [haddr]
              exact fun e => hp3 e.symm
            · exact n3 m hm p hp1
          · intro m hm
            rcases List.mem_cons.1 hm with rfl | hm
            · rfl
            · exact b2 m hm
          · intro p hp
            exact b3 p (List.mem_filter.1 hp).1
      · rw [world_add_attached memory.world o x y hdet] at hcall
        simp at hcall
  | remove a =>
    rw [call_remove] at hcall
    cases hat : memory.object_at a with
    | none => rw [hat] at hcall; exact absurd hcall (by simp)
    | some o =>
      rw [hat] at hcall
      simp only at hcall
      obtain ⟨hin, haddr⟩ := object_at_some memory a o hat
      by_cases hback : o.world = some memory.world.address
      · have hlist : o ∈ memory.world.objects := by
          rcases hin with h | h
          · exact h
          · exact absurd hback (b3 o h)
        obtain ⟨before, rest, hsplit, herase, hne⟩ :=
          eraseP_member memory.world.objects o hlist n1
        rw [world_remove_member memory.world o hback ⟨o, hlist, rfl⟩, herase] at hcall
        simp only [Bool.false_eq_true, if_false, Option.some.injEq] at hcall
        have hsub : List.Sublist (before ++ rest) memory.world.objects := by
          rw [hsplit]
          exact List.Sublist.append (List.Sublist.refl _) (List.sublist_cons_self _ _)
        rw [← hcall]
        refine ⟨⟨?_, ?_, ?_, ?_, ?_⟩, rfl⟩
        · exact List.Nodup.sublist (List.Sublist.map _ hsub) n1
        · simp only [List.map_cons, List.nodup_cons]
          refine ⟨?_, List.Nodup.sublist (List.Sublist.map _ (List.filter_sublist _)) n2⟩
          intro hmem
          obtain ⟨p, hp, hpa⟩ := List.mem_map.1 hmem
          have hp2 : p.address ≠ a := by simpa using (List.mem_filter.1 hp).2
          exact hp2 (by rw [hpa, haddr])
        · intro m hm p hp
          rcases List.mem_cons.1 hp with rfl | hp
          · exact hne m hm
          · exact n3 m (hsub.subset hm) p (List.mem_filter.1 hp).1
        · intro m hm
          exact b2 m (hsub.subset hm)
        · intro p hp
          rcases List.mem_cons.1 hp with rfl | hp
          · simp
          · exact b3 p (List.mem_filter.1 hp).1
      · have hfail : (eetg_world_remove memory.world o).failed = true := by
          unfold eetg_world_remove eetg_object_get_world
          rw [if_pos hback]
        rw [hfail] at hcall
        simp at hcall
  | clear =>
    rw [call_clear] at hcall
    rw [world_clear_eq memory.world (fun m hm => by rw [b2 m hm]; simp)] at hcall
    simp only [Bool.false_eq_true, if_false, Option.some.injEq] at hcall
    rw [← hcall]
    refine ⟨⟨List.nodup_nil, ?_, fun m hm => absurd hm (by simp),
      fun m hm => absurd hm (by simp), ?_⟩, rfl⟩
    · simp only [List.map_append, List.map_map]
      rw [List.nodup_append]
      refine ⟨n1, n2, ?_⟩
      intro x hx hx'
      obtain ⟨m, hm, hma⟩ := List.mem_map.1 hx
      obtain ⟨p, hp, hpa⟩ := List.mem_map.1 hx'
      exact n3 m hm p hp (by
        simp only [Function.comp] at hma
        rw [hma, hpa])
    · intro p hp
      rcases List.mem_append.1 hp with h | h
      · obtain ⟨m, _, hm⟩ := List.mem_map.1 h
        rw [← hm]
        simp
      · exact b3 p h
  | move a x y =>
    rw [call_move] at hcall
    cases hat : memory.object_at a with
    | none => rw [hat] at hcall; exact absurd hcall (by simp)
    | some o =>
      rw [hat] at hcall
      simp only at hcall
      obtain ⟨hin, haddr⟩ := object_at_some memory a o hat
      subst haddr
      cases hmove : eetg_object_move memory.world o x y with
      | none => rw [hmove] at hcall; exact absurd hcall (by simp)
      | some r =>
        rw [hmove] at hcall
        simp only at hcall
        split at hcall
        · exact absurd hcall (by simp)
        · injection hcall with hcall
          have hworld : o.world = none ∨ o.world = some memory.world.address := by
            unfold eetg_object_move at hmove
            simp only at hmove
            cases hw : o.world with
            | none => exact Or.inl rfl
            | some address =>
              rw [hw] at hmove
              simp only at hmove
              split at hmove
              · rename_i h; exact Or.inr (by rw [h])
              · exact absurd hmove (by simp)
          rw [object_move_eq memory.world o x y hworld] at hmove
          injection hmove with hmove
          have hrw : r.world = { memory.world with objects :=
              (memory.world.objects.map (fun tmp =>
                if tmp.address = o.address then { o with x := to_int8 x, y := to_int8 y }
                else tmp)) } := by rw [← hmove]
          have hro : r.object = { o with x := to_int8 x, y := to_int8 y } := by rw [← hmove]
          have haddr_list : ∀ l : List eetg_object,
              (l.map (fun tmp =>
                if tmp.address = o.address then { o with x := to_int8 x, y := to_int8 y }
                else tmp)).map (fun m => m.address) = l.map (fun m => m.address) := by
            intro l
            rw [List.map_map]
            apply List.map_congr_left
            intro m _
            simp only [Function.comp]
            split
            · rename_i h; exact h.symm
            · rfl
          rw [← hcall, hrw, hro]
          refine ⟨⟨?_, ?_, ?_, ?_, ?_⟩, rfl⟩
          · simp only
            rw [haddr_list]
            exact n1
          · simp only
            rw [haddr_list]
            exact n2
          · intro m hm p hp
            simp only at hm hp
            obtain ⟨m0, hm0, hmm⟩ := List.mem_map.1 hm
            obtain ⟨p0, hp0, hpp⟩ := List.mem_map.1 hp
            have e1 : m.address = m0.address := by
              rw [← hmm]; split
              · rename_i h; exact h.symm
              · rfl
            have e2 : p.address = p0.address := by
              rw [← hpp]; split
              · rename_i h; exact h.symm
              · rfl
            rw [e1, e2]
            exact n3 m0 hm0 p0 hp0
          · intro m hm
            simp only at hm ⊢
            obtain ⟨m0, hm0, hmm⟩ := List.mem_map.1 hm
            by_cases hma : m0.address = o.address
            · rw [if_pos hma] at hmm
              rw [← hmm]
              simp only
              rcases hin with h | h
              · exact b2 o h
              · exact absurd hma (n3 m0 hm0 o h)
            · rw [if_neg hma] at hmm
              rw [← hmm]
              exact b2 m0 hm0
          · intro p hp
            simp only at hp ⊢
            obtain ⟨p0, hp0, hpp⟩ := List.mem_map.1 hp
            by_cases hpa : p0.address = o.address
            · rw [if_pos hpa] at hpp
              rw [← hpp]
              simp only
              rcases hin with h | h
              · exact absurd hpa.symm (n3 o h p0 hp0)
              · exact b3 o h
            · rw [if_neg hpa] at hpp
              rw [← hpp]
              exact b3 p0 hp0
  | render sync =>
    rw [call_render] at hcall
    cases hr : eetg_world_render memory.world sync with
    | none => rw [hr] at hcall; exact absurd hcall (by simp)
    | some w' =>
      rw [hr] at hcall
      injection hcall with hcall
      obtain ⟨w'', hr', hobj, _⟩ := render_result memory.world sync
      rw [hr] at hr'
      injection hr' with hr'
      subst hr'
      obtain ⟨ha, _, _⟩ := render_same_binding memory.world w' sync hr
      rw [← hcall]
      unfold engine_memory.coherent
      simp only [hobj, ha]
      exact ⟨⟨n1, n2, n3, b2, b3⟩, trivial⟩

/-- Every memory a program reaches satisfies the membership invariant. -/
theorem reachable_coherent (memory : engine_memory) (h : reachable memory) :
    memory.coherent := by
  induction h with
  | init world initialised objects hinit hnodup hback =>
    exact init_coherent world initialised objects hinit hnodup hback
  | call memory after c _ hcall ih => exact (call_coherent memory after c ih hcall).1

/-- What a call does to the two view pointers: a render exchanges them, every other
call leaves them alone. -/
theorem call_views (memory after : engine_memory) (c : engine_call)
    (hcall : memory.call c = some after) :
    (after.world.view = memory.world.view ∧
      after.world.prev_view = memory.world.prev_view) ∨
    (after.world.view = memory.world.prev_view ∧
      after.world.prev_view = memory.world.view) := by
  cases c with
  | register fn arg =>
    rw [call_register] at hcall
    injection hcall with hcall
    rw [← hcall]
    exact Or.inl ⟨rfl, rfl⟩
  | add a x y =>
    rw [call_add] at hcall
    cases hat : memory.object_at a with
    | none => rw [hat] at hcall; exact absurd hcall (by simp)
    | some o =>
      rw [hat] at hcall
      simp only at hcall
      split at hcall
      · exact absurd hcall (by simp)
      · injection hcall with hcall
        obtain ⟨objects, hw⟩ := world_add_frame memory.world o x y
        rw [← hcall]
        simp only [hw]
        exact Or.inl ⟨trivial, trivial⟩
  | remove a =>
    rw [call_remove] at hcall
    cases hat : memory.object_at a with
    | none => rw [hat] at hcall; exact absurd hcall (by simp)
    | some o =>
      rw [hat] at hcall
      simp only at hcall
      split at hcall
      · exact absurd hcall (by simp)
      · injection hcall with hcall
        obtain ⟨objects, hw⟩ := world_remove_frame memory.world o
        rw [← hcall]
        simp only [hw]
        exact Or.inl ⟨trivial, trivial⟩
  | clear =>
    rw [call_clear] at hcall
    split at hcall
    · exact absurd hcall (by simp)
    · injection hcall with hcall
      obtain ⟨objects, hw⟩ := world_clear_frame memory.world
      rw [← hcall]
      simp only [hw]
      exact Or.inl ⟨trivial, trivial⟩
  | move a x y =>
    rw [call_move] at hcall
    cases hat : memory.object_at a with
    | none => rw [hat] at hcall; exact absurd hcall (by simp)
    | some o =>
      rw [hat] at hcall
      simp only at hcall
      cases hmove : eetg_object_move memory.world o x y with
      | none => rw [hmove] at hcall; exact absurd hcall (by simp)
      | some r =>
        rw [hmove] at hcall
        simp only at hcall
        split at hcall
        · exact absurd hcall (by simp)
        · injection hcall with hcall
          obtain ⟨objects, hw⟩ := object_move_frame memory.world o x y r hmove
          rw [← hcall]
          simp only [hw]
          exact Or.inl ⟨trivial, trivial⟩
  | render sync =>
    rw [call_render] at hcall
    cases hr : eetg_world_render memory.world sync with
    | none => rw [hr] at hcall; exact absurd hcall (by simp)
    | some w' =>
      rw [hr] at hcall
      injection hcall with hcall
      obtain ⟨w'', hr', _, hv, hp, _⟩ := render_result memory.world sync
      rw [hr] at hr'
      injection hr' with hr'
      subst hr'
      rw [← hcall]
      exact Or.inr ⟨hv, hp⟩

/-- In every memory a program reaches the two view pointers designate the two buffers,
one each. -/
theorem reachable_views (memory : engine_memory) (h : reachable memory) :
    memory.world.view ≠ memory.world.prev_view := by
  induction h with
  | init world initialised objects hinit _ _ =>
    rw [world_init_eq] at hinit
    injection hinit with hinit
    rw [← hinit]
    show fresh_world.view ≠ fresh_world.prev_view
    decide
  | call memory after c _ hcall ih =>
    rcases call_views memory after c hcall with ⟨h1, h2⟩ | ⟨h1, h2⟩
    · rw [h1, h2]; exact ih
    · rw [h1, h2]; exact fun e => ih e.symm

/-! ## The first delta frame of a fresh world: lemmas -/

theorem selected_in_row_const (sel : Nat → Nat → Option eetg_view_cell)
    (cell : eetg_view_cell) (r : Nat) :
    ∀ columns : Nat, (∀ c, c < columns → sel r c = some cell) →
      (selected_in_row sel r columns).map (fun x => x.2.2.c) =
        List.replicate columns cell.c := by
  intro columns
  induction columns with
  | zero => intro _; rfl
  | succ k ih =>
    intro h
    rw [selected_in_row_succ, h k (Nat.lt_succ_self k), List.map_append,
      ih (fun c hc => h c (Nat.lt_succ_of_lt hc)), List.replicate_succ']
    rfl

/-- When every cell of the grid is selected, with one and the same cell value, the
characters of the selected cells are that character once for every cell. -/
theorem selected_cells_const (sel : Nat → Nat → Option eetg_view_cell)
    (cell : eetg_view_cell) (columns : Nat) :
    ∀ rows : Nat, (∀ r c, r < rows → c < columns → sel r c = some cell) →
      (selected_cells sel rows columns).map (fun x => x.2.2.c) =
        List.replicate (rows * columns) cell.c := by
  intro rows
  induction rows with
  | zero => intro _; simp [selected_cells]
  | succ k ih =>
    intro h
    rw [selected_cells_succ, List.map_append,
      ih (fun r c hr hc => h r c (Nat.lt_succ_of_lt hr) hc),
      selected_in_row_const sel cell k columns (fun c hc => h k c (Nat.lt_succ_self k) hc),
      Nat.succ_mul, List.replicate_add]

/-- The first frame of a freshly initialised world, rendered in delta mode: the views
were filled with spaces in `EETG_BG_COLOR`, the renderer clears the current view to
spaces in `EETG_FG_COLOR`, so every cell differs in colour and a space is written for
every cell of the grid. -/
theorem fresh_delta_writes_all (world : eetg_world) :
    ∃ w0 w' out, eetg_world_init world = some w0 ∧ w0.objects = [] ∧ w0.written = [] ∧
      eetg_world_render w0 false = some w' ∧ w'.written = out ∧
      char_writes out = List.replicate (EETG_ROWS * EETG_COLUMNS) SPACE ∧
      ∀ r c, r < EETG_ROWS → c < EETG_COLUMNS →
        (rasterised w0.objects).cell r c = { c := SPACE, color := EETG_FG_COLOR } ∧
        w0.previous.cell r c = { c := SPACE, color := EETG_BG_COLOR } := by
  have hobj : ({ fresh_world with
      address := world.address
      handle_collision_fn_arg := world.handle_collision_fn_arg } : eetg_world).objects = [] :=
    rfl
  have hprev : ({ fresh_world with
      address := world.address
      handle_collision_fn_arg := world.handle_collision_fn_arg } : eetg_world).previous =
      uniform_view { c := SPACE, color := EETG_BG_COLOR } := rfl
  have hview : ({ fresh_world with
      address := world.address
      handle_collision_fn_arg := world.handle_collision_fn_arg } : eetg_world).view ≠
      ({ fresh_world with
      address := world.address
      handle_collision_fn_arg := world.handle_collision_fn_arg } : eetg_world).prev_view :=
    (by decide : fresh_world.view ≠ fresh_world.prev_view)
  have hcells : ∀ r c, r < EETG_ROWS → c < EETG_COLUMNS →
      (rasterised []).cell r c = { c := SPACE, color := EETG_FG_COLOR } ∧
      (uniform_view { c := SPACE, color := EETG_BG_COLOR }).cell r c =
        { c := SPACE, color := EETG_BG_COLOR } :=
    fun r c hr hc => ⟨rasterised_nil_cell r c hr hc, uniform_view_cell _ r c hr hc⟩
  refine ⟨_, _, _, world_init_eq world, hobj, rfl, render_eq _ false, rfl, ?_, ?_⟩
  · simp only [Bool.false_eq_true, if_false]
    have hw : ∀ u : eetg_world, (eetg_world_swap_views u).written = u.written := fun _ => rfl
    rw [hw]
    obtain ⟨tail, htail, hchars⟩ := cursor_home_char_writes
      (put_cells (rasterised_world { fresh_world with
          address := world.address
          handle_collision_fn_arg := world.handle_collision_fn_arg })
        (selected_cells
          (sel_delta (rasterised_world { fresh_world with
              address := world.address
              handle_collision_fn_arg := world.handle_collision_fn_arg }).current
            (rasterised_world { fresh_world with
              address := world.address
              handle_collision_fn_arg := world.handle_collision_fn_arg }).previous)
          EETG_ROWS EETG_COLUMNS))
    rw [htail, char_writes_append, hchars, List.append_nil]
    obtain ⟨out, hout, hmap⟩ := put_cells_written
      (selected_cells
        (sel_delta (rasterised_world { fresh_world with
            address := world.address
            handle_collision_fn_arg := world.handle_collision_fn_arg }).current
          (rasterised_world { fresh_world with
            address := world.address
            handle_collision_fn_arg := world.handle_collision_fn_arg }).previous)
        EETG_ROWS EETG_COLUMNS)
      (fun x hx => by
        obtain ⟨h1, h2, _⟩ := (mem_selected_cells _ _ _ x).1 hx
        exact ⟨h1, h2⟩)
      (rasterised_world { fresh_world with
        address := world.address
        handle_collision_fn_arg := world.handle_collision_fn_arg })
    rw [hout, char_writes_append, hmap, rasterised_world_written]
    have hnil : char_writes ({ fresh_world with
        address := world.address
        handle_collision_fn_arg := world.handle_collision_fn_arg } : eetg_world).written = [] :=
      rfl
    rw [hnil, List.nil_append]
    exact selected_cells_const _ { c := SPACE, color := EETG_FG_COLOR } EETG_COLUMNS EETG_ROWS
      (by
        intro r c hr hc
        rw [rasterised_world_current, rasterised_world_previous _ hview, hobj, hprev]
        unfold sel_delta
        rw [(hcells r c hr hc).1, (hcells r c hr hc).2, if_pos (by decide)])
  · intro r c hr hc
    rw [hobj, hprev]
    exact hcells r c hr hc

/-- After a render in either mode, a render in delta mode of the unchanged scene
passes nothing to the sink, the previous view being the rasterised scene in every
cell. -/
theorem render_twice_silent (w : eetg_world) (sync : Bool) :
    ∃ w1 w2, eetg_world_render w sync = some w1 ∧
      eetg_world_render w1 false = some w2 ∧ w2.written = w1.written ∧
      w1.objects = w.objects ∧ w1.previous = rasterised w1.objects := by
  obtain ⟨w1, h1, hobj, hview, hprev, hload, hrow, hcol⟩ := render_result w sync
  have hprevious : w1.previous = rasterised w1.objects := by
    unfold eetg_world.previous
    rw [hprev, hload, hobj]
  refine ⟨w1, _, h1, render_eq w1 false, ?_, hobj, hprevious⟩
  have hcur : (rasterised_world w1).current = rasterised w.objects := by
    rw [rasterised_world_current, hobj]
  have hprv : (rasterised_world w1).previous = rasterised w.objects := by
    unfold rasterised_world eetg_world.previous
    rw [store_prev_view]
    by_cases hp : w1.prev_view = w1.view
    · rw [hp, load_store_same, hobj]
    · rw [load_store_other _ _ _ _ hp, hprev, hload]
  have hsel : selected_cells
      (sel_delta (rasterised_world w1).current (rasterised_world w1).previous)
      EETG_ROWS EETG_COLUMNS = [] := by
    apply selected_cells_nil
    intro r c _ _
    rw [hcur, hprv]
    unfold sel_delta
    rw [if_neg (fun h => h rfl)]
  simp only [Bool.false_eq_true, if_false, hsel, put_cells_nil]
  rw [cursor_home_of_home]
  · show (rasterised_world w1).written = w1.written
    exact store_written _ _ _
  · unfold rasterised_world; rw [store_cursor_row]; exact hrow
  · unfold rasterised_world; rw [store_cursor_column]; exact hcol
/-! ## Symmetry and the visited cells: lemmas -/

theorem rows_scan_symmetric (a b : eetg_object) (i : Int) :
    ∀ (count : Nat) (j : Int),
      check_collision_rows a b i j count = check_collision_rows b a i j count := by
  intro count
  induction count with
  | zero => intro j; rfl
  | succ n ih =>
    intro j
    unfold check_collision_rows
    simp only
    have c1 : (eetg_object_get_char b i j ≤ 0 ∨ eetg_object_get_char a i j ≤ 0) ↔
        (eetg_object_get_char a i j ≤ 0 ∨ eetg_object_get_char b i j ≤ 0) := or_comm
    have c2 : (eetg_object_get_char b i j = SPACE ∨ eetg_object_get_char a i j = SPACE) ↔
        (eetg_object_get_char a i j = SPACE ∨ eetg_object_get_char b i j = SPACE) := or_comm
    simp only [c1, c2, ih (j + 1)]

theorem columns_scan_symmetric (a b : eetg_object) (ytl : Int) (rows : Nat) :
    ∀ (count : Nat) (i : Int),
      check_collision_columns a b ytl rows i count =
        check_collision_columns b a ytl rows i count := by
  intro count
  induction count with
  | zero => intro i; rfl
  | succ n ih =>
    intro i
    unfold check_collision_columns
    rw [rows_scan_symmetric a b i rows ytl]
    cases check_collision_rows b a i ytl rows with
    | returned calls => rfl
    | finished => exact ih (i + 1)

/-- The result of `eetg_object_check_collision` does not depend on the order of its
two objects. -/
theorem check_collision_comm (a b : eetg_object) :
    eetg_object_check_collision a b = eetg_object_check_collision b a := by
  have hx : (if b.x > a.x then b.x else a.x) = (if a.x > b.x then a.x else b.x) := by
    split_ifs <;> omega
  have hy : (if b.y > a.y then b.y else a.y) = (if a.y > b.y then a.y else b.y) := by
    split_ifs <;> omega
  have hxb : (if b.x + b.width - 1 < a.x + a.width - 1 then b.x + b.width - 1
      else a.x + a.width - 1) =
      (if a.x + a.width - 1 < b.x + b.width - 1 then a.x + a.width - 1
        else b.x + b.width - 1) := by
    split_ifs <;> omega
  have hyb : (if b.y + b.height - 1 < a.y + a.height - 1 then b.y + b.height - 1
      else a.y + a.height - 1) =
      (if a.y + a.height - 1 < b.y + b.height - 1 then a.y + a.height - 1
        else b.y + b.height - 1) := by
    split_ifs <;> omega
  unfold eetg_object_check_collision
  simp only
  rw [hx, hy, hxb, hyb]
  have hc : (a.x > b.x + b.width - 1 ∨ b.x > a.x + a.width - 1 ∨
      a.y > b.y + b.height - 1 ∨ b.y > a.y + a.height - 1) ↔
      (b.x > a.x + a.width - 1 ∨ a.x > b.x + b.width - 1 ∨
        b.y > a.y + a.height - 1 ∨ a.y > b.y + b.height - 1) := by
    constructor <;> intro h <;> omega
  simp only [hc, columns_scan_symmetric a b]

/-- The cells the inner loop visits are cells of its column, from its first row on. -/
theorem rows_visits_in_rect (a b : eetg_object) (i : Int) :
    ∀ (count : Nat) (j : Int) (p : Int × Int),
      p ∈ check_collision_rows_visits a b i j count →
      p.1 = i ∧ j ≤ p.2 ∧ p.2 < j + count := by
  intro count
  induction count with
  | zero => intro j p hp; simp [check_collision_rows_visits] at hp
  | succ n ih =>
    intro j p hp
    unfold check_collision_rows_visits at hp
    simp only at hp
    have hhead : p = (i, j) → p.1 = i ∧ j ≤ p.2 ∧ p.2 < j + ((n + 1 : Nat) : Int) := by
      intro h; rw [h]; exact ⟨rfl, le_refl _, by push_cast; omega⟩
    split at hp
    · exact hhead (by simpa using hp)
    · split at hp
      · rcases List.mem_cons.1 hp with h | h
        · exact hhead h
        · obtain ⟨h1, h2, h3⟩ := ih (j + 1) p h
          exact ⟨h1, by omega, by push_cast; omega⟩
      · exact hhead (by simpa using hp)

/-- The cells the outer loop visits are cells of its rectangle. -/
theorem columns_visits_in_rect (a b : eetg_object) (ytl : Int) (rows : Nat) :
    ∀ (count : Nat) (i : Int) (p : Int × Int),
      p ∈ check_collision_columns_visits a b ytl rows i count →
      i ≤ p.1 ∧ p.1 < i + count ∧ ytl ≤ p.2 ∧ p.2 < ytl + rows := by
  intro count
  induction count with
  | zero => intro i p hp; simp [check_collision_columns_visits] at hp
  | succ n ih =>
    intro i p hp
    unfold check_collision_columns_visits at hp
    have hrow : p ∈ check_collision_rows_visits a b i ytl rows →
        i ≤ p.1 ∧ p.1 < i + ((n + 1 : Nat) : Int) ∧ ytl ≤ p.2 ∧ p.2 < ytl + rows := by
      intro h
      obtain ⟨h1, h2, h3⟩ := rows_visits_in_rect a b i rows ytl p h
      exact ⟨by omega, by push_cast; omega, h2, h3⟩
    cases hr : check_collision_rows a b i ytl rows with
    | returned calls =>
      rw [hr] at hp
      exact hrow hp
    | finished =>
      rw [hr] at hp
      rcases List.mem_append.1 hp with h | h
      · exact hrow h
      · obtain ⟨h1, h2, h3, h4⟩ := ih (i + 1) p h
        exact ⟨by omega, by push_cast; omega, h3, h4⟩

/-- Every cell `eetg_object_check_collision` visits lies in both bounding boxes. -/
theorem visits_in_boxes (a b : eetg_object) (p : Int × Int)
    (hp : p ∈ eetg_object_check_collision_visits a b) :
    in_box a p.1 p.2 ∧ in_box b p.1 p.2 := by
  unfold eetg_object_check_collision_visits at hp
  simp only at hp
  by_cases h1 : b.x > a.x + a.width - 1 ∨ a.x > b.x + b.width - 1 ∨
      b.y > a.y + a.height - 1 ∨ a.y > b.y + b.height - 1
  · rw [if_pos h1] at hp
    exact absurd hp (by simp)
  · rw [if_neg h1] at hp
    by_cases h2 : ¬ ((if a.x > b.x then a.x else b.x) ≤
        (if a.x + a.width - 1 < b.x + b.width - 1 then a.x + a.width - 1
          else b.x + b.width - 1))
    · rw [if_pos h2] at hp
      exact absurd hp (by simp)
    · rw [if_neg h2] at hp
      by_cases h3 : ¬ ((if a.y > b.y then a.y else b.y) ≤
          (if a.y + a.height - 1 < b.y + b.height - 1 then a.y + a.height - 1
            else b.y + b.height - 1))
      · rw [if_pos h3] at hp
        exact absurd hp (by simp)
      · rw [if_neg h3] at hp
        obtain ⟨g1, g2, g3, g4⟩ := columns_visits_in_rect a b _ _ _ _ p hp
        rw [not_not] at h2 h3
        unfold in_box
        split_ifs at g1 g2 g3 g4 h2 h3 <;> omega

/-- The cell the inner loop passes to the handler is one of the cells it visits. -/
theorem rows_calls_visited (a b : eetg_object) (i : Int) :
    ∀ (count : Nat) (j : Int) (calls : List (Int × Int)),
      check_collision_rows a b i j count = column_scan.returned calls →
      ∀ p ∈ calls, p ∈ check_collision_rows_visits a b i j count := by
  intro count
  induction count with
  | zero =>
    intro j calls h
    unfold check_collision_rows at h
    exact absurd h (by simp)
  | succ n ih =>
    intro j calls h p hp
    unfold check_collision_rows at h
    unfold check_collision_rows_visits
    simp only at h ⊢
    by_cases h1 : eetg_object_get_char a i j ≤ 0 ∨ eetg_object_get_char b i j ≤ 0
    · rw [if_pos h1] at h ⊢
      injection h with h
      rw [← h] at hp
      exact absurd hp (by simp)
    · rw [if_neg h1] at h ⊢
      by_cases h2 : eetg_object_get_char a i j = SPACE ∨ eetg_object_get_char b i j = SPACE
      · rw [if_pos h2] at h ⊢
        exact List.mem_cons_of_mem _ (ih (j + 1) calls h p hp)
      · rw [if_neg h2] at h ⊢
        injection h with h
        rw [← h] at hp
        exact hp

theorem columns_calls_visited (a b : eetg_object) (ytl : Int) (rows : Nat) :
    ∀ (count : Nat) (i : Int),
      ∀ p ∈ check_collision_columns a b ytl rows i count,
        p ∈ check_collision_columns_visits a b ytl rows i count := by
  intro count
  induction count with
  | zero => intro i p hp; simp [check_collision_columns] at hp
  | succ n ih =>
    intro i p hp
    unfold check_collision_columns at hp
    unfold check_collision_columns_visits
    cases hr : check_collision_rows a b i ytl rows with
    | returned calls =>
      rw [hr] at hp
      exact rows_calls_visited a b i rows ytl calls hr p hp
    | finished =>
      rw [hr] at hp
      exact List.mem_append_right _ (ih (i + 1) p hp)

/-- The cell `eetg_object_check_collision` passes to the handler is one of the cells it
visits. -/
theorem calls_visited (a b : eetg_object) (cells : List (Int × Int))
    (h : eetg_object_check_collision a b = some cells) :
    ∀ p ∈ cells, p ∈ eetg_object_check_collision_visits a b := by
  intro p hp
  unfold eetg_object_check_collision at h
  unfold eetg_object_check_collision_visits
  simp only at h ⊢
  by_cases h1 : b.x > a.x + a.width - 1 ∨ a.x > b.x + b.width - 1 ∨
      b.y > a.y + a.height - 1 ∨ a.y > b.y + b.height - 1
  · rw [if_pos h1] at h
    injection h with h
    rw [← h] at hp
    exact absurd hp (by simp)
  · rw [if_neg h1] at h ⊢
    by_cases h2 : ¬ ((if a.x > b.x then a.x else b.x) ≤
        (if a.x + a.width - 1 < b.x + b.width - 1 then a.x + a.width - 1
          else b.x + b.width - 1))
    · rw [if_pos h2] at h
      exact absurd h (by simp)
    · rw [if_neg h2] at h ⊢
      by_cases h3 : ¬ ((if a.y > b.y then a.y else b.y) ≤
          (if a.y + a.height - 1 < b.y + b.height - 1 then a.y + a.height - 1
            else b.y + b.height - 1))
      · rw [if_pos h3] at h
        exact absurd h (by simp)
      · rw [if_neg h3] at h ⊢
        injection h with h
        rw [← h] at hp
        exact columns_calls_visited a b _ _ _ _ p hp

/-- For a cell of the bounding box `eetg_object_get_cell` returns the index
`(w + 1) * (y - oy) + (x - ox)`, which is not negative. -/
theorem get_cell_of_in_box (o : eetg_object) (px py : Int) (h : in_box o px py) :
    eetg_object_get_cell o px py = (o.width + 1) * (py - o.y) + (px - o.x) ∧
      0 ≤ eetg_object_get_cell o px py ∧ eetg_object_get_cell o px py ≠ -1 := by
  obtain ⟨h1, h2, h3, h4⟩ := h
  have hx : (px - o.x) % o.width = px - o.x := Int.emod_eq_of_lt (by omega) (by omega)
  have hnn : 0 ≤ (o.width + 1) * (py - o.y) := Int.mul_nonneg (by omega) (by omega)
  have heq : eetg_object_get_cell o px py = (o.width + 1) * (py - o.y) + (px - o.x) := by
    unfold eetg_object_get_cell
    simp only [hx]
    rw [if_neg (by omega)]
  rw [heq]
  exact ⟨rfl, by omega, by omega⟩

/-- For a well-formed sprite, the index of a cell of the bounding box is below the
length of the sprite text, and the character there is the glyph of the cell. -/
theorem get_cell_in_range (o : eetg_object) (px py : Int) (hwf : well_formed_sprite o)
    (h : in_box o px py) :
    eetg_object_get_cell o px py < (o.sprite.length : Int) ∧
      sprite_at o.sprite (eetg_object_get_cell o px py) = glyph_at o px py := by
  obtain ⟨heq, hnn, _⟩ := get_cell_of_in_box o px py h
  obtain ⟨hw, hh, hlen, _⟩ := hwf
  obtain ⟨h1, h2, h3, h4⟩ := h
  refine ⟨?_, ?_⟩
  · rw [heq, hlen]
    obtain ⟨w, hweq⟩ : ∃ w : Nat, o.width = (w : Int) := ⟨o.width.toNat, by omega⟩
    obtain ⟨t, hteq⟩ : ∃ t : Nat, o.height = (t : Int) := ⟨o.height.toNat, by omega⟩
    obtain ⟨r, hr⟩ : ∃ r : Nat, py - o.y = (r : Int) := ⟨(py - o.y).toNat, by omega⟩
    obtain ⟨c, hc⟩ : ∃ c : Nat, px - o.x = (c : Int) := ⟨(px - o.x).toNat, by omega⟩
    rw [hr, hc, hweq, hteq]
    simp only [Int.toNat_natCast]
    have hcw : c < w := by omega
    have hrt : r < t := by omega
    have : (w + 1) * r + c < (w + 1) * t := by
      calc (w + 1) * r + c < (w + 1) * r + (w + 1) := by omega
        _ = (w + 1) * (r + 1) := by ring
        _ ≤ (w + 1) * t := Nat.mul_le_mul_left _ hrt
    exact_mod_cast this
  · unfold sprite_at glyph_at
    rw [heq]

set_option maxRecDepth 100000 in
/-- The only cell of `scenario_corner` that is not a space is the last cell of the
grid. -/
theorem scenario_corner_non_space_cells :
    non_space_cells (rasterised scenario_corner.objects) =
      [(23, 79, { c := 35, color := EETG_FG_COLOR })] := by
  decide

/-- The value `ei_game_kill_alien` computes for `aliens_speed`, the number of dead
aliens being `d`. -/
theorem kill_alien_after (game after : ei_game) (alien : Nat)
    (hkill : ei_game_kill_alien game alien = some after)
    (hne : after.nr_dead_aliens ≠ 50) :
    after.aliens_speed_counter_reload =
      to_int8 (Int.tdiv EI_FPS
        (if Int.tdiv after.nr_dead_aliens 2 < Int.tdiv EI_FPS 5 then Int.tdiv EI_FPS 5
          else if Int.tdiv after.nr_dead_aliens 2 > Int.tdiv (EI_FPS * 4) 5 then
            Int.tdiv (EI_FPS * 4) 5
          else Int.tdiv after.nr_dead_aliens 2)) := by
  unfold ei_game_kill_alien at hkill
  cases hfind : ei_game_find_alien_group game alien with
  | none => rw [hfind] at hkill; exact absurd hkill (by simp)
  | some group =>
    rw [hfind] at hkill
    simp only at hkill
    cases hcall : engine_memory.call game.memory (engine_call.remove alien) with
    | none => rw [hcall] at hkill; exact absurd hkill (by simp)
    | some memory =>
      rw [hcall] at hkill
      simp only at hkill
      by_cases h50 : to_int8 (game.nr_dead_aliens + 1) =
          ((EI_NR_ALIEN_GROUPS * EI_ALIEN_GROUP_SIZE : Nat) : Int)
      · rw [if_pos h50] at hkill
        unfold ei_game_prepare at hkill
        simp only at hkill
        cases hclear : engine_memory.call memory engine_call.clear with
        | none => rw [hclear] at hkill; exact absurd hkill (by simp)
        | some cleared =>
          rw [hclear] at hkill
          simp only [Option.some.injEq] at hkill
          exfalso
          apply hne
          rw [← hkill]
          exact h50
      · rw [if_neg h50] at hkill
        simp only [Option.some.injEq] at hkill
        rw [← hkill]

/-- The reload the code computes is the one of the specification, by cases on the
number of dead aliens. -/
theorem speed_reload_table (d : Int) (h1 : 1 ≤ d) (h50 : d < 50) :
    speed_reload d = (if d < 22 then 5 else if d < 26 then 4 else if d < 34 then 3 else 2) ∧
    clamp (d / 2) (EI_FPS / 5) (4 * EI_FPS / 5) ≠ 0 ∧
    to_int8 (Int.tdiv EI_FPS
        (if Int.tdiv d 2 < Int.tdiv EI_FPS 5 then Int.tdiv EI_FPS 5
          else if Int.tdiv d 2 > Int.tdiv (EI_FPS * 4) 5 then Int.tdiv (EI_FPS * 4) 5
          else Int.tdiv d 2)) = speed_reload d := by
  interval_cases d <;> decide

/-- The `switch` statement of `ei_game_process` leaves the sync counters as they
are. -/
theorem process_switch_keeps (arms : ei_game_arms) (harms : keeps_sync_counters arms)
    (game after : ei_game) (c : Int) (leave : Bool)
    (h : ei_game_process_switch arms game c = some (leave, after)) :
    after.sync_counter = game.sync_counter ∧
      after.sync_counter_reload = game.sync_counter_reload := by
  unfold ei_game_process_switch at h
  by_cases h1 : game.state = EI_STATE_INTRO ∨ game.state = EI_STATE_GAME_OVER
  · rw [if_pos h1] at h
    by_cases hc : c ≥ 0
    · rw [if_pos hc] at h
      unfold ei_game_process_intro_input at h
      by_cases hx : c = 120
      · rw [if_pos hx] at h
        simp only [Option.some.injEq, Prod.mk.injEq] at h
        rw [← h.2]
        exact ⟨rfl, rfl⟩
      · rw [if_neg hx] at h
        by_cases hs : c ≠ SPACE
        · rw [if_pos hs] at h
          simp only [Option.some.injEq, Prod.mk.injEq] at h
          rw [← h.2]
          exact ⟨rfl, rfl⟩
        · rw [if_neg hs] at h
          unfold ei_game_prepare ei_game_reset_history at h
          simp only at h
          cases hclear : engine_memory.call game.memory engine_call.clear with
          | none => rw [hclear] at h; exact absurd h (by simp)
          | some memory =>
            rw [hclear] at h
            simp only [Option.some.injEq, Prod.mk.injEq] at h
            rw [← h.2]
            exact ⟨rfl, rfl⟩
    · rw [if_neg hc] at h
      simp only [Option.some.injEq, Prod.mk.injEq] at h
      rw [← h.2]
      exact ⟨rfl, rfl⟩
  · rw [if_neg h1] at h
    by_cases h2 : game.state = EI_STATE_PREPARED ∨ game.state = EI_STATE_PLAYING
    · rw [if_pos h2] at h
      exact harms game c leave after h
    · rw [if_neg h2] at h
      simp only [Option.some.injEq, Prod.mk.injEq] at h
      rw [← h.2]
      exact ⟨rfl, rfl⟩

/-- The call `ei_game_process`, the decremented counter being `v`. -/
theorem process_of_counter (arms : ei_game_arms) (game : ei_game) (c : Int) (v : Int)
    (hv : to_int8 (game.sync_counter - 1) = v) :
    ei_game_process arms game c =
      match eetg_world_render game.memory.world (decide (v = 0)) with
      | none => none
      | some world =>
        match ei_game_process_switch arms
            { game with
              memory := { game.memory with world := world }
              sync_counter := (if v = 0 then game.sync_counter_reload else v) } c with
        | none => none
        | some (leave, game) => some { sync := decide (v = 0), leave := leave, game := game } := by
  subst hv
  rfl

/-- One call of `ei_game_process`, the counter being `100 - p`: the flag passed to
the renderer and the counter left. -/
theorem process_step (arms : ei_game_arms) (harms : keeps_sync_counters arms)
    (game : ei_game) (c : Int) (outcome : process_outcome) (p : Nat) (hp : p < 100)
    (hreload : game.sync_counter_reload = 100)
    (hcounter : game.sync_counter = 100 - (p : Int))
    (hcall : ei_game_process arms game c = some outcome) :
    outcome.sync = decide ((p + 1) % 100 = 0) ∧
    outcome.game.sync_counter = 100 - (((p + 1) % 100 : Nat) : Int) ∧
    outcome.game.sync_counter_reload = 100 := by
  have hdec : to_int8 (game.sync_counter - 1) = 99 - (p : Int) := by
    rw [hcounter]
    rw [to_int8_of_range _ (by omega) (by omega)]
    omega
  rw [process_of_counter arms game c _ hdec] at hcall
  cases hrender : eetg_world_render game.memory.world (decide (99 - (p : Int) = 0)) with
  | none => rw [hrender] at hcall; exact absurd hcall (by simp)
  | some world =>
    rw [hrender] at hcall
    simp only at hcall
    cases hswitch : ei_game_process_switch arms
        { game with
          memory := { game.memory with world := world }
          sync_counter := (if 99 - (p : Int) = 0 then game.sync_counter_reload
            else 99 - (p : Int)) } c with
    | none => rw [hswitch] at hcall; exact absurd hcall (by simp)
    | some result =>
      obtain ⟨leave, after⟩ := result
      rw [hswitch] at hcall
      simp only [Option.some.injEq] at hcall
      obtain ⟨h1, h2⟩ := process_switch_keeps arms harms _ after c leave hswitch
      simp only at h1 h2
      rw [← hcall]
      simp only
      rw [h1, h2, hreload]
      by_cases h99 : p = 99
      · subst h99
        exact ⟨by decide, by decide, rfl⟩
      · have hmod : (p + 1) % 100 = p + 1 := Nat.mod_eq_of_lt (by omega)
        rw [hmod, if_neg (by omega)]
        refine ⟨?_, by push_cast; omega, rfl⟩
        rw [decide_eq_decide]
        constructor <;> intro h <;> omega

theorem run_process_nil (arms : ei_game_arms) (game : ei_game) :
    run_process arms game [] = some ([], game) := rfl

theorem run_process_cons (arms : ei_game_arms) (game : ei_game) (c : Int)
    (rest : List Int) :
    run_process arms game (c :: rest) =
      (ei_game_process arms game c).bind (fun outcome =>
        (run_process arms outcome.game rest).map (fun result =>
          ((outcome.sync, outcome.game.sync_counter) :: result.1, result.2))) := rfl

/-- A run of calls of `ei_game_process`, the counter being `100 - p` at its start:
the flags passed to the renderer and the counters left, call by call. -/
theorem run_process_frames (arms : ei_game_arms) (harms : keeps_sync_counters arms) :
    ∀ (inputs : List Int) (game : ei_game) (p : Nat) (frames : List (Bool × Int))
      (after : ei_game), p < 100 → game.sync_counter_reload = 100 →
      game.sync_counter = 100 - (p : Int) →
      run_process arms game inputs = some (frames, after) →
      frames.length = inputs.length ∧
      ∀ k, k < frames.length →
        frames.get? k = some (decide ((p + 1 + k) % 100 = 0),
          100 - (((p + 1 + k) % 100 : Nat) : Int)) := by
  intro inputs
  induction inputs with
  | nil =>
    intro game p frames after _ _ _ hrun
    rw [run_process_nil] at hrun
    simp only [Option.some.injEq, Prod.mk.injEq] at hrun
    rw [← hrun.1]
    exact ⟨rfl, fun k hk => absurd hk (by simp)⟩
  | cons c rest ih =>
    intro game p frames after hp hreload hcounter hrun
    rw [run_process_cons] at hrun
    cases hcall : ei_game_process arms game c with
    | none => rw [hcall] at hrun; exact absurd hrun (by simp)
    | some outcome =>
      rw [hcall] at hrun
      simp only [Option.some_bind] at hrun
      cases hrest : run_process arms outcome.game rest with
      | none => rw [hrest] at hrun; exact absurd hrun (by simp)
      | some result =>
        obtain ⟨frames', after'⟩ := result
        rw [hrest] at hrun
        simp only [Option.map_some', Option.some.injEq, Prod.mk.injEq] at hrun
        obtain ⟨hsync, hc', hr'⟩ := process_step arms harms game c outcome p hp hreload
          hcounter hcall
        obtain ⟨hlen, hframes⟩ := ih outcome.game ((p + 1) % 100) frames' after'
          (Nat.mod_lt _ (by decide)) hr' hc' hrest
        rw [← hrun.1]
        refine ⟨by simp [hlen], ?_⟩
        intro k hk
        cases k with
        | zero =>
          simp only [List.get?_cons_zero, Nat.add_zero]
          rw [hsync, hc']
        | succ k =>
          simp only [List.get?_cons_succ]
          rw [hframes k (by simpa using hk)]
          have hmod : ((p + 1) % 100 + 1 + k) % 100 = (p + 1 + (k + 1)) % 100 := by omega
          rw [hmod]

/-- In the state `EI_STATE_INTRO`, with no key pressed, every call of
`ei_game_process` returns, and so does a run of such calls. -/
theorem run_process_intro_total (arms : ei_game_arms) :
    ∀ (n : Nat) (game : ei_game), game.state = EI_STATE_INTRO →
      ∃ frames after, run_process arms game (List.replicate n (-1)) = some (frames, after) := by
  intro n
  induction n with
  | zero => intro game _; exact ⟨[], game, rfl⟩
  | succ n ih =>
    intro game hstate
    obtain ⟨world, hworld, _⟩ := render_result game.memory.world
      (decide (to_int8 (game.sync_counter - 1) = 0))
    have hcall := process_of_counter arms game (-1) _ rfl
    rw [hworld] at hcall
    have hswitch : ei_game_process_switch arms
        { game with
          memory := { game.memory with world := world }
          sync_counter := (if to_int8 (game.sync_counter - 1) = 0 then
            game.sync_counter_reload else to_int8 (game.sync_counter - 1)) } (-1) =
        some (false, { game with
          memory := { game.memory with world := world }
          sync_counter := (if to_int8 (game.sync_counter - 1) = 0 then
            game.sync_counter_reload else to_int8 (game.sync_counter - 1)) }) := by
      unfold ei_game_process_switch
      rw [if_pos (Or.inl hstate), if_neg (by decide)]
    simp only [hswitch] at hcall
    obtain ⟨frames, after, hrest⟩ := ih
      { game with
        memory := { game.memory with world := world }
        sync_counter := (if to_int8 (game.sync_counter - 1) = 0 then
          game.sync_counter_reload else to_int8 (game.sync_counter - 1)) } hstate
    refine ⟨(decide (to_int8 (game.sync_counter - 1) = 0),
      (if to_int8 (game.sync_counter - 1) = 0 then
          game.sync_counter_reload else to_int8 (game.sync_counter - 1))) :: frames, after, ?_⟩
    rw [List.replicate_succ, run_process_cons, hcall]
    simp only [Option.some_bind]
    rw [hrest]
    rfl

/-- The alien the second loop of `ei_game_select_firing_alien` picks is alive, and the
aliens of its column in the groups visited before its own are dead. -/
theorem select_pick_live (memory : engine_memory) (index : Nat) :
    ∀ (groups : List ei_alien_group) (alien : Nat),
      select_firing_alien_pick memory index groups = some (some alien) →
      ∃ before group rest, groups = before ++ group :: rest ∧
        ei_alien_group_get group index = some alien ∧
        ei_alien_is_dead memory alien = some false ∧
        ∀ g ∈ before, ∃ tmp, ei_alien_group_get g index = some tmp ∧
          ei_alien_is_dead memory tmp = some true := by
  intro groups
  induction groups with
  | nil =>
    intro alien h
    unfold select_firing_alien_pick at h
    exact absurd h (by simp)
  | cons group rest ih =>
    intro alien h
    unfold select_firing_alien_pick at h
    cases hget : ei_alien_group_get group index with
    | none => rw [hget] at h; exact absurd h (by simp)
    | some tmp =>
      rw [hget] at h
      simp only at h
      cases hdead : ei_alien_is_dead memory tmp with
      | none => rw [hdead] at h; exact absurd h (by simp)
      | some dead =>
        rw [hdead] at h
        cases dead with
        | false =>
          simp only [Option.some.injEq] at h
          subst h
          exact ⟨[], group, rest, rfl, hget, hdead, fun g hg => absurd hg (by simp)⟩
        | true =>
          simp only at h
          obtain ⟨before, g, rest', hrest, h1, h2, h3⟩ := ih alien h
          refine ⟨group :: before, g, rest', by rw [hrest]; rfl, h1, h2, ?_⟩
          intro g' hg'
          rcases List.mem_cons.1 hg' with hg' | hg'
          · subst hg'
            exact ⟨tmp, hget, hdead⟩
          · exact h3 g' hg'

/-- An alien `ei_game_select_firing_alien` returns is alive, and it is the live alien
of its column in the group of the highest index. -/
theorem select_firing_alien_live (game after : ei_game) (alien : Nat)
    (h : ei_game_select_firing_alien game = some (some alien, after)) :
    ei_alien_is_dead game.memory alien = some false ∧
    ∃ index before group rest, game.aliens.reverse = before ++ group :: rest ∧
      ei_alien_group_get group index = some alien ∧
      ∀ g ∈ before, ∃ tmp, ei_alien_group_get g index = some tmp ∧
        ei_alien_is_dead game.memory tmp = some true := by
  unfold ei_game_select_firing_alien at h
  cases hcount : select_firing_alien_count game EI_ALIEN_GROUP_SIZE 0 0 with
  | none => rw [hcount] at h; exact absurd h (by simp)
  | some nr =>
    rw [hcount] at h
    simp only at h
    by_cases hnr : nr > 0
    · rw [if_pos hnr] at h
      cases hpick : select_firing_alien_pick game.memory
          ((eetg_rand game.eetg_rand_next).2 % nr).toNat game.aliens.reverse with
      | none => rw [hpick] at h; exact absurd h (by simp)
      | some picked =>
        rw [hpick] at h
        simp only [Option.some.injEq, Prod.mk.injEq] at h
        rw [h.1] at hpick
        obtain ⟨before, group, rest, h1, h2, h3, h4⟩ :=
          select_pick_live game.memory _ _ alien hpick
        exact ⟨h3, _, before, group, rest, h1, h2, h4⟩
    · rw [if_neg hnr] at h
      simp only [Option.some.injEq, Prod.mk.injEq] at h
      exact absurd h.1 (by simp)

/-- A column in which the alien of every group is dead is not counted. -/
theorem select_column_dead (memory : engine_memory) (i : Nat) :
    ∀ groups : List ei_alien_group,
      (∀ g ∈ groups, ∃ tmp, ei_alien_group_get g i = some tmp ∧
        ei_alien_is_dead memory tmp = some true) →
      select_firing_alien_column memory i groups = some false := by
  intro groups
  induction groups with
  | nil => intro _; rfl
  | cons group rest ih =>
    intro h
    obtain ⟨tmp, hget, hdead⟩ := h group (List.mem_cons_self _ _)
    unfold select_firing_alien_column
    rw [hget]
    simp only
    rw [hdead]
    exact ih (fun g hg => h g (List.mem_cons_of_mem _ hg))

/-- When every alien of the game is dead, `ei_game_select_firing_alien` returns no
alien and leaves the generator as it is. -/
theorem select_firing_alien_all_dead (game : ei_game)
    (h : ∀ i, i < EI_ALIEN_GROUP_SIZE → ∀ g ∈ game.aliens,
      ∃ tmp, ei_alien_group_get g i = some tmp ∧
        ei_alien_is_dead game.memory tmp = some true) :
    ei_game_select_firing_alien game = some (none, game) := by
  have hcount : ∀ (count i : Nat) (nr : Int), i + count ≤ EI_ALIEN_GROUP_SIZE →
      select_firing_alien_count game count i nr = some nr := by
    intro count
    induction count with
    | zero => intro i nr _; rfl
    | succ n ih =>
      intro i nr hle
      unfold select_firing_alien_count
      rw [select_column_dead game.memory i game.aliens (h i (by omega))]
      exact ih (i + 1) nr (by omega)
  unfold ei_game_select_firing_alien
  rw [hcount EI_ALIEN_GROUP_SIZE 0 0 (by omega)]
  simp

theorem scan_loop_none (handler : collision_handler) (object fuel : Nat)
    (memory : engine_memory) (done : List handler_invocation) :
    scan_collisions_loop handler object fuel none memory done =
      { ending := scan_ending.returned, memory := memory, invocations := done } := by
  cases fuel <;> rfl

theorem scan_loop_succ (handler : collision_handler) (object fuel tmp : Nat)
    (memory : engine_memory) (done : List handler_invocation) :
    scan_collisions_loop handler object (fuel + 1) (some tmp) memory done =
      if tmp = object then
        scan_collisions_loop handler object fuel (memory.next tmp) memory done
      else
        match memory.object_at object, memory.object_at tmp with
        | some object1, some object2 =>
          match eetg_object_check_collision object1 object2 with
          | none =>
            { ending := scan_ending.assertion_failed, memory := memory, invocations := done }
          | some cells =>
            match invoke_handler handler memory.world.handle_collision_fn_arg object tmp
                cells memory done with
            | (none, done) =>
              { ending := scan_ending.assertion_failed, memory := memory,
                invocations := done }
            | (some after, done) =>
              scan_collisions_loop handler object fuel (after.next tmp) after done
        | _, _ =>
          { ending := scan_ending.assertion_failed, memory := memory,
            invocations := done } := rfl

/-- The record of the invocations of a handler that leaves the memory as it is. -/
theorem invoke_idle_handler (arg object1 object2 : Nat) (memory : engine_memory) :
    ∀ (cells : List (Int × Int)) (done : List handler_invocation),
      invoke_handler idle_handler arg object1 object2 cells memory done =
        (some memory, done ++ cells.map (fun p =>
          { call := { object1 := object1, object2 := object2, x := p.1, y := p.2,
                      arg := arg }
            object1_world := (memory.object_at object1).bind (fun o => o.world)
            object2_world := (memory.object_at object2).bind (fun o => o.world) })) := by
  intro cells
  induction cells with
  | nil => intro done; simp [invoke_handler]
  | cons p rest ih =>
    intro done
    unfold invoke_handler
    simp only [idle_handler]
    rw [ih]
    simp

/-- In a list of structs at distinct addresses, the link of a member leads to the
member after it. -/
theorem next_of_member (tmp : eetg_object) (rest : List eetg_object) :
    ∀ before : List eetg_object,
      ((before ++ tmp :: rest).map (fun o => o.address)).Nodup →
      next_of (before ++ tmp :: rest) tmp.address =
        rest.head?.map (fun o => o.address) := by
  intro before
  induction before with
  | nil =>
    intro _
    simp [next_of]
  | cons q before ih =>
    intro hnodup
    have hq : q.address ≠ tmp.address := by
      intro h
      simp only [List.cons_append, List.map_cons, List.nodup_cons, List.map_append,
        List.mem_append, List.mem_map, List.mem_cons] at hnodup
      exact hnodup.1 (Or.inr (Or.inl h))
    have htail : ((before ++ tmp :: rest).map (fun o => o.address)).Nodup := by
      simp only [List.cons_append, List.map_cons, List.nodup_cons] at hnodup
      exact hnodup.2
    show next_of (q :: (before ++ tmp :: rest)) tmp.address = _
    unfold next_of
    rw [if_neg hq]
    exact ih htail

/-- In a memory whose members are at distinct addresses, the struct at the address of
a member is that member. -/
theorem object_at_member (memory : engine_memory) (tmp : eetg_object)
    (rest : List eetg_object) :
    ∀ before : List eetg_object,
      memory.world.objects = before ++ tmp :: rest →
      (memory.world.objects.map (fun o => o.address)).Nodup →
      memory.object_at tmp.address = some tmp := by
  intro before hmembers hnodup
  unfold engine_memory.object_at
  rw [hmembers, List.append_assoc, List.find?_append]
  have hnone : before.find? (fun o => decide (o.address = tmp.address)) = none := by
    rw [List.find?_eq_none]
    intro q hq
    rw [hmembers] at hnodup
    simp only [List.map_append, List.map_cons] at hnodup
    have hdisj := (List.nodup_append.1 hnodup).2.2
    have h1 : q.address ∈ before.map (fun o => o.address) := List.mem_map_of_mem _ hq
    have h2 : tmp.address ∈ tmp.address :: rest.map (fun o => o.address) :=
      List.mem_cons_self _ _
    intro h
    have : q.address = tmp.address := by simpa using h
    exact hdisj h1 (this ▸ h2)
  rw [hnone]
  simp [List.find?]

/-- With a handler that leaves the memory as it is, the loop over the memory makes the
calls of the loop over the member list, and fails an assertion when that one does. -/
theorem scan_loop_idle (memory : engine_memory) (object : eetg_object)
    (hobject : memory.object_at object.address = some object)
    (hnodup : (memory.world.objects.map (fun o => o.address)).Nodup) :
    ∀ (rest before : List eetg_object) (fuel : Nat) (done : List handler_invocation),
      memory.world.objects = before ++ rest → rest.length ≤ fuel →
      (scan_collisions_loop idle_handler object.address fuel
          (rest.head?.map (fun o => o.address)) memory done).ending =
        (if (scan_members memory.world.handle_collision_fn_arg object rest).1 then
          scan_ending.assertion_failed else scan_ending.returned) ∧
      (scan_collisions_loop idle_handler object.address fuel
          (rest.head?.map (fun o => o.address)) memory done).memory = memory ∧
      (scan_collisions_loop idle_handler object.address fuel
          (rest.head?.map (fun o => o.address)) memory done).invocations.map
          (fun invocation => invocation.call) =
        done.map (fun invocation => invocation.call) ++
          (scan_members memory.world.handle_collision_fn_arg object rest).2 := by
  intro rest
  induction rest with
  | nil =>
    intro before fuel done _ _
    simp only [List.head?_nil, Option.map_none']
    rw [scan_loop_none]
    simp [scan_members]
  | cons tmp rest ih =>
    intro before fuel done hmembers hfuel
    obtain ⟨fuel, rfl⟩ : ∃ f, fuel = f + 1 := ⟨fuel - 1, by
      simp only [List.length_cons] at hfuel; omega⟩
    have hfuel' : rest.length ≤ fuel := by
      simp only [List.length_cons] at hfuel; omega
    have hmembers' : memory.world.objects = (before ++ [tmp]) ++ rest := by
      rw [hmembers]; simp
    have hnext : memory.next tmp.address = rest.head?.map (fun o => o.address) := by
      unfold engine_memory.next
      rw [hmembers]
      exact next_of_member tmp rest before (hmembers ▸ hnodup)
    have htmp : memory.object_at tmp.address = some tmp :=
      object_at_member memory tmp rest before hmembers hnodup
    simp only [List.head?_cons, Option.map_some']
    rw [scan_loop_succ]
    unfold scan_members
    by_cases haddr : tmp.address = object.address
    · rw [if_pos haddr, if_pos haddr, hnext]
      exact ih (before ++ [tmp]) fuel done hmembers' hfuel'
    · rw [if_neg haddr, if_neg haddr, hobject, htmp]
      simp only
      cases hcheck : eetg_object_check_collision object tmp with
      | none => simp
      | some cells =>
        simp only
        rw [invoke_idle_handler]
        simp only
        rw [hnext]
        obtain ⟨h1, h2, h3⟩ := ih (before ++ [tmp]) fuel
          (done ++ cells.map (fun p =>
            { call := { object1 := object.address, object2 := tmp.address, x := p.1,
                        y := p.2, arg := memory.world.handle_collision_fn_arg }
              object1_world := (memory.object_at object.address).bind (fun o => o.world)
              object2_world := (memory.object_at tmp.address).bind (fun o => o.world) }))
          hmembers' hfuel'
        refine ⟨h1, h2, ?_⟩
        rw [h3]
        simp [List.map_append, Function.comp]

/-- With a handler that leaves the memory as it is and a step for every member, the
scan over the memory returns or fails as `eetg_world_scan_collisions` does on the
member list, makes the same handler calls and leaves the memory as it is. -/
theorem scan_collisions_with_idle (memory : engine_memory) (object : eetg_object)
    (fuel : Nat) (hobject : memory.object_at object.address = some object)
    (hnodup : (memory.world.objects.map (fun o => o.address)).Nodup)
    (hfuel : memory.world.objects.length ≤ fuel) :
    (eetg_world_scan_collisions_with idle_handler fuel memory object.address).ending =
      (if (eetg_world_scan_collisions memory.world object).1 then
        scan_ending.assertion_failed else scan_ending.returned) ∧
    (eetg_world_scan_collisions_with idle_handler fuel memory object.address).memory =
      memory ∧
    (eetg_world_scan_collisions_with idle_handler fuel memory object.address
      ).invocations.map (fun invocation => invocation.call) =
      (eetg_world_scan_collisions memory.world object).2 := by
  unfold eetg_world_scan_collisions_with eetg_world_scan_collisions
  cases hfn : memory.world.handle_collision_fn with
  | none => simp
  | some fn =>
    simp only
    have h := scan_loop_idle memory object hobject hnodup memory.world.objects [] fuel []
      (by simp) hfuel
    simpa using h

/-! ## The rendering claims -/

/-- C4: whatever the world state and the mode of a first `eetg_world_render`, an
`eetg_world_render` in delta mode that follows it with the objects unchanged passes
nothing to the output sink. -/
theorem render_then_delta_writes_nothing (w : eetg_world) (sync : Bool) :
    ∃ w1 w2, eetg_world_render w sync = some w1 ∧
      eetg_world_render w1 false = some w2 ∧ w2.written = w1.written := by
  obtain ⟨w1, h1, hobj, hview, hprev, hload, hrow, hcol⟩ := render_result w sync
  refine ⟨w1, _, h1, render_eq w1 false, ?_⟩
  have hcur : (rasterised_world w1).current = rasterised w.objects := by
    rw [rasterised_world_current, hobj]
  have hprv : (rasterised_world w1).previous = rasterised w.objects := by
    unfold rasterised_world eetg_world.previous
    rw [store_prev_view]
    by_cases hp : w1.prev_view = w1.view
    · rw [hp, load_store_same, hobj]
    · rw [load_store_other _ _ _ _ hp, hprev, hload]
  have hsel : selected_cells
      (sel_delta (rasterised_world w1).current (rasterised_world w1).previous)
      EETG_ROWS EETG_COLUMNS = [] := by
    apply selected_cells_nil
    intro r c _ _
    rw [hcur, hprv]
    unfold sel_delta
    rw [if_neg (fun h => h rfl)]
  simp only [Bool.false_eq_true, if_false, hsel, put_cells_nil]
  rw [cursor_home_of_home]
  · show (rasterised_world w1).written = w1.written
    exact store_written _ _ _
  · unfold rasterised_world; rw [store_cursor_row]; exact hrow
  · unfold rasterised_world; rw [store_cursor_column]; exact hcol

/-- C5: in delta mode `eetg_world_render` takes its writing steps at exactly the cells
whose (character, colour) pair differs between the freshly rasterised view and the
previous view, in row-major order; it writes the character of the rasterised view for
each, so that the characters written are as many as the differing cells, and a cell
with the same pair in both views causes no output. -/
theorem render_delta_writes_differing_cells (w : eetg_world)
    (hviews : w.view ≠ w.prev_view) :
    ∃ w' out, eetg_world_render w false = some w' ∧
      w'.written = w.written ++ out ∧
      w' = eetg_world_swap_views (cursor_home (put_cells (rasterised_world w)
        (differing_cells (rasterised w.objects) w.previous))) ∧
      char_writes out =
        (differing_cells (rasterised w.objects) w.previous).map (fun x => x.2.2.c) ∧
      (char_writes out).length =
        (differing_cells (rasterised w.objects) w.previous).length ∧
      (∀ x, x ∈ differing_cells (rasterised w.objects) w.previous ↔
        x.1 < EETG_ROWS ∧ x.2.1 < EETG_COLUMNS ∧
          x.2.2 = (rasterised w.objects).cell x.1 x.2.1 ∧
          (rasterised w.objects).cell x.1 x.2.1 ≠ w.previous.cell x.1 x.2.1) ∧
      (differing_cells (rasterised w.objects) w.previous).Pairwise row_major_lt := by
  obtain ⟨out, hout, hchars⟩ := put_cells_written
    (differing_cells (rasterised w.objects) w.previous)
    (differing_cells_in_grid _ _) (rasterised_world w)
  obtain ⟨tail, htail, htc⟩ := cursor_home_char_writes (put_cells (rasterised_world w)
    (differing_cells (rasterised w.objects) w.previous))
  have hco : char_writes (out ++ tail) =
      (differing_cells (rasterised w.objects) w.previous).map (fun x => x.2.2.c) := by
    rw [char_writes_append, htc, hchars, List.append_nil]
  refine ⟨_, out ++ tail, render_eq w false, ?_, ?_, hco, ?_,
    mem_differing_cells _ _, selected_cells_row_major _ _ _⟩
  · simp only [Bool.false_eq_true, if_false, rasterised_world_current,
      rasterised_world_previous w hviews]
    show (cursor_home _).written = _
    unfold differing_cells at htail hout
    rw [htail, hout, rasterised_world_written, List.append_assoc]
  · simp only [Bool.false_eq_true, if_false, rasterised_world_current,
      rasterised_world_previous w hviews]
    rfl
  · rw [hco, List.length_map]

/-- C5 at a fresh world, whose two view pointers designate the two buffers. -/
theorem render_delta_writes_differing_cells_witness :
    fresh_world.view ≠ fresh_world.prev_view ∧
    ∃ w' out, eetg_world_render fresh_world false = some w' ∧
      w'.written = fresh_world.written ++ out ∧
      w' = eetg_world_swap_views (cursor_home (put_cells (rasterised_world fresh_world)
        (differing_cells (rasterised fresh_world.objects) fresh_world.previous))) ∧
      char_writes out =
        (differing_cells (rasterised fresh_world.objects) fresh_world.previous).map
          (fun x => x.2.2.c) ∧
      (char_writes out).length =
        (differing_cells (rasterised fresh_world.objects) fresh_world.previous).length ∧
      (∀ x, x ∈ differing_cells (rasterised fresh_world.objects) fresh_world.previous ↔
        x.1 < EETG_ROWS ∧ x.2.1 < EETG_COLUMNS ∧
          x.2.2 = (rasterised fresh_world.objects).cell x.1 x.2.1 ∧
          (rasterised fresh_world.objects).cell x.1 x.2.1 ≠
            fresh_world.previous.cell x.1 x.2.1) ∧
      (differing_cells (rasterised fresh_world.objects) fresh_world.previous).Pairwise
        row_major_lt :=
  ⟨by decide, render_delta_writes_differing_cells fresh_world (by decide)⟩

/-- C6: delta rendering refines a full redraw.  Let the model terminal show the
previous view and be in step with the cached cursor and colour of the world; after
`eetg_world_render` in delta mode, the terminal that received the output shows the
newly rasterised view cell for cell, and is again in step with the cached cursor and
colour. -/
theorem render_delta_refines_redraw (w : eetg_world) (t : terminal)
    (hviews : w.view ≠ w.prev_view)
    (hcolors : ∀ o ∈ w.objects, -128 ≤ o.color ∧ o.color ≤ 127)
    (hshows : t.shows w.previous) (hstep : t.in_step w) :
    ∃ w' out, eetg_world_render w false = some w' ∧
      w'.written = w.written ++ out ∧
      (t.feed out).shows (rasterised w.objects) ∧
      w'.previous = rasterised w.objects ∧
      (t.feed out).in_step w' := by
  have hstepW : t.in_step (rasterised_world w) :=
    ⟨hstep.1.trans (store_cursor_row _ _ _).symm,
      hstep.2.1.trans (store_cursor_column _ _ _).symm,
      hstep.2.2.trans (store_current_color _ _ _).symm⟩
  obtain ⟨out, hout, hs, hg⟩ := put_cells_on_terminal
    (fun r c => (rasterised w.objects).cell r c)
    (differing_cells (rasterised w.objects) w.previous)
    (by
      intro x hx
      obtain ⟨h1, h2, h3, _⟩ := (mem_differing_cells _ _ x).1 hx
      refine ⟨h1, h2, h3, ?_⟩
      rw [h3]
      exact rasterised_color_range w.objects hcolors x.1 x.2.1 h1 h2)
    (rasterised_world w) t hstepW
  obtain ⟨tail, htail, hs', hg'⟩ := cursor_home_on_terminal _ _ hs
  obtain ⟨w', hrender, _, _, hprev, hload, _, _⟩ := render_result w false
  have hw' : w' = eetg_world_swap_views (cursor_home (put_cells (rasterised_world w)
      (differing_cells (rasterised w.objects) w.previous))) := by
    have h := render_eq w false
    rw [hrender] at h
    simp only [Bool.false_eq_true, if_false, rasterised_world_current,
      rasterised_world_previous w hviews, Option.some.injEq] at h
    exact h
  refine ⟨w', out ++ tail, hrender, ?_, ?_, ?_, ?_⟩
  · rw [hw']
    show (cursor_home _).written = _
    rw [htail, hout, rasterised_world_written, List.append_assoc]
  · intro r c hr hc
    rw [feed_append, hg', hg r c]
    by_cases hd : (rasterised w.objects).cell r c ≠ w.previous.cell r c
    · rw [if_pos]
      exact ⟨(r, c, (rasterised w.objects).cell r c),
        (mem_differing_cells _ _ _).2 ⟨hr, hc, rfl, hd⟩, rfl, rfl⟩
    · rw [if_neg, hshows r c hr hc]
      · exact (not_not.1 hd).symm
      · rintro ⟨x, hx, hx1, hx2⟩
        obtain ⟨_, _, _, h4⟩ := (mem_differing_cells _ _ x).1 hx
        rw [hx1, hx2] at h4
        exact hd h4
  · unfold eetg_world.previous
    rw [hprev, hload]
  · rw [feed_append, hw']
    exact hs'

/-- C6 at the fresh world with the red `"A"`, and a terminal that shows its previous
view. -/
theorem render_delta_refines_redraw_witness :
    scenario_red_a.view ≠ scenario_red_a.prev_view ∧
    (∀ o ∈ scenario_red_a.objects, -128 ≤ o.color ∧ o.color ≤ 127) ∧
    scenario_terminal.shows scenario_red_a.previous ∧
    scenario_terminal.in_step scenario_red_a ∧
    ∃ w' out, eetg_world_render scenario_red_a false = some w' ∧
      w'.written = scenario_red_a.written ++ out ∧
      (scenario_terminal.feed out).shows (rasterised scenario_red_a.objects) ∧
      w'.previous = rasterised scenario_red_a.objects ∧
      (scenario_terminal.feed out).in_step w' :=
  ⟨by decide, by decide, fun _ _ _ _ => rfl, ⟨rfl, rfl, rfl⟩,
    render_delta_refines_redraw scenario_red_a scenario_terminal (by decide) (by decide)
      (fun _ _ _ _ => rfl) ⟨rfl, rfl, rfl⟩⟩

/-- C7: `eetg_world_render` returns, and the view it has just rendered (the previous
view once the pointers are exchanged) holds at every cell of the grid the glyph and
the colour of the last member, in list order, that shows a non-space glyph there, and
a space in `EETG_FG_COLOR` where no member does. -/
theorem render_view_shows_last_solid_member (w : eetg_world) (sync : Bool) :
    ∃ w', eetg_world_render w sync = some w' ∧
      ∀ r c, r < EETG_ROWS → c < EETG_COLUMNS →
        w'.previous.cell r c = shown_cell w.objects r c := by
  obtain ⟨w', h, _, _, hprev, hload, _, _⟩ := render_result w sync
  refine ⟨w', h, ?_⟩
  intro r c hr hc
  unfold eetg_world.previous
  rw [hprev, hload, rasterised_cell _ r c hr hc]

/-- C8: rasterisation fails none of the index assertions of `eetg_view_get_row` and
`eetg_view_row_get_cell`, wherever the object lies: `eetg_object_render` and
`eetg_world_render` always return; and an object whose bounding box has no cell on
the grid leaves the view as it was. -/
theorem render_never_leaves_the_grid (w : eetg_world) (sync : Bool) (o : eetg_object)
    (view : eetg_view) :
    (∃ w', eetg_world_render w sync = some w') ∧
    (∃ v', eetg_object_render o view = some v') ∧
    ((∀ r c : Nat, r < EETG_ROWS → c < EETG_COLUMNS → ¬ in_box o (c : Int) (r : Int)) →
      eetg_object_render o view = some view) := by
  obtain ⟨v', hv, hcells⟩ := object_render_spec o view
  refine ⟨⟨_, render_eq w sync⟩, ⟨v', hv⟩, ?_⟩
  intro hout
  rw [hv]
  congr 1
  apply view_ext
  intro r c hr hc
  rw [hcells r c hr hc, raster_cell_outside _ _ _ _ (hout r c hr hc)]

/-- C8 at the scenario of the specification: a one-cell object, added at `(5, 5)` and
moved to `(-1, -1)`, is rendered; the render returns, the object changes no cell and
every cell of the rendered view is background. -/
theorem render_never_leaves_the_grid_witness :
    (∃ w', eetg_world_render scenario_clipped false = some w' ∧
      ∀ r c, r < EETG_ROWS → c < EETG_COLUMNS →
        w'.previous.cell r c = { c := SPACE, color := EETG_FG_COLOR }) ∧
    eetg_object_render scenario_clipped_object
        (uniform_view { c := SPACE, color := EETG_FG_COLOR }) =
      some (uniform_view { c := SPACE, color := EETG_FG_COLOR }) := by
  have hout : ∀ r c : Nat, r < EETG_ROWS → c < EETG_COLUMNS →
      ¬ in_box scenario_clipped_object (c : Int) (r : Int) := by
    intro r c _ _ h
    obtain ⟨h1, h2, _, _⟩ := h
    simp only [scenario_clipped_object] at h1 h2
    omega
  have key := render_never_leaves_the_grid scenario_clipped false scenario_clipped_object
    (uniform_view { c := SPACE, color := EETG_FG_COLOR })
  refine ⟨?_, key.2.2 hout⟩
  obtain ⟨w', h, _, _, hprev, hload, _, _⟩ := render_result scenario_clipped false
  refine ⟨w', h, ?_⟩
  intro r c hr hc
  unfold eetg_world.previous
  rw [hprev, hload, rasterised_cell _ r c hr hc]
  unfold shown_cell
  have : ¬ solid_at scenario_clipped_object (c : Int) (r : Int) :=
    fun hs => hout r c hr hc hs.1
  simp [scenario_clipped, this]

/-- C9, as amended: in sync mode the output of `eetg_world_render` begins with the
cursor-hide sequence, the forced colour sequence `ESC[37;40m` and the clear-screen
sequence, followed by the cursor-position sequence `ESC[1;1H` unless the cached
cursor already is `(0, 0)`; the cached cursor then is `(0, 0)`, and every character
written comes after them. -/
theorem render_sync_begins_with_header (w : eetg_world) :
    ∃ w' rest, eetg_world_render w true = some w' ∧
      w'.written = w.written ++
        [hide_cursor_sequence, color_sequence EETG_FG_COLOR, clear_screen_sequence] ++
        (if w.cursor_row = 0 ∧ w.cursor_column = 0 then [] else [cursor_sequence 0 0]) ++
        rest ∧
      (sync_header (rasterised_world w)).written = w.written ++
        [hide_cursor_sequence, color_sequence EETG_FG_COLOR, clear_screen_sequence] ++
        (if w.cursor_row = 0 ∧ w.cursor_column = 0 then [] else [cursor_sequence 0 0]) ∧
      (sync_header (rasterised_world w)).cursor_row = 0 ∧
      (sync_header (rasterised_world w)).cursor_column = 0 ∧
      char_writes rest = char_writes (w'.written.drop w.written.length) := by
  obtain ⟨hhdr, hrow, hcol⟩ := sync_header_effect (rasterised_world w)
  rw [rasterised_world_written] at hhdr
  have hcr : (rasterised_world w).cursor_row = w.cursor_row := store_cursor_row _ _ _
  have hcc : (rasterised_world w).cursor_column = w.cursor_column :=
    store_cursor_column _ _ _
  rw [hcr, hcc] at hhdr
  obtain ⟨out, hout, _⟩ := put_cells_written
    (non_space_cells (rasterised_world w).current)
    (non_space_cells_in_grid _) (sync_header (rasterised_world w))
  obtain ⟨tail, htail, _⟩ := cursor_home_char_writes
    (put_cells (sync_header (rasterised_world w))
      (non_space_cells (rasterised_world w).current))
  have hw : (eetg_world_swap_views (cursor_home (put_cells (sync_header (rasterised_world w))
      (non_space_cells (rasterised_world w).current)))).written =
      w.written ++
        [hide_cursor_sequence, color_sequence EETG_FG_COLOR, clear_screen_sequence] ++
        (if w.cursor_row = 0 ∧ w.cursor_column = 0 then [] else [cursor_sequence 0 0]) ++
        (out ++ tail) := by
    show (cursor_home _).written = _
    rw [htail, hout, hhdr, List.append_assoc]
  refine ⟨_, out ++ tail, render_eq w true, hw, hhdr, hrow, hcol, ?_⟩
  simp only [if_true]
  unfold non_space_cells at hw
  rw [hw]
  have e2 : char_writes (if w.cursor_row = 0 ∧ w.cursor_column = 0 then []
      else [cursor_sequence 0 0]) = [] := by
    split
    · rfl
    · exact char_writes_cursor_sequence _ _
  simp only [List.append_assoc, List.drop_left, char_writes_append, e2,
    sync_header_char_writes, List.nil_append]

/-- C9 fails as stated: in the second frame of a fresh world (the state its first sync
render leaves) the cached cursor is `(0, 0)`, and a sync render writes the cursor-hide, colour and clear-screen sequences
and nothing else: no `ESC[1;1H` follows the clear-screen sequence. -/
theorem render_sync_header_counterexample :
    eetg_world_render fresh_world true = some scenario_second_frame ∧
    ∃ w', eetg_world_render scenario_second_frame true = some w' ∧
      w'.written = scenario_second_frame.written ++
        [hide_cursor_sequence, color_sequence EETG_FG_COLOR, clear_screen_sequence] ∧
      ¬ ∃ rest, w'.written = scenario_second_frame.written ++
        [hide_cursor_sequence, color_sequence EETG_FG_COLOR, clear_screen_sequence,
          cursor_sequence 0 0] ++ rest := by
  obtain ⟨hobj, hrow, hcol⟩ := scenario_second_frame_state
  obtain ⟨hhdr, hrow', hcol'⟩ := sync_header_effect (rasterised_world scenario_second_frame)
  have hcr : (rasterised_world scenario_second_frame).cursor_row = 0 := by
    rw [← hrow]; exact store_cursor_row _ _ _
  have hcc : (rasterised_world scenario_second_frame).cursor_column = 0 := by
    rw [← hcol]; exact store_cursor_column _ _ _
  rw [rasterised_world_written, if_pos ⟨hcr, hcc⟩, List.append_nil] at hhdr
  have hw : (eetg_world_swap_views (cursor_home (put_cells
      (sync_header (rasterised_world scenario_second_frame))
      (selected_cells (sel_sync (rasterised_world scenario_second_frame).current)
        EETG_ROWS EETG_COLUMNS)))).written =
      scenario_second_frame.written ++
        [hide_cursor_sequence, color_sequence EETG_FG_COLOR, clear_screen_sequence] := by
    have hnil := non_space_cells_rasterised_nil
    unfold non_space_cells at hnil
    rw [rasterised_world_current, hobj, hnil, put_cells_nil,
      cursor_home_of_home _ hrow' hcol']
    exact hhdr
  refine ⟨scenario_second_frame_reached, _, render_eq scenario_second_frame true, ?_, ?_⟩
  · simp only [if_true]
    exact hw
  · simp only [if_true]
    rw [hw]
    rintro ⟨rest, h⟩
    have hlen := congrArg List.length h
    simp only [List.length_append, List.length_cons, List.length_nil] at hlen
    omega

/-- C10: in sync mode `eetg_world_render` takes its writing steps at exactly the cells
of the rasterised view that are not a space, in row-major order, writes the character
of each, and never writes a space. -/
theorem render_sync_writes_non_space_cells (w : eetg_world) :
    ∃ w' out, eetg_world_render w true = some w' ∧
      w'.written = w.written ++ out ∧
      w' = eetg_world_swap_views (cursor_home (put_cells (sync_header (rasterised_world w))
        (non_space_cells (rasterised w.objects)))) ∧
      char_writes out = (non_space_cells (rasterised w.objects)).map (fun x => x.2.2.c) ∧
      SPACE ∉ char_writes out ∧
      (∀ x, x ∈ non_space_cells (rasterised w.objects) ↔
        x.1 < EETG_ROWS ∧ x.2.1 < EETG_COLUMNS ∧
          x.2.2 = (rasterised w.objects).cell x.1 x.2.1 ∧
          ((rasterised w.objects).cell x.1 x.2.1).c ≠ SPACE) ∧
      (non_space_cells (rasterised w.objects)).Pairwise row_major_lt := by
  obtain ⟨hhdr, _, _⟩ := sync_header_effect (rasterised_world w)
  rw [rasterised_world_written] at hhdr
  obtain ⟨out, hout, hchars⟩ := put_cells_written
    (non_space_cells (rasterised w.objects))
    (non_space_cells_in_grid _) (sync_header (rasterised_world w))
  obtain ⟨tail, htail, htc⟩ := cursor_home_char_writes
    (put_cells (sync_header (rasterised_world w)) (non_space_cells (rasterised w.objects)))
  have e2 : char_writes (if (rasterised_world w).cursor_row = 0 ∧
      (rasterised_world w).cursor_column = 0 then [] else [cursor_sequence 0 0]) = [] := by
    split
    · rfl
    · exact char_writes_cursor_sequence _ _
  have hco : char_writes
      ([hide_cursor_sequence, color_sequence EETG_FG_COLOR, clear_screen_sequence] ++
        (if (rasterised_world w).cursor_row = 0 ∧ (rasterised_world w).cursor_column = 0
          then [] else [cursor_sequence 0 0]) ++ out ++ tail) =
      (non_space_cells (rasterised w.objects)).map (fun x => x.2.2.c) := by
    rw [char_writes_append, char_writes_append, char_writes_append,
      sync_header_char_writes, e2, htc, hchars]
    simp
  refine ⟨_, _, render_eq w true, ?_, ?_, hco, ?_,
    mem_non_space_cells _, selected_cells_row_major _ _ _⟩
  · simp only [if_true, rasterised_world_current]
    show (cursor_home _).written = _
    unfold non_space_cells at htail hout
    rw [htail, hout, hhdr]
    simp only [List.append_assoc]
  · simp only [if_true, rasterised_world_current]
    rfl
  · rw [hco]
    intro hmem
    obtain ⟨x, hx, hxc⟩ := List.mem_map.1 hmem
    obtain ⟨_, _, h3, h4⟩ := (mem_non_space_cells _ x).1 hx
    rw [h3] at hxc
    exact h4 hxc

/-- C10 at the scenario of a single red object: a fresh world to which the sprite `"A"`,
coloured red, was added at `(2, 1)`; the first sync render writes exactly
`ESC[?25l ESC[37;40m ESC[2J ESC[1;1H ESC[2;3H ESC[31;40m A ESC[1;1H`. -/
theorem render_sync_writes_non_space_cells_witness :
    (eetg_world_render scenario_red_a true).map (fun w => w.written) =
      some [chars "\x1b[?25l", chars "\x1b[37;40m", chars "\x1b[2J", chars "\x1b[1;1H",
        chars "\x1b[2;3H", chars "\x1b[31;40m", chars "A", chars "\x1b[1;1H"] ∧
    ∃ w' out, eetg_world_render scenario_red_a true = some w' ∧
      w'.written = scenario_red_a.written ++ out ∧
      w' = eetg_world_swap_views (cursor_home
        (put_cells (sync_header (rasterised_world scenario_red_a))
          (non_space_cells (rasterised scenario_red_a.objects)))) ∧
      char_writes out =
        (non_space_cells (rasterised scenario_red_a.objects)).map (fun x => x.2.2.c) ∧
      SPACE ∉ char_writes out ∧
      (∀ x, x ∈ non_space_cells (rasterised scenario_red_a.objects) ↔
        x.1 < EETG_ROWS ∧ x.2.1 < EETG_COLUMNS ∧
          x.2.2 = (rasterised scenario_red_a.objects).cell x.1 x.2.1 ∧
          ((rasterised scenario_red_a.objects).cell x.1 x.2.1).c ≠ SPACE) ∧
      (non_space_cells (rasterised scenario_red_a.objects)).Pairwise row_major_lt := by
  exact ⟨scenario_red_a_output, render_sync_writes_non_space_cells scenario_red_a⟩

/-! ## The object claims -/

/-- C16: `eetg_object_get_cell` returns `-1` exactly for the cells outside the bounding
box; for a cell of the box it returns `(w + 1) * (y - oy) + (x - ox)`, the width then
is at least 1 (so the remainder by the width is defined), and for a sprite made of
`h` lines of `w` characters that index is the place, in the text, of the character of
line `y - oy` at position `x - ox`, never of a line break. -/
theorem get_cell_index (o : eetg_object) (x y : Int) :
    (eetg_object_get_cell o x y = -1 ↔ ¬ in_box o x y) ∧
    (in_box o x y →
      eetg_object_get_cell o x y = (o.width + 1) * (y - o.y) + (x - o.x) ∧
      1 ≤ o.width ∧ 0 ≤ eetg_object_get_cell o x y) ∧
    (∀ rows : List (List Int), o.sprite = text_of_rows rows →
      uniform_rows rows o.width.toNat o.height.toNat → in_box o x y →
      sprite_at o.sprite (eetg_object_get_cell o x y) =
        (rows.getD (y - o.y).toNat []).getD (x - o.x).toNat 0 ∧
      sprite_at o.sprite (eetg_object_get_cell o x y) ≠ NEWLINE) := by
  have hin : in_box o x y →
      eetg_object_get_cell o x y = (o.width + 1) * (y - o.y) + (x - o.x) ∧
      1 ≤ o.width ∧ 0 ≤ eetg_object_get_cell o x y := by
    rintro ⟨h1, h2, h3, h4⟩
    have hx : (x - o.x) % o.width = x - o.x := Int.emod_eq_of_lt (by omega) (by omega)
    have hnn : 0 ≤ (o.width + 1) * (y - o.y) := Int.mul_nonneg (by omega) (by omega)
    have heq : eetg_object_get_cell o x y = (o.width + 1) * (y - o.y) + (x - o.x) := by
      unfold eetg_object_get_cell
      simp only [hx]
      rw [if_neg (by omega)]
    exact ⟨heq, by omega, by rw [heq]; omega⟩
  refine ⟨?_, hin, ?_⟩
  · constructor
    · intro h hbox
      have := (hin hbox).2.2
      omega
    · intro hout
      unfold eetg_object_get_cell
      simp only
      rw [if_pos]
      unfold in_box at hout
      omega
  · intro rows hsprite ⟨hcount, hrows⟩ hbox
    obtain ⟨heq, hw, _⟩ := hin hbox
    obtain ⟨h1, h2, h3, h4⟩ := hbox
    obtain ⟨r, hr⟩ : ∃ r : Nat, y - o.y = (r : Int) := ⟨(y - o.y).toNat, by omega⟩
    obtain ⟨c, hc⟩ : ∃ c : Nat, x - o.x = (c : Int) := ⟨(x - o.x).toNat, by omega⟩
    obtain ⟨w, hweq⟩ : ∃ w : Nat, o.width = (w : Int) := ⟨o.width.toNat, by omega⟩
    have hidx : ((o.width + 1) * (y - o.y) + (x - o.x)).toNat = (w + 1) * r + c := by
      rw [hr, hc, hweq]
      have : (((w : Int) + 1) * (r : Int)) + (c : Int) = (((w + 1) * r + c : Nat) : Int) := by
        push_cast; ring
      rw [this, Int.toNat_natCast]
    have hrlt : r < rows.length := by rw [hcount]; omega
    have hclt : c < w := by omega
    have hwn : o.width.toNat = w := by omega
    have hget := text_of_rows_getD w rows r c
      (fun row hrow => by rw [← hwn]; exact (hrows row hrow).1) hrlt hclt
    have hval : sprite_at o.sprite (eetg_object_get_cell o x y) =
        (rows.getD r []).getD c 0 := by
      unfold sprite_at
      rw [heq, hidx, hsprite, hget]
    refine ⟨?_, ?_⟩
    · rw [hval, hr, hc, Int.toNat_natCast, Int.toNat_natCast]
    · rw [hval]
      have hmem : rows.getD r [] ∈ rows := by
        rw [List.getD_eq_getElem _ _ hrlt]
        exact List.getElem_mem _
      have hrow := hrows _ hmem
      have hcl : c < (rows.getD r []).length := by rw [hrow.1]; omega
      intro hnl
      apply hrow.2
      rw [← hnl, List.getD_eq_getElem _ _ hcl]
      exact List.getElem_mem _

/-- C16 at the sprite of the lines `"ab"` and `"cd"` placed at `(4, 2)`: the cell
`(5, 3)` is the character `'d'`, at index 4 of the text. -/
theorem get_cell_index_witness :
    in_box scenario_two_rows 5 3 ∧ eetg_object_get_cell scenario_two_rows 5 3 = 4 ∧
    eetg_object_get_cell scenario_two_rows 3 3 = -1 ∧
    sprite_at scenario_two_rows.sprite (eetg_object_get_cell scenario_two_rows 5 3) = 100 ∧
    (eetg_object_get_cell scenario_two_rows 5 3 = -1 ↔ ¬ in_box scenario_two_rows 5 3) :=
  ⟨by decide, by decide, by decide, by decide, (get_cell_index scenario_two_rows 5 3).1⟩

theorem is_empty_loop_iff (text : List Int) :
    eetg_object_is_empty_loop text = true ↔
      ∀ c ∈ before_nul text, c = SPACE ∨ c = NEWLINE := by
  induction text with
  | nil => simp [eetg_object_is_empty_loop, before_nul]
  | cons a rest ih =>
    unfold eetg_object_is_empty_loop before_nul
    by_cases h0 : a = 0
    · simp [h0]
    · rw [if_neg h0, List.takeWhile_cons_of_pos (by simpa using h0)]
      by_cases hsp : a ≠ SPACE ∧ a ≠ NEWLINE
      · rw [if_pos hsp]
        simp only [Bool.false_eq_true, false_iff]
        intro hall
        have := hall a (List.mem_cons_self _ _)
        tauto
      · rw [if_neg hsp, ih]
        unfold before_nul
        constructor
        · intro hall c hc
          rcases List.mem_cons.1 hc with e | e
          · subst e; tauto
          · exact hall c e
        · intro hall c hc
          exact hall c (List.mem_cons_of_mem _ hc)

/-- C17: `eetg_object_is_empty` returns true exactly when every character of the
sprite text before its terminating NUL is a space or a line break. -/
theorem is_empty_iff_blank (o : eetg_object) :
    eetg_object_is_empty o = true ↔
      ∀ c ∈ before_nul o.sprite, c = SPACE ∨ c = NEWLINE :=
  is_empty_loop_iff o.sprite

/-- C17 at the sprites of the specification: true for `"   \n   \n"`, false for
`"  #\n   \n"`. -/
theorem is_empty_iff_blank_witness :
    eetg_object_is_empty scenario_blank = true ∧
    eetg_object_is_empty scenario_hash = false ∧
    (∀ c ∈ before_nul scenario_blank.sprite, c = SPACE ∨ c = NEWLINE) :=
  ⟨by decide, by decide, (is_empty_iff_blank scenario_blank).1 (by decide)⟩

/-! ## The cache claims -/

/-- C11: for a cell of the grid, `eetg_world_set_cursor` writes the sequence
`ESC [ row+1 ; column+1 H` exactly when the cached cursor is not already that cell, and
the cached cursor is that cell afterwards; so a cell written right after its left
neighbour in the same row, in either render mode, gets no cursor-position sequence. -/
theorem set_cursor_writes_iff_moved (w : eetg_world) (r c : Nat) (hr : r < EETG_ROWS)
    (hc : c < EETG_COLUMNS) :
    ∃ w', eetg_world_set_cursor w (r : Int) (c : Int) = some w' ∧
      (¬ (w.cursor_row = (r : Int) ∧ w.cursor_column = (c : Int)) →
        w'.written = w.written ++ [cursor_sequence (r : Int) (c : Int)]) ∧
      ((w.cursor_row = (r : Int) ∧ w.cursor_column = (c : Int)) →
        w'.written = w.written) ∧
      (w'.written ≠ w.written ↔
        ¬ (w.cursor_row = (r : Int) ∧ w.cursor_column = (c : Int))) ∧
      w'.cursor_row = (r : Int) ∧ w'.cursor_column = (c : Int) ∧
      decode (cursor_sequence (r : Int) (c : Int)) =
        terminal_event.position (r : Int) (c : Int) ∧
      ∀ (before : List (Nat × Nat × eetg_view_cell)) (x y : eetg_view_cell),
        c + 1 < EETG_COLUMNS →
        ∃ pre, (put_cells w (before ++ [(r, c, x), (r, c + 1, y)])).written =
            (put_cells w (before ++ [(r, c, x)])).written ++ pre ++ [[y.c]] ∧
          (pre = [] ∨ pre = [color_sequence y.color]) := by
  obtain ⟨w', hw', hwr, hrow, hcol, _⟩ := set_cursor_effect w r c hr hc
  refine ⟨w', hw', ?_, ?_, ?_, hrow, hcol, decode_cursor_sequence r c hr hc, ?_⟩
  · intro h; rw [hwr, if_neg h]
  · intro h; rw [hwr, if_pos h, List.append_nil]
  · rw [hwr]
    by_cases h : w.cursor_row = (r : Int) ∧ w.cursor_column = (c : Int)
    · rw [if_pos h, List.append_nil]
      exact ⟨fun hne => absurd rfl hne, fun hn => absurd h hn⟩
    · rw [if_neg h]
      refine ⟨fun _ => h, fun _ heq => ?_⟩
      have := congrArg List.length heq
      simp at this
  · intro before x y hc1
    have hsplit : before ++ [(r, c, x), (r, c + 1, y)] =
        (before ++ [(r, c, x)]) ++ [(r, c + 1, y)] := by simp
    rw [hsplit, put_cells_append w (before ++ [(r, c, x)]), put_cells_singleton]
    have hlast : put_cells w (before ++ [(r, c, x)]) =
        put_cell (put_cells w before) r c x := by
      rw [put_cells_append, put_cells_singleton]
    obtain ⟨_, hrow1, hcol1, _⟩ := put_cell_effect (put_cells w before) r c hr hc x
    have hC : EETG_COLUMNS = 80 := rfl
    rw [if_neg (by omega)] at hrow1 hcol1
    obtain ⟨hw2, _, _, _⟩ := put_cell_effect (put_cell (put_cells w before) r c x)
      r (c + 1) hr hc1 y
    rw [if_pos ⟨hrow1, by rw [hcol1]; push_cast; rfl⟩, List.append_nil] at hw2
    rw [hlast]
    refine ⟨_, hw2, ?_⟩
    split
    · left; rfl
    · right; rfl

/-- C11 at the cell of row 1, column 2 of a fresh world, whose cached cursor is
unknown: the sequence written is `ESC[2;3H`. -/
theorem set_cursor_writes_iff_moved_witness :
    1 < EETG_ROWS ∧ 2 < EETG_COLUMNS ∧
    cursor_sequence 1 2 = chars "\x1b[2;3H" ∧
    ∃ w', eetg_world_set_cursor fresh_world ((1 : Nat) : Int) ((2 : Nat) : Int) = some w' ∧
      (¬ (fresh_world.cursor_row = ((1 : Nat) : Int) ∧
          fresh_world.cursor_column = ((2 : Nat) : Int)) →
        w'.written = fresh_world.written ++
          [cursor_sequence ((1 : Nat) : Int) ((2 : Nat) : Int)]) ∧
      ((fresh_world.cursor_row = ((1 : Nat) : Int) ∧
          fresh_world.cursor_column = ((2 : Nat) : Int)) →
        w'.written = fresh_world.written) ∧
      (w'.written ≠ fresh_world.written ↔
        ¬ (fresh_world.cursor_row = ((1 : Nat) : Int) ∧
          fresh_world.cursor_column = ((2 : Nat) : Int))) ∧
      w'.cursor_row = ((1 : Nat) : Int) ∧ w'.cursor_column = ((2 : Nat) : Int) ∧
      decode (cursor_sequence ((1 : Nat) : Int) ((2 : Nat) : Int)) =
        terminal_event.position ((1 : Nat) : Int) ((2 : Nat) : Int) ∧
      ∀ (before : List (Nat × Nat × eetg_view_cell)) (x y : eetg_view_cell),
        2 + 1 < EETG_COLUMNS →
        ∃ pre, (put_cells fresh_world (before ++ [(1, 2, x), (1, 2 + 1, y)])).written =
            (put_cells fresh_world (before ++ [(1, 2, x)])).written ++ pre ++ [[y.c]] ∧
          (pre = [] ∨ pre = [color_sequence y.color]) :=
  ⟨by decide, by decide, by decide,
    set_cursor_writes_iff_moved fresh_world 1 2 (by decide) (by decide)⟩

/-- C12: for a colour of the 8-bit range, `eetg_world_set_color` writes the sequence
`ESC [ 30+color ; 40 m` exactly when the colour is not the cached one or `force` is
set, and the cached colour is that colour afterwards; so a run of cells of one colour
written one after the other, in either render mode, gets at most one colour
sequence. -/
theorem set_color_writes_iff_changed (w : eetg_world) (color : Int) (force : Bool)
    (h0 : -128 ≤ color) (h1 : color ≤ 127) :
    ((color ≠ w.current_color ∨ force = true) →
      (eetg_world_set_color w color force).written =
        w.written ++ [color_sequence color]) ∧
    (¬ (color ≠ w.current_color ∨ force = true) →
      (eetg_world_set_color w color force).written = w.written) ∧
    ((eetg_world_set_color w color force).written ≠ w.written ↔
      (color ≠ w.current_color ∨ force = true)) ∧
    (eetg_world_set_color w color force).current_color = color ∧
    decode (color_sequence color) = terminal_event.colour color ∧
    ∀ (cells : List (Nat × Nat × eetg_view_cell)) (start : eetg_world),
      (∀ x ∈ cells, x.1 < EETG_ROWS ∧ x.2.1 < EETG_COLUMNS ∧ x.2.2.color = color) →
      ∃ out, (put_cells start cells).written = start.written ++ out ∧
        (out.filter is_colour_sequence).length ≤ 1 := by
  obtain ⟨hwr, _, _⟩ := set_color_effect w color force
  have hcond : (color = w.current_color ∧ ¬ (force = true)) ↔
      ¬ (color ≠ w.current_color ∨ force = true) := by
    constructor
    · rintro ⟨h, hf⟩ hor
      rcases hor with e | e
      · exact e h
      · exact hf e
    · intro h
      exact ⟨not_not.1 (fun e => h (Or.inl e)), fun e => h (Or.inr e)⟩
  refine ⟨?_, ?_, ?_, ?_, decode_color_sequence color h0 h1, ?_⟩
  · intro h
    rw [hwr, if_neg (fun hc => (hcond.1 hc) h)]
  · intro h
    rw [hwr, if_pos (hcond.2 h), List.append_nil]
  · rw [hwr]
    by_cases h : color ≠ w.current_color ∨ force = true
    · rw [if_neg (fun hc => (hcond.1 hc) h)]
      refine ⟨fun _ => h, fun _ heq => ?_⟩
      have := congrArg List.length heq
      simp at this
    · rw [if_pos (hcond.2 h), List.append_nil]
      exact ⟨fun hne => absurd rfl hne, fun hn => absurd hn h⟩
  · unfold eetg_world_set_color
    by_cases h : color = w.current_color ∧ ¬ (force = true)
    · rw [if_pos h]; exact h.1.symm
    · rw [if_neg h]
      exact to_int8_of_range _ h0 h1
  · intro cells start hcells
    obtain ⟨out, hout, hcount⟩ := put_cells_colour_run color h0 h1 cells hcells start
    refine ⟨out, hout, ?_⟩
    split at hcount <;> omega

/-- C12 at the colour red on a fresh world, whose cached colour is white: the sequence
written is `ESC[31;40m`. -/
theorem set_color_writes_iff_changed_witness :
    -128 ≤ EETG_COLOR_RED ∧ EETG_COLOR_RED ≤ 127 ∧
    color_sequence EETG_COLOR_RED = chars "\x1b[31;40m" ∧
    (eetg_world_set_color fresh_world EETG_COLOR_RED false).written =
      [chars "\x1b[31;40m"] ∧
    (eetg_world_set_color fresh_world EETG_COLOR_RED false).current_color =
      EETG_COLOR_RED :=
  ⟨by decide, by decide, by decide, by decide,
    (set_color_writes_iff_changed fresh_world EETG_COLOR_RED false
      (by decide) (by decide)).2.2.2.1⟩

/-! ## The initialisation claims -/

/-- The line checks of `eetg_object_init` where the first line fits the 8-bit width
field: the call fails for a text with no line break, and for a text whose first line
has at most 127 characters and one of whose later lines has another length. -/
theorem object_init_rejects_short_unequal_rows (object : eetg_object) (type : Int)
    (text : List Int) (hlen : (text.length : Int) ≤ INT_MAX) :
    (text_rows text = [] →
      eetg_object_init object type text = init_result.assertion_failed) ∧
    (∀ first rest, text_rows text = first :: rest → first.length ≤ 127 →
      (∃ row ∈ rest, row.length ≠ first.length) →
      eetg_object_init object type text = init_result.assertion_failed) := by
  obtain ⟨htext, hrows, htail⟩ := text_rows_spec text
  have hlen' : ((text_of_rows (text_rows text)).length : Int) ≤ INT_MAX := by
    have : (text_of_rows (text_rows text)).length ≤ text.length := by
      conv_rhs => rw [htext]
      simp
    omega
  have key := object_init_eq object type (text_rows text) (text_tail text) hrows htail hlen'
  rw [← htext] at key
  refine ⟨?_, ?_⟩
  · intro hnil
    rw [key, hnil]
    rfl
  · intro first rest hcons hfirst ⟨row, hrow, hne⟩
    rw [key, hcons]
    simp only [init_of_rows]
    rw [if_neg]
    intro hall
    have := hall row hrow
    rw [to_int8_of_range _ (by omega) (by omega)] at this
    exact hne (by exact_mod_cast this)

set_option maxRecDepth 100000 in
/-- C14 fails on the code: the text of a first line of 256 characters and an empty
second line is accepted, with the width 0 and the height 2, although its two lines
have different lengths. -/
theorem object_init_accepts_unequal_rows :
    (List.replicate 256 (97 : Int)).length ≠ ([] : List Int).length ∧
    eetg_object_init scenario_slot 0 (text_of_rows [List.replicate 256 97, []]) =
      init_result.returned
        { address := 7, world := none,
          sprite := text_of_rows [List.replicate 256 97, []],
          color := EETG_COLOR_WHITE, type := 0, x := 0, y := 0, width := 0, height := 2 } := by
  refine ⟨by decide, ?_⟩
  have key := object_init_eq scenario_slot 0 [List.replicate 256 97, []] []
    (by decide) (by simp) (by decide)
  rw [List.append_nil] at key
  rw [key]
  decide

/-- The size `eetg_object_init` stores where it fits the 8-bit fields: when the call
accepts a text whose first line has at most 127 characters and which has at most 127
lines, the stored width is the length of the first line, between 0 and 127, and the
stored height is the number of lines, between 1 and 127. -/
theorem object_init_size_of_short_text (object : eetg_object) (type : Int)
    (text : List Int) (o : eetg_object) (hlen : (text.length : Int) ≤ INT_MAX)
    (haccept : eetg_object_init object type text = init_result.returned o)
    (first : List Int) (rest : List (List Int))
    (hrows : text_rows text = first :: rest) (hw : first.length ≤ 127)
    (hh : (first :: rest).length ≤ 127) :
    o.width = (first.length : Int) ∧ o.height = ((first :: rest).length : Int) ∧
      0 ≤ o.width ∧ o.width ≤ 127 ∧ 1 ≤ o.height ∧ o.height ≤ 127 := by
  obtain ⟨htext, hnl, htail⟩ := text_rows_spec text
  have hlen' : ((text_of_rows (text_rows text)).length : Int) ≤ INT_MAX := by
    have : (text_of_rows (text_rows text)).length ≤ text.length := by
      conv_rhs => rw [htext]
      simp
    omega
  have key := object_init_eq object type (text_rows text) (text_tail text) hnl htail hlen'
  rw [← htext, haccept, hrows] at key
  simp only [init_of_rows] at key
  have hh' : ((first :: rest).length : Int) ≤ 127 := by exact_mod_cast hh
  have hh1 : (1 : Int) ≤ ((first :: rest).length : Int) := by
    simp only [List.length_cons, Nat.cast_add, Nat.cast_one]
    omega
  split at key
  · injection key with key
    rw [key]
    simp only
    rw [to_int8_of_range _ (by omega) (by omega), to_int8_of_range _ (by omega) hh']
    omega
  · exact absurd key (by simp)

set_option maxRecDepth 100000 in
/-- C15 fails on the code: a line of 128 characters is accepted with the width -128,
the text of one empty line with the width 0, and a text of 128 lines with the height
-128. -/
theorem object_init_stores_out_of_range_size :
    eetg_object_init scenario_slot 0 (text_of_rows [List.replicate 128 97]) =
      init_result.returned
        { address := 7, world := none, sprite := text_of_rows [List.replicate 128 97],
          color := EETG_COLOR_WHITE, type := 0, x := 0, y := 0,
          width := -128, height := 1 } ∧
    eetg_object_init scenario_slot 0 (text_of_rows [[]]) =
      init_result.returned
        { address := 7, world := none, sprite := text_of_rows [[]],
          color := EETG_COLOR_WHITE, type := 0, x := 0, y := 0, width := 0, height := 1 } ∧
    eetg_object_init scenario_slot 0 (text_of_rows (List.replicate 128 [97])) =
      init_result.returned
        { address := 7, world := none, sprite := text_of_rows (List.replicate 128 [97]),
          color := EETG_COLOR_WHITE, type := 0, x := 0, y := 0,
          width := 1, height := -128 } := by
  have key (rows : List (List Int)) (h1 : ∀ row ∈ rows, NEWLINE ∉ row)
      (h2 : ((text_of_rows rows).length : Int) ≤ INT_MAX) :
      eetg_object_init scenario_slot 0 (text_of_rows rows) =
        init_of_rows 7 0 [] rows := by
    have := object_init_eq scenario_slot 0 rows [] h1 (by simp) h2
    rw [List.append_nil] at this
    exact this
  refine ⟨?_, ?_, ?_⟩
  · rw [key _ (by decide) (by decide)]
    decide
  · rw [key _ (by decide) (by decide)]
    decide
  · rw [key _ (by decide) (by decide)]
    decide

/-! ## The membership claims -/

/-- C18 fails on the code: `eetg_object_init` accepts the sprite text of one empty
line and stores the width 0; in a world with a registered handler to which that object
was added at `(5, 0)`, `eetg_world_add` of the detached object `"abc"` at `(4, 0)`
fails, at the assertion `xtl <= xbr` of the collision scan, after the object was
positioned, attached and linked into the member list. -/
theorem world_add_fails_on_detached_object :
    eetg_object_init scenario_empty_line 0 (chars "\n") =
      init_result.returned scenario_empty_line ∧
    (eetg_world_add scenario_handler_world scenario_empty_line 5 0).failed = false ∧
    (eetg_world_add scenario_handler_world scenario_empty_line 5 0).world.objects =
      scenario_zero_width_world.objects ∧
    (eetg_world_add scenario_handler_world scenario_empty_line 5 0).world.handle_collision_fn =
      scenario_zero_width_world.handle_collision_fn ∧
    scenario_detached_abc.world = none ∧
    (eetg_world_add scenario_zero_width_world scenario_detached_abc 4 0).failed = true ∧
    (eetg_world_add scenario_zero_width_world scenario_detached_abc 4 0).object =
      { scenario_detached_abc with world := some 0, x := 4, y := 0 } ∧
    (eetg_world_add scenario_zero_width_world scenario_detached_abc 4 0).world.objects =
      { scenario_detached_abc with world := some 0, x := 4, y := 0 } ::
        scenario_zero_width_world.objects := by
  decide

/-- The failure of `eetg_world_add` where the sizes are positive: when no handler is
registered, or when the object and all members have a positive width and height,
`eetg_world_add` fails if and only if the object is already attached to a world; and
whenever the object is attached it fails with the world, the member list and the
object as they were. -/
theorem world_add_fails_iff_attached (world : eetg_world) (object : eetg_object)
    (x y : Int)
    (h : world.handle_collision_fn = none ∨
      (positive_size object ∧ ∀ m ∈ world.objects, positive_size m)) :
    ((eetg_world_add world object x y).failed = true ↔ object.world ≠ none) ∧
    (object.world ≠ none →
      eetg_world_add world object x y =
        { failed := true, world := world, object := object, calls := [] }) := by
  refine ⟨?_, world_add_attached world object x y⟩
  constructor
  · intro hf hdet
    rw [world_add_detached world object x y hdet] at hf
    simp only at hf
    rw [scan_collisions_ok _ _ (by
      rcases h with h | ⟨ho, hm⟩
      · exact Or.inl h
      · refine Or.inr ⟨ho, ?_⟩
        intro m hmem
        rcases List.mem_cons.1 hmem with rfl | hmem
        · exact ho
        · exact hm m hmem)] at hf
    exact absurd hf (by simp)
  · intro hatt
    rw [world_add_attached world object x y hatt]

/-- The failure of `eetg_world_add` at a world with a handler and two members of
positive size: adding a member again fails and changes nothing. -/
theorem world_add_fails_iff_attached_witness :
    (scenario_pair.handle_collision_fn = none ∨
      (positive_size scenario_member_dot ∧ ∀ m ∈ scenario_pair.objects, positive_size m)) ∧
    (((eetg_world_add scenario_pair scenario_member_dot 1 1).failed = true ↔
        scenario_member_dot.world ≠ none) ∧
      (scenario_member_dot.world ≠ none →
        eetg_world_add scenario_pair scenario_member_dot 1 1 =
          { failed := true, world := scenario_pair, object := scenario_member_dot,
            calls := [] })) :=
  ⟨Or.inr (by decide),
    world_add_fails_iff_attached scenario_pair scenario_member_dot 1 1 (Or.inr (by decide))⟩

/-- C19: when an object whose owning world is this world is linked in its member list,
`eetg_world_remove` fails if and only if the owning world of the object is not this
world; and whenever it does not fail, the object is an entry of the member list, the
search unlinks that entry and leaves the others in their order, and the object is
detached. -/
theorem world_remove_fails_iff_not_member (world : eetg_world) (object : eetg_object)
    (hlinked : object.world = some world.address →
      ∃ m ∈ world.objects, m.address = object.address) :
    ((eetg_world_remove world object).failed = true ↔
      object.world ≠ some world.address) ∧
    ((eetg_world_remove world object).failed = false →
      (∃ m ∈ world.objects, m.address = object.address) ∧
      (eetg_world_remove world object).world =
        { world with objects :=
            world.objects.eraseP (fun m => decide (m.address = object.address)) } ∧
      (eetg_world_remove world object).world.objects.length + 1 = world.objects.length ∧
      (eetg_world_remove world object).object = { object with world := none }) := by
  by_cases hw : object.world = some world.address
  · obtain ⟨m, hm, hma⟩ := hlinked hw
    have hres : eetg_world_remove world object =
        { failed := false
          world := { world with objects :=
            world.objects.eraseP (fun m => decide (m.address = object.address)) }
          object := { object with world := none }
          calls := [] } := by
      unfold eetg_world_remove eetg_object_get_world eetg_object_unset
      rw [if_neg (by simpa using hw)]
      cases hobj : world.objects with
      | nil => rw [hobj] at hm; exact absurd hm (by simp)
      | cons head next =>
        simp only
        by_cases hh : head.address = object.address
        · rw [if_pos hh, List.eraseP_cons_of_pos (by simpa using hh)]
          simp [hw]
        · rw [if_neg hh, remove_loop_eq, List.eraseP_cons_of_neg (by simpa using hh)]
          simp [hw]
    rw [hres]
    refine ⟨by simp [hw], fun _ => ⟨⟨m, hm, hma⟩, rfl, ?_, rfl⟩⟩
    simp only
    rw [List.length_eraseP_of_mem hm (by simpa using hma)]
    have : 0 < world.objects.length := List.length_pos_of_mem hm
    omega
  · have hres : eetg_world_remove world object =
        { failed := true, world := world, object := object, calls := [] } := by
      unfold eetg_world_remove eetg_object_get_world
      rw [if_pos hw]
    rw [hres]
    exact ⟨by simp [hw], fun hf => absurd hf (by simp)⟩

/-- C19 at a world of two members, removing the one added first. -/
theorem world_remove_fails_iff_not_member_witness :
    (scenario_member_dot.world = some scenario_pair.address →
      ∃ m ∈ scenario_pair.objects, m.address = scenario_member_dot.address) ∧
    (((eetg_world_remove scenario_pair scenario_member_dot).failed = true ↔
        scenario_member_dot.world ≠ some scenario_pair.address) ∧
      ((eetg_world_remove scenario_pair scenario_member_dot).failed = false →
        (∃ m ∈ scenario_pair.objects, m.address = scenario_member_dot.address) ∧
        (eetg_world_remove scenario_pair scenario_member_dot).world =
          { scenario_pair with objects := (scenario_pair.objects.eraseP
              (fun m => decide (m.address = scenario_member_dot.address))) } ∧
        (eetg_world_remove scenario_pair scenario_member_dot).world.objects.length + 1 =
          scenario_pair.objects.length ∧
        (eetg_world_remove scenario_pair scenario_member_dot).object =
          { scenario_member_dot with world := none })) :=
  ⟨fun _ => ⟨scenario_member_dot, by decide, rfl⟩,
    world_remove_fails_iff_not_member scenario_pair scenario_member_dot
      (fun _ => ⟨scenario_member_dot, by decide, rfl⟩)⟩

/-- C20: `eetg_world_add` of a detached object at `(x, y)` in the 8-bit range leaves
the object attached to the world at exactly `(x, y)`, its other attributes as they
were, and the member list the object followed by the previous members, unchanged and
in their order, with nothing else of the world changed; and the call returns when no
handler is registered or when the object and all members have a positive width and
height. -/
theorem world_add_attaches_at_head (world : eetg_world) (object : eetg_object)
    (x y : Int) (hdet : object.world = none) (hx0 : -128 ≤ x) (hx1 : x ≤ 127)
    (hy0 : -128 ≤ y) (hy1 : y ≤ 127) :
    (eetg_world_add world object x y).object =
      { object with world := some world.address, x := x, y := y } ∧
    (eetg_world_add world object x y).world =
      { world with objects :=
          { object with world := some world.address, x := x, y := y } :: world.objects } ∧
    ((world.handle_collision_fn = none ∨
        (positive_size object ∧ ∀ m ∈ world.objects, positive_size m)) →
      (eetg_world_add world object x y).failed = false) := by
  rw [world_add_detached world object x y hdet, to_int8_of_range x hx0 hx1,
    to_int8_of_range y hy0 hy1]
  refine ⟨rfl, rfl, ?_⟩
  intro h
  simp only
  apply scan_collisions_ok
  rcases h with h | ⟨ho, hm⟩
  · exact Or.inl h
  · refine Or.inr ⟨ho, ?_⟩
    intro m hmem
    rcases List.mem_cons.1 hmem with rfl | hmem
    · exact ho
    · exact hm m hmem

/-- C20 at the world of two members: the detached sprite `"abc"` is added at `(4, 0)`,
next to the member at `(5, 0)`. -/
theorem world_add_attaches_at_head_witness :
    scenario_detached_abc.world = none ∧
    (eetg_world_add scenario_pair scenario_detached_abc 4 0).object =
      { scenario_detached_abc with world := some scenario_pair.address, x := 4, y := 0 } ∧
    (eetg_world_add scenario_pair scenario_detached_abc 4 0).world =
      { scenario_pair with objects :=
          { scenario_detached_abc with world := some scenario_pair.address, x := 4, y := 0 }
            :: scenario_pair.objects } ∧
    ((scenario_pair.handle_collision_fn = none ∨
        (positive_size scenario_detached_abc ∧
          ∀ m ∈ scenario_pair.objects, positive_size m)) →
      (eetg_world_add scenario_pair scenario_detached_abc 4 0).failed = false) :=
  ⟨rfl,
    world_add_attaches_at_head scenario_pair scenario_detached_abc 4 0 rfl (by decide)
      (by decide) (by decide) (by decide)⟩

/-! ## The scan, removal and move claims -/

/-- C21 as stated fails: the object `eetg_object_init` returns for the two bytes of
the UTF-8 text `é`, both above 127 and so negative as `char`s, is added at `(0, 0)` to
a world with a registered handler whose member is the sprite `"##"` at `(0, 0)`.  The
non-space glyphs of the two overlap, at both cells, yet the handler is not called:
`eetg_object_check_collision` returns at the first cell, on its test `c1 <= 0`. -/
theorem scan_skips_overlapping_member_counterexample :
    eetg_object_init scenario_accent 0 [-61, -87, 10] =
      init_result.returned scenario_accent ∧
    scenario_hashes.handle_collision_fn = some 1 ∧
    scenario_accent.world = none ∧
    (∀ m ∈ scenario_hashes.objects, well_formed_sprite m) ∧
    both_solid (eetg_world_add scenario_hashes scenario_accent 0 0).object
      scenario_member_hashes 0 0 ∧
    overlapping_members (eetg_world_add scenario_hashes scenario_accent 0 0).object
      (eetg_world_add scenario_hashes scenario_accent 0 0).world.objects =
      [scenario_member_hashes] ∧
    eetg_object_get_char (eetg_world_add scenario_hashes scenario_accent 0 0).object 0 0 =
      -61 ∧
    (eetg_world_add scenario_hashes scenario_accent 0 0).failed = false ∧
    (eetg_world_add scenario_hashes scenario_accent 0 0).calls = [] := by
  decide

/-- C21, amended: in a world with a registered handler, `eetg_world_add` of a detached object
`o` and `eetg_object_move` of an object `o` attached to the world, when they fail no
assertion, make exactly the handler calls of `eetg_object_check_collision`, at most one
each, for `o` and each other member, in the order of the member list, with `o` first,
that member second and the registered argument, and none that pairs `o` with itself;
and when `o` and the members have well-formed sprites, no assertion fails and the
handler is called once for each other member whose non-space glyphs overlap those of
`o` at its new position, and for no other member. -/
theorem scan_calls_handler_for_overlapping_members (world : eetg_world)
    (o : eetg_object) (x y : Int) (fn : Nat)
    (hfn : world.handle_collision_fn = some fn) :
    (∀ m cells, eetg_object_check_collision
        { o with x := to_int8 x, y := to_int8 y } m = some cells → cells.length ≤ 1) ∧
    (o.world = none →
      ((eetg_world_add world o x y).failed = false →
        (eetg_world_add world o x y).calls =
          calls_per_member world.handle_collision_fn_arg
            (eetg_world_add world o x y).object
            (eetg_world_add world o x y).world.objects) ∧
      (well_formed_sprite o → (∀ m ∈ world.objects, well_formed_sprite m) →
        (eetg_world_add world o x y).failed = false ∧
        (eetg_world_add world o x y).calls.map call_parties =
          (overlapping_members (eetg_world_add world o x y).object
            (eetg_world_add world o x y).world.objects).map
            (fun m => (o.address, m.address, world.handle_collision_fn_arg)) ∧
        ∀ c ∈ (eetg_world_add world o x y).calls,
          ∃ m ∈ (eetg_world_add world o x y).world.objects,
            m.address = c.object2 ∧ m.address ≠ o.address ∧
            both_solid (eetg_world_add world o x y).object m c.x c.y)) ∧
    (o.world = some world.address →
      ∃ r, eetg_object_move world o x y = some r ∧
        (r.failed = false →
          r.calls = calls_per_member world.handle_collision_fn_arg r.object
            r.world.objects) ∧
        (well_formed_sprite o → (∀ m ∈ world.objects, well_formed_sprite m) →
          r.failed = false ∧
          r.calls.map call_parties =
            (overlapping_members r.object r.world.objects).map
              (fun m => (o.address, m.address, world.handle_collision_fn_arg)) ∧
          ∀ c ∈ r.calls,
            ∃ m ∈ r.world.objects,
              m.address = c.object2 ∧ m.address ≠ o.address ∧
              both_solid r.object m c.x c.y)) := by
  refine ⟨fun m cells h => check_collision_at_most_one _ m cells h, ?_, ?_⟩
  · intro hdet
    rw [world_add_detached world o x y hdet]
    simp only
    refine ⟨fun hok => scan_collisions_per_member _ _ fn hfn hok, ?_⟩
    intro ho hm
    obtain ⟨h1, h2, h3⟩ := scan_collisions_calls
      { world with objects :=
          { o with world := some world.address, x := to_int8 x, y := to_int8 y }
            :: world.objects }
      { o with world := some world.address, x := to_int8 x, y := to_int8 y } fn hfn ho
      (by
        intro m hmem hne
        rcases List.mem_cons.1 hmem with rfl | hmem
        · exact absurd rfl hne
        · exact hm m hmem)
    refine ⟨h1, h2, ?_⟩
    intro c hc
    obtain ⟨m, hmem, e1, e2, e3, _⟩ := h3 c hc
    exact ⟨m, hmem, e1, e2, e3⟩
  · intro hatt
    refine ⟨_, object_move_eq world o x y (Or.inr hatt), ?_⟩
    simp only
    rw [if_neg (by rw [hatt]; simp), if_neg (by rw [hatt]; simp)]
    refine ⟨fun hok => scan_collisions_per_member _ _ fn hfn hok, ?_⟩
    intro ho hm
    obtain ⟨h1, h2, h3⟩ := scan_collisions_calls
      { world with objects := world.objects.map (fun tmp =>
          if tmp.address = o.address then { o with x := to_int8 x, y := to_int8 y }
          else tmp) }
      { o with x := to_int8 x, y := to_int8 y } fn hfn ho
      (by
        intro m hmem hne
        obtain ⟨m0, hm0, hmap⟩ := List.mem_map.1 hmem
        by_cases ha : m0.address = o.address
        · rw [if_pos ha] at hmap
          rw [← hmap] at hne
          exact absurd rfl hne
        · rw [if_neg ha] at hmap
          rw [← hmap]
          exact hm m0 hm0)
    refine ⟨h1, h2, ?_⟩
    intro c hc
    obtain ⟨m, hmem, e1, e2, e3, _⟩ := h3 c hc
    exact ⟨m, hmem, e1, e2, e3⟩

/-- C21, amended, at the world of two members with a handler: the sprite `"abc"` added at
`(4, 0)` overlaps the member `"bc"` at `(5, 0)` and not the member at `(9, 9)`; the
handler is called once, for the first of them, at the cell `(5, 0)`. -/
theorem scan_calls_handler_for_overlapping_members_witness :
    scenario_pair.handle_collision_fn = some 1 ∧
    well_formed_sprite scenario_detached_abc ∧
    (∀ m ∈ scenario_pair.objects, well_formed_sprite m) ∧
    (eetg_world_add scenario_pair scenario_detached_abc 4 0).calls =
      [{ object1 := 3, object2 := 5, x := 5, y := 0, arg := 0 }] ∧
    (eetg_world_add scenario_pair scenario_detached_abc 4 0).failed = false ∧
    (eetg_world_add scenario_pair scenario_detached_abc 4 0).calls.map call_parties =
      (overlapping_members (eetg_world_add scenario_pair scenario_detached_abc 4 0).object
        (eetg_world_add scenario_pair scenario_detached_abc 4 0).world.objects).map
        (fun m => (scenario_detached_abc.address, m.address,
          scenario_pair.handle_collision_fn_arg)) ∧
    ∀ c ∈ (eetg_world_add scenario_pair scenario_detached_abc 4 0).calls,
      ∃ m ∈ (eetg_world_add scenario_pair scenario_detached_abc 4 0).world.objects,
        m.address = c.object2 ∧ m.address ≠ scenario_detached_abc.address ∧
        both_solid (eetg_world_add scenario_pair scenario_detached_abc 4 0).object m
          c.x c.y :=
  ⟨rfl, by decide, by decide, by decide,
    ((scan_calls_handler_for_overlapping_members scenario_pair scenario_detached_abc 4 0 1
      rfl).2.1 rfl).2 (by decide) (by decide)⟩

/-- C22: for a member of a world whose member list holds no struct twice,
`eetg_world_remove` returns; the member list is the previous one with exactly that
entry deleted, the other entries unchanged and in their order; the object is detached
and is otherwise as it was, nothing else of the world changes, and the handler is not
called. -/
theorem world_remove_deletes_exactly_the_object (world : eetg_world)
    (object : eetg_object) (hback : object.world = some world.address)
    (hmem : object ∈ world.objects)
    (hnodup : (world.objects.map (fun m => m.address)).Nodup) :
    ∃ before after, world.objects = before ++ object :: after ∧
      (∀ m ∈ before ++ after, m.address ≠ object.address) ∧
      eetg_world_remove world object =
        { failed := false
          world := { world with objects := before ++ after }
          object := { object with world := none }
          calls := [] } := by
  obtain ⟨before, after, hsplit, herase, hne⟩ :=
    eraseP_member world.objects object hmem hnodup
  refine ⟨before, after, hsplit, hne, ?_⟩
  rw [world_remove_member world object hback ⟨object, hmem, rfl⟩, herase]

/-- C22 at the world of two members, removing the one added last. -/
theorem world_remove_deletes_exactly_the_object_witness :
    scenario_member_bc.world = some scenario_pair.address ∧
    scenario_member_bc ∈ scenario_pair.objects ∧
    (scenario_pair.objects.map (fun m => m.address)).Nodup ∧
    ∃ before after, scenario_pair.objects = before ++ scenario_member_bc :: after ∧
      (∀ m ∈ before ++ after, m.address ≠ scenario_member_bc.address) ∧
      eetg_world_remove scenario_pair scenario_member_bc =
        { failed := false
          world := { scenario_pair with objects := before ++ after }
          object := { scenario_member_bc with world := none }
          calls := [] } :=
  ⟨rfl, by decide, by decide,
    world_remove_deletes_exactly_the_object scenario_pair scenario_member_bc rfl
      (by decide) (by decide)⟩

/-- C23: for a world whose member list holds no struct twice and whose members point
back to it, `eetg_world_clear` leaves what the calls of `eetg_world_remove` for all
members leave, in the order of the list and in any other order: no assertion fails,
the member list is empty, every former member is detached and otherwise as it was, and
nothing else of the world changes. -/
theorem world_clear_refines_remove_each (world : eetg_world)
    (hnodup : (world.objects.map (fun m => m.address)).Nodup)
    (hback : ∀ m ∈ world.objects, m.world = some world.address) :
    eetg_world_clear world = remove_each world world.objects ∧
    eetg_world_clear world =
      { failed := false, world := { world with objects := [] },
        objects := world.objects.map (fun m => { m with world := none }) } ∧
    ∀ order : List eetg_object, order.Perm world.objects →
      (remove_each world order).failed = (eetg_world_clear world).failed ∧
      (remove_each world order).world = (eetg_world_clear world).world ∧
      (remove_each world order).objects.Perm (eetg_world_clear world).objects := by
  have hclear := world_clear_eq world (fun m hm => by rw [hback m hm]; simp)
  refine ⟨?_, hclear, ?_⟩
  · rw [hclear, remove_each_eq world.objects world (List.Perm.refl _) hnodup hback]
  · intro order hperm
    rw [hclear, remove_each_eq order world hperm hnodup hback]
    exact ⟨rfl, rfl, List.Perm.map _ hperm⟩

/-- C23 at the world of two members. -/
theorem world_clear_refines_remove_each_witness :
    (scenario_pair.objects.map (fun m => m.address)).Nodup ∧
    (∀ m ∈ scenario_pair.objects, m.world = some scenario_pair.address) ∧
    eetg_world_clear scenario_pair = remove_each scenario_pair scenario_pair.objects ∧
    (eetg_world_clear scenario_pair).objects =
      [{ scenario_member_bc with world := none },
       { scenario_member_dot with world := none }] :=
  ⟨by decide, by decide,
    (world_clear_refines_remove_each scenario_pair (by decide) (by decide)).1,
    by
      rw [(world_clear_refines_remove_each scenario_pair (by decide) (by decide)).2.1]
      rfl⟩

/-- C24: in a world with no registered handler, as `eetg_world_init` leaves it,
`eetg_world_add` of a detached object and `eetg_object_move` of an attached object
return without a handler call and without a failed assertion, whatever the sprites and
positions of the object and the members; the object is positioned (and attached, by
`eetg_world_add`, at the head of the member list), and nothing else changes. -/
theorem no_handler_no_scan (world : eetg_world) (o : eetg_object) (x y : Int)
    (hfn : world.handle_collision_fn = none) :
    (o.world = none →
      eetg_world_add world o x y =
        { failed := false
          world := { world with objects :=
            { o with world := some world.address, x := to_int8 x, y := to_int8 y }
              :: world.objects }
          object := { o with world := some world.address, x := to_int8 x, y := to_int8 y }
          calls := [] }) ∧
    (o.world = some world.address →
      eetg_object_move world o x y =
        some
          { failed := false
            world := { world with objects := world.objects.map (fun tmp =>
              if tmp.address = o.address then { o with x := to_int8 x, y := to_int8 y }
              else tmp) }
            object := { o with x := to_int8 x, y := to_int8 y }
            calls := [] }) ∧
    (∀ w w', eetg_world_init w = some w' → w'.handle_collision_fn = none) := by
  refine ⟨?_, ?_, ?_⟩
  · intro hdet
    rw [world_add_detached world o x y hdet]
    unfold eetg_world_scan_collisions
    simp only [hfn]
  · intro hatt
    rw [object_move_eq world o x y (Or.inr hatt)]
    unfold eetg_world_scan_collisions
    simp [hfn, hatt]
  · intro w w' hinit
    rw [world_init_eq] at hinit
    injection hinit with hinit
    rw [← hinit]
    rfl

/-- C24 at the world of two members with no handler: the sprite `"abc"` is added at
`(4, 0)`, where its glyphs overlap those of the member `"bc"` at `(5, 0)`. -/
theorem no_handler_no_scan_witness :
    scenario_silent_pair.handle_collision_fn = none ∧
    glyphs_overlap { scenario_detached_abc with x := 4, y := 0 } scenario_member_bc ∧
    eetg_world_add scenario_silent_pair scenario_detached_abc 4 0 =
      { failed := false
        world := { scenario_silent_pair with objects :=
          { scenario_detached_abc with
            world := some scenario_silent_pair.address, x := to_int8 4, y := to_int8 0 }
            :: scenario_silent_pair.objects }
        object := { scenario_detached_abc with
          world := some scenario_silent_pair.address, x := to_int8 4, y := to_int8 0 }
        calls := [] } :=
  ⟨rfl, by decide,
    (no_handler_no_scan scenario_silent_pair scenario_detached_abc 4 0 rfl).1 rfl⟩

/-- C25: for `x` and `y` in the 8-bit signed range, on or off the grid,
`eetg_object_move` of an object that is detached or attached to the world sets its
position to exactly `(x, y)` and changes no other attribute of the object; the member
list keeps its entries, at the same addresses and in the same order, the entry of the
object being the moved object and the others unchanged; and for a detached object the
call returns without a handler call. -/
theorem object_move_sets_position (world : eetg_world) (o : eetg_object) (x y : Int)
    (hx0 : -128 ≤ x) (hx1 : x ≤ 127) (hy0 : -128 ≤ y) (hy1 : y ≤ 127)
    (hworld : o.world = none ∨ o.world = some world.address) :
    ∃ r, eetg_object_move world o x y = some r ∧
      r.object = { o with x := x, y := y } ∧
      r.world = { world with objects := world.objects.map (fun m =>
        if m.address = o.address then { o with x := x, y := y } else m) } ∧
      r.world.objects.map (fun m => m.address) = world.objects.map (fun m => m.address) ∧
      (∀ m ∈ world.objects, m.address ≠ o.address → m ∈ r.world.objects) ∧
      (o.world = none → r.failed = false ∧ r.calls = []) := by
  refine ⟨_, object_move_eq world o x y hworld, ?_⟩
  simp only [to_int8_of_range x hx0 hx1, to_int8_of_range y hy0 hy1]
  refine ⟨trivial, trivial, ?_, ?_, ?_⟩
  · rw [List.map_map]
    apply List.map_congr_left
    intro m _
    simp only [Function.comp]
    split
    · rename_i h; exact h.symm
    · rfl
  · intro m hm hne
    exact List.mem_map.2 ⟨m, hm, by rw [if_neg hne]⟩
  · intro hdet
    rw [if_pos hdet, if_pos hdet]
    exact ⟨rfl, rfl⟩

/-- C25 at a member moved off the grid, to `(-1, 100)`. -/
theorem object_move_sets_position_witness :
    (scenario_member_dot.world = none ∨
      scenario_member_dot.world = some scenario_silent_pair.address) ∧
    ∃ r, eetg_object_move scenario_silent_pair scenario_member_dot (-1) 100 = some r ∧
      r.object = { scenario_member_dot with x := -1, y := 100 } ∧
      r.world = { scenario_silent_pair with objects :=
        (scenario_silent_pair.objects.map (fun m =>
          if m.address = scenario_member_dot.address then
            { scenario_member_dot with x := -1, y := 100 }
          else m)) } ∧
      r.world.objects.map (fun m => m.address) =
        scenario_silent_pair.objects.map (fun m => m.address) ∧
      (∀ m ∈ scenario_silent_pair.objects, m.address ≠ scenario_member_dot.address →
        m ∈ r.world.objects) ∧
      (scenario_member_dot.world = none → r.failed = false ∧ r.calls = []) :=
  ⟨Or.inr rfl,
    object_move_sets_position scenario_silent_pair scenario_member_dot (-1) 100
      (by decide) (by decide) (by decide) (by decide) (Or.inr rfl)⟩

/-! ## The generator claims -/

theorem rand_step (state : Nat) :
    (eetg_rand state).1 = (state * 1103515245 + 12345) % 2 ^ 32 ∧
    (eetg_rand state).2 =
      ((((eetg_rand state).1 / 65536) % 32768 : Nat) : Int) ∧
    0 ≤ (eetg_rand state).2 ∧ (eetg_rand state).2 ≤ 32767 := by
  have h1 : (eetg_rand state).1 = (state * 1103515245 + 12345) % 2 ^ 32 := by
    show ((state * 1103515245) % 2 ^ 32 + 12345) % 2 ^ 32 = _
    rw [Nat.add_mod, Nat.mod_mod, ← Nat.add_mod]
  have h2 : (eetg_rand state).2 =
      ((((eetg_rand state).1 / 65536) % 32768 : Nat) : Int) := rfl
  have h3 : ((eetg_rand state).1 / 65536) % 32768 < 32768 := Nat.mod_lt _ (by decide)
  refine ⟨h1, h2, ?_, ?_⟩
  · rw [h2]; exact Int.natCast_nonneg _
  · rw [h2]; omega

theorem rand_state_succ (seed n : Nat) :
    rand_state seed (n + 1) = (eetg_rand (rand_state seed n)).1 := rfl

theorem rand_value_eq (seed n : Nat) :
    rand_value seed n = (eetg_rand (rand_state seed n)).2 := rfl

theorem run_rand_cons_rand (state : Nat) (rest : List rand_call) :
    run_rand state (rand_call.rand :: rest) =
      ((run_rand (eetg_rand state).1 rest).1,
        (eetg_rand state).2 :: (run_rand (eetg_rand state).1 rest).2) := rfl

theorem run_rand_cons_init (state seed : Nat) (rest : List rand_call) :
    run_rand state (rand_call.init_rand seed :: rest) =
      run_rand (eetg_init_rand seed) rest := rfl

theorem run_rand_calls (seed : Nat) :
    ∀ (n done : Nat),
      (run_rand (rand_state seed done) (List.replicate n rand_call.rand)).2 =
        (List.range n).map (fun k => rand_value seed (done + k)) := by
  intro n
  induction n with
  | zero => intro done; rfl
  | succ n ih =>
    intro done
    rw [List.replicate_succ, run_rand_cons_rand, ← rand_state_succ, ← rand_value_eq]
    simp only
    rw [ih (done + 1), List.range_succ_eq_map, List.map_cons, List.map_map, Nat.add_zero]
    refine congrArg (List.cons (rand_value seed done)) ?_
    apply List.map_congr_left
    intro k _
    simp only [Function.comp]
    have : done + 1 + k = done + k.succ := by omega
    rw [this]

theorem run_rand_append (before after : List rand_call) :
    ∀ state : Nat,
      run_rand state (before ++ after) =
        ((run_rand (run_rand state before).1 after).1,
          (run_rand state before).2 ++ (run_rand (run_rand state before).1 after).2) := by
  induction before with
  | nil =>
    intro state
    show run_rand state after = ((run_rand state after).1, [] ++ (run_rand state after).2)
    rw [List.nil_append]
  | cons c rest ih =>
    intro state
    rw [List.cons_append]
    cases c with
    | init_rand seed =>
      rw [run_rand_cons_init, run_rand_cons_init, ih]
    | rand =>
      rw [run_rand_cons_rand, run_rand_cons_rand, ih]
      simp only [List.cons_append]

/-- C29: for every seed and every number `n` of earlier calls, `eetg_rand` returns a
value between 0 and `EETG_RAND_MAX`, which is 32767; the call takes the state to
`(state * 1103515245 + 12345) mod 2 ^ 32` and returns
`(state / 65536) mod 32768` of the new state; the same holds from any state; and
after `eetg_init_rand(1)` the first value is 16838. -/
theorem rand_value_in_range (seed n : Nat) :
    0 ≤ rand_value seed n ∧ rand_value seed n ≤ (EETG_RAND_MAX : Int) ∧
    EETG_RAND_MAX = 32767 ∧
    rand_state seed (n + 1) = (rand_state seed n * 1103515245 + 12345) % 2 ^ 32 ∧
    rand_value seed n = (((rand_state seed (n + 1) / 65536) % 32768 : Nat) : Int) ∧
    (∀ state : Nat,
      (eetg_rand state).1 = (state * 1103515245 + 12345) % 2 ^ 32 ∧
      0 ≤ (eetg_rand state).2 ∧ (eetg_rand state).2 ≤ 32767) ∧
    rand_value 1 0 = 16838 := by
  obtain ⟨h1, h2, h3, h4⟩ := rand_step (rand_state seed n)
  refine ⟨h3, h4, rfl, h1, h2, ?_, by decide⟩
  intro state
  obtain ⟨g1, _, g3, g4⟩ := rand_step state
  exact ⟨g1, g3, g4⟩

/-- C30: whatever the state of the generator and whatever calls were made before, the
values that `n` calls of `eetg_rand` return after `eetg_init_rand(seed)` are the values
`rand_value seed 0`, ..., `rand_value seed (n - 1)`, which depend on the seed and on
`n` only; so two runs seeded alike return the same sequence. -/
theorem rand_reproducible (state state' : Nat) (before before' : List rand_call)
    (seed n : Nat) :
    (run_rand state
        (before ++ rand_call.init_rand seed :: List.replicate n rand_call.rand)).2 =
      (run_rand state before).2 ++ (List.range n).map (rand_value seed) ∧
    (run_rand (run_rand state before).1
        (rand_call.init_rand seed :: List.replicate n rand_call.rand)).2 =
      (run_rand (run_rand state' before').1
        (rand_call.init_rand seed :: List.replicate n rand_call.rand)).2 := by
  have key : ∀ s : Nat,
      (run_rand s (rand_call.init_rand seed :: List.replicate n rand_call.rand)).2 =
        (List.range n).map (rand_value seed) := by
    intro s
    have := run_rand_calls seed n 0
    simp only [Nat.zero_add] at this
    rw [run_rand_cons_init]
    exact this
  refine ⟨?_, ?_⟩
  · rw [run_rand_append, key]
  · rw [key, key]

/-! ## The invariant claims -/

theorem scenario_init : eetg_world_init fresh_world = some fresh_world := by
  rw [world_init_eq]

theorem scenario_memory_start_reachable : reachable scenario_memory_start :=
  reachable.init fresh_world fresh_world _ scenario_init (by decide) (by decide)

theorem scenario_memory_one_reachable : reachable scenario_memory_one :=
  reachable.call scenario_memory_start _ (engine_call.add 4 9 9)
    scenario_memory_start_reachable rfl

theorem scenario_memory_two_reachable : reachable scenario_memory_two :=
  reachable.call scenario_memory_one _ (engine_call.add 3 4 0)
    scenario_memory_one_reachable rfl

theorem scenario_memory_three_reachable : reachable scenario_memory_three :=
  reachable.call scenario_memory_two _ (engine_call.remove 4)
    scenario_memory_two_reachable rfl

theorem scenario_memory_rendered_reachable : reachable scenario_memory_rendered :=
  reachable.call scenario_memory_start _ (engine_call.render true)
    scenario_memory_start_reachable (by
      have hw : scenario_memory_start.world = fresh_world := rfl
      rw [call_render, hw, scenario_second_frame_reached]
      rfl)

/-- C26: in every memory a program reaches from `eetg_world_init` by successful calls
of `eetg_world_register_collision_fn`, `eetg_world_add`, `eetg_world_remove`,
`eetg_world_clear`, `eetg_object_move` and `eetg_world_render`, the member list holds
no object twice, every address holds one struct, and an object of the memory is in the
member list if and only if its owning world is this world. -/
theorem membership_invariant (memory : engine_memory) (h : reachable memory) :
    (memory.world.objects.map (fun o => o.address)).Nodup ∧
    memory.world.objects.Nodup ∧
    ((memory.world.objects ++ memory.objects).map (fun o => o.address)).Nodup ∧
    ∀ o, o ∈ memory.world.objects ∨ o ∈ memory.objects →
      (o ∈ memory.world.objects ↔ o.world = some memory.world.address) := by
  obtain ⟨n1, n2, n3, b2, b3⟩ := reachable_coherent memory h
  refine ⟨n1, List.Nodup.of_map _ n1, ?_, ?_⟩
  · rw [List.map_append, List.nodup_append]
    refine ⟨n1, n2, ?_⟩
    intro x hx hx'
    obtain ⟨m, hm, hma⟩ := List.mem_map.1 hx
    obtain ⟨p, hp, hpa⟩ := List.mem_map.1 hx'
    exact n3 m hm p hp (by rw [hma, hpa])
  · intro o ho
    constructor
    · exact b2 o
    · intro hback
      rcases ho with ho | ho
      · exact ho
      · exact absurd hback (b3 o ho)

/-- C26 at the memory a program reaches by adding two objects and removing the first
of them: the member list holds the sprite `"abc"` alone, and the removed object is
detached. -/
theorem membership_invariant_witness :
    reachable scenario_memory_three ∧
    scenario_memory_three.world.objects = [scenario_attached_abc] ∧
    (scenario_memory_three.world.objects.map (fun o => o.address)).Nodup ∧
    scenario_memory_three.world.objects.Nodup ∧
    ((scenario_memory_three.world.objects ++ scenario_memory_three.objects).map
      (fun o => o.address)).Nodup ∧
    ∀ o, o ∈ scenario_memory_three.world.objects ∨ o ∈ scenario_memory_three.objects →
      (o ∈ scenario_memory_three.world.objects ↔
        o.world = some scenario_memory_three.world.address) :=
  ⟨scenario_memory_three_reachable, rfl,
    membership_invariant scenario_memory_three scenario_memory_three_reachable⟩

/-- C27: `eetg_world_init` leaves the current view pointer at the first buffer and the
previous view pointer at the second; in every memory a program reaches the two
pointers designate the two buffers, one each; and `eetg_world_render` returns with the
pointers exchanged, so that the buffer it has rasterised the members into is the
previous view of the next call. -/
theorem double_buffer_invariant (memory : engine_memory) (h : reachable memory) :
    memory.world.view ≠ memory.world.prev_view ∧
    (∀ sync, ∃ w', eetg_world_render memory.world sync = some w' ∧
      w'.view = memory.world.prev_view ∧ w'.prev_view = memory.world.view ∧
      w'.view ≠ w'.prev_view ∧
      w'.previous = rasterised memory.world.objects) ∧
    (∀ w w', eetg_world_init w = some w' → w'.view = false ∧ w'.prev_view = true) := by
  have hne := reachable_views memory h
  refine ⟨hne, ?_, ?_⟩
  · intro sync
    obtain ⟨w', hr, _, hv, hp, hload, _⟩ := render_result memory.world sync
    refine ⟨w', hr, hv, hp, ?_, ?_⟩
    · rw [hv, hp]
      exact fun e => hne e.symm
    · unfold eetg_world.previous
      rw [hp, hload]
  · intro w w' hinit
    rw [world_init_eq] at hinit
    injection hinit with hinit
    rw [← hinit]
    exact ⟨rfl, rfl⟩

/-- C27 at the memory of a program that has rendered one frame: the pointers are
exchanged with respect to the fresh world. -/
theorem double_buffer_invariant_witness :
    reachable scenario_memory_rendered ∧
    scenario_memory_rendered.world.view = true ∧
    scenario_memory_rendered.world.prev_view = false ∧
    scenario_memory_rendered.world.view ≠ scenario_memory_rendered.world.prev_view ∧
    (∀ sync, ∃ w', eetg_world_render scenario_memory_rendered.world sync = some w' ∧
      w'.view = scenario_memory_rendered.world.prev_view ∧
      w'.prev_view = scenario_memory_rendered.world.view ∧
      w'.view ≠ w'.prev_view ∧
      w'.previous = rasterised scenario_memory_rendered.world.objects) :=
  ⟨scenario_memory_rendered_reachable, rfl, rfl,
    (double_buffer_invariant scenario_memory_rendered
      scenario_memory_rendered_reachable).1,
    (double_buffer_invariant scenario_memory_rendered
      scenario_memory_rendered_reachable).2.1⟩

/-- C28 as stated fails: for the fresh world, which `eetg_world_init` leaves and
which has no member, `eetg_world_render` in delta mode writes 1920 characters, a space
for every cell of the grid; the cleared current view, in `EETG_FG_COLOR`, and the
initial previous view, in `EETG_BG_COLOR`, differ in colour, as at the cell of row 0
and column 0. -/
theorem fresh_delta_writes_every_cell :
    eetg_world_init fresh_world = some fresh_world ∧ fresh_world.objects = [] ∧
    (rasterised fresh_world.objects).cell 0 0 = { c := SPACE, color := EETG_FG_COLOR } ∧
    fresh_world.previous.cell 0 0 = { c := SPACE, color := EETG_BG_COLOR } ∧
    (rasterised fresh_world.objects).cell 0 0 ≠ fresh_world.previous.cell 0 0 ∧
    ∃ w', eetg_world_render fresh_world false = some w' ∧
      char_writes w'.written = List.replicate 1920 SPACE := by
  obtain ⟨w0, w', out, hinit, _, _, hrender, hout, hchars, hcells⟩ :=
    fresh_delta_writes_all fresh_world
  rw [scenario_init] at hinit
  injection hinit with hinit
  subst hinit
  refine ⟨scenario_init, rfl, (hcells 0 0 (by decide) (by decide)).1,
    (hcells 0 0 (by decide) (by decide)).2, ?_, w', hrender, ?_⟩
  · rw [(hcells 0 0 (by decide) (by decide)).1, (hcells 0 0 (by decide) (by decide)).2]
    decide
  · rw [hout, hchars]
    rfl

/-- C28, amended: for a freshly initialised world, which has no member, the cleared
current view equals the initial previous view in every cell in character, a space,
but not in colour, `EETG_FG_COLOR` against `EETG_BG_COLOR`, so that a first
`eetg_world_render` in delta mode writes a space for every cell of the grid; once a
first `eetg_world_render` has been made, in either mode, `eetg_world_render` in delta
mode writes nothing to the output sink, the cleared current view being equal to the
previous view in every cell, in character and in colour. -/
theorem fresh_world_delta_silent_after_first_frame (world initialised : eetg_world)
    (sync : Bool) (hinit : eetg_world_init world = some initialised) :
    initialised.objects = [] ∧
    (∀ r c, r < EETG_ROWS → c < EETG_COLUMNS →
      ((rasterised initialised.objects).cell r c).c = SPACE ∧
      (initialised.previous.cell r c).c = SPACE ∧
      ((rasterised initialised.objects).cell r c).color = EETG_FG_COLOR ∧
      (initialised.previous.cell r c).color = EETG_BG_COLOR) ∧
    (∃ first, eetg_world_render initialised false = some first ∧
      char_writes first.written = List.replicate (EETG_ROWS * EETG_COLUMNS) SPACE) ∧
    ∃ first second, eetg_world_render initialised sync = some first ∧
      first.objects = [] ∧
      (∀ r c, r < EETG_ROWS → c < EETG_COLUMNS →
        (rasterised first.objects).cell r c = first.previous.cell r c) ∧
      eetg_world_render first false = some second ∧
      second.written = first.written ∧
      char_writes second.written = char_writes first.written := by
  obtain ⟨w0, w', out, hinit0, hobj, _, hrender, hout, hchars, hcells⟩ :=
    fresh_delta_writes_all world
  rw [hinit] at hinit0
  injection hinit0 with hinit0
  subst hinit0
  obtain ⟨first, second, h1, h2, hwritten, hobj1, hprev1⟩ :=
    render_twice_silent initialised sync
  refine ⟨hobj, ?_, ⟨w', hrender, by rw [hout, hchars]⟩, first, second, h1,
    by rw [hobj1, hobj], ?_, h2, hwritten, by rw [hwritten]⟩
  · intro r c hr hc
    obtain ⟨ha, hb⟩ := hcells r c hr hc
    rw [ha, hb]
    exact ⟨rfl, rfl, rfl, rfl⟩
  · intro r c _ _
    rw [hprev1]

/-- C28, amended, at the fresh world: the first frame in delta mode writes 1920
spaces, and a delta frame that follows a first frame in sync mode writes nothing. -/
theorem fresh_world_delta_silent_after_first_frame_witness :
    eetg_world_init fresh_world = some fresh_world ∧
    EETG_FG_COLOR ≠ EETG_BG_COLOR ∧
    (∃ first, eetg_world_render fresh_world false = some first ∧
      char_writes first.written = List.replicate (EETG_ROWS * EETG_COLUMNS) SPACE) ∧
    ∃ first second, eetg_world_render fresh_world true = some first ∧
      first.objects = [] ∧
      (∀ r c, r < EETG_ROWS → c < EETG_COLUMNS →
        (rasterised first.objects).cell r c = first.previous.cell r c) ∧
      eetg_world_render first false = some second ∧
      second.written = first.written ∧
      char_writes second.written = char_writes first.written :=
  ⟨scenario_init, by decide,
    (fresh_world_delta_silent_after_first_frame fresh_world fresh_world true
      scenario_init).2.2.1,
    (fresh_world_delta_silent_after_first_frame fresh_world fresh_world true
      scenario_init).2.2.2⟩
/-! ## The behaviour claims -/

/-- C33: for all objects `A` and `B`, `eetg_object_check_collision(A, B)` and
`eetg_object_check_collision(B, A)` fail an assertion together and otherwise make the
same handler calls, at the same cell; so the one calls the handler if and only if the
other does. -/
theorem check_collision_symmetric (a b : eetg_object) :
    eetg_object_check_collision a b = eetg_object_check_collision b a ∧
    (∀ p, (∃ cells, eetg_object_check_collision a b = some cells ∧ p ∈ cells) ↔
      (∃ cells, eetg_object_check_collision b a = some cells ∧ p ∈ cells)) := by
  refine ⟨check_collision_comm a b, ?_⟩
  intro p
  rw [check_collision_comm a b]

/-- C31: for two objects with well-formed sprites, every cell that
`eetg_object_check_collision` visits lies in both bounding boxes, and there
`eetg_object_get_cell` returns, for either object, an index that is not the sentinel
`-1` and lies within the sprite text; the cell passed to the handler is a visited cell
at which the character at that index, in either sprite, is a glyph other than a space
(and than a line break). -/
theorem check_collision_visits_inside (a b : eetg_object) (ha : well_formed_sprite a)
    (hb : well_formed_sprite b) :
    (∀ p ∈ eetg_object_check_collision_visits a b,
      in_box a p.1 p.2 ∧ in_box b p.1 p.2 ∧
      eetg_object_get_cell a p.1 p.2 ≠ -1 ∧ eetg_object_get_cell b p.1 p.2 ≠ -1 ∧
      0 ≤ eetg_object_get_cell a p.1 p.2 ∧
      eetg_object_get_cell a p.1 p.2 < (a.sprite.length : Int) ∧
      0 ≤ eetg_object_get_cell b p.1 p.2 ∧
      eetg_object_get_cell b p.1 p.2 < (b.sprite.length : Int)) ∧
    (∀ cells, eetg_object_check_collision a b = some cells → ∀ p ∈ cells,
      p ∈ eetg_object_check_collision_visits a b ∧
      sprite_at a.sprite (eetg_object_get_cell a p.1 p.2) ≠ SPACE ∧
      sprite_at a.sprite (eetg_object_get_cell a p.1 p.2) ≠ NEWLINE ∧
      sprite_at b.sprite (eetg_object_get_cell b p.1 p.2) ≠ SPACE ∧
      sprite_at b.sprite (eetg_object_get_cell b p.1 p.2) ≠ NEWLINE) := by
  have hvisit : ∀ p ∈ eetg_object_check_collision_visits a b,
      in_box a p.1 p.2 ∧ in_box b p.1 p.2 := fun p hp => visits_in_boxes a b p hp
  refine ⟨?_, ?_⟩
  · intro p hp
    obtain ⟨hina, hinb⟩ := hvisit p hp
    obtain ⟨_, a1, a2⟩ := get_cell_of_in_box a p.1 p.2 hina
    obtain ⟨_, b1, b2⟩ := get_cell_of_in_box b p.1 p.2 hinb
    exact ⟨hina, hinb, a2, b2, a1, (get_cell_in_range a p.1 p.2 ha hina).1, b1,
      (get_cell_in_range b p.1 p.2 hb hinb).1⟩
  · intro cells hcells p hp
    have hv := calls_visited a b cells hcells p hp
    obtain ⟨hina, hinb⟩ := hvisit p hv
    obtain ⟨hyes, hno⟩ := check_collision_calls a b ha hb
    have hsolid : both_solid a b p.1 p.2 := by
      by_cases hov : glyphs_overlap a b
      · obtain ⟨px, py, hs, _, hc⟩ := hyes hov
        rw [hc] at hcells
        injection hcells with hcells
        rw [← hcells] at hp
        have : p = (px, py) := by simpa using hp
        rw [this]
        exact hs
      · rw [hno hov] at hcells
        injection hcells with hcells
        rw [← hcells] at hp
        exact absurd hp (by simp)
    have ga := glyph_printable a p.1 p.2 ha hina
    have gb := glyph_printable b p.1 p.2 hb hinb
    rw [(get_cell_in_range a p.1 p.2 ha hina).2, (get_cell_in_range b p.1 p.2 hb hinb).2]
    have hN : NEWLINE = 10 := rfl
    refine ⟨hv, hsolid.2.2.1, by omega, hsolid.2.2.2, by omega⟩

/-- C31 at the sprites `"abc"` at `(0, 0)` and `" x "` at `(1, 0)`: the cells visited
are `(1, 0)` and `(2, 0)`, and the handler is passed `(2, 0)`. -/
theorem check_collision_visits_inside_witness :
    well_formed_sprite scenario_abc ∧ well_formed_sprite scenario_x ∧
    eetg_object_check_collision_visits scenario_abc scenario_x = [(1, 0), (2, 0)] ∧
    eetg_object_check_collision scenario_abc scenario_x = some [(2, 0)] ∧
    eetg_object_get_cell scenario_abc 2 0 = 2 ∧ eetg_object_get_cell scenario_x 2 0 = 1 ∧
    ∀ p ∈ eetg_object_check_collision_visits scenario_abc scenario_x,
      in_box scenario_abc p.1 p.2 ∧ in_box scenario_x p.1 p.2 ∧
      eetg_object_get_cell scenario_abc p.1 p.2 ≠ -1 ∧
      eetg_object_get_cell scenario_x p.1 p.2 ≠ -1 ∧
      0 ≤ eetg_object_get_cell scenario_abc p.1 p.2 ∧
      eetg_object_get_cell scenario_abc p.1 p.2 < (scenario_abc.sprite.length : Int) ∧
      0 ≤ eetg_object_get_cell scenario_x p.1 p.2 ∧
      eetg_object_get_cell scenario_x p.1 p.2 < (scenario_x.sprite.length : Int) :=
  ⟨by decide, by decide, by decide, by decide, by decide, by decide,
    (check_collision_visits_inside scenario_abc scenario_x (by decide) (by decide)).1⟩


set_option maxRecDepth 100000 in
/-- C34 fails on the code: `eetg_world_write_char` at the cached cursor `(23, 79)`, the
last cell of the grid, leaves the cached row at 24 and the cached column at 0, since
its clamp compares the row to `EETG_ROWS`, not to `EETG_ROWS - 1`.  A render reaches
that state: for a world whose only member is a one-cell object at column 79 of row 23,
`eetg_world_render` in sync mode writes that cell last, and the state `s` it is in
after that `eetg_world_write_char`, before the final `eetg_world_set_cursor` and the
exchange of the views, has the cached cursor `(24, 0)`, which is no cell of the grid. -/
theorem write_char_at_last_cell_leaves_grid :
    (eetg_world_write_char { fresh_world with cursor_row := 23, cursor_column := 79 } 35
      ).cursor_row = 24 ∧
    (eetg_world_write_char { fresh_world with cursor_row := 23, cursor_column := 79 } 35
      ).cursor_column = 0 ∧
    ∃ positioned s,
      eetg_world_set_cursor (sync_header (rasterised_world scenario_corner)) 23 79 =
        some positioned ∧
      s = eetg_world_write_char (eetg_world_set_color positioned EETG_FG_COLOR false) 35 ∧
      eetg_world_render scenario_corner true =
        (eetg_world_set_cursor s 0 0).map eetg_world_swap_views ∧
      s.cursor_row = 24 ∧ s.cursor_column = 0 ∧ ¬ s.cursor_row < (EETG_ROWS : Int) := by
  refine ⟨by decide, by decide, ?_⟩
  obtain ⟨positioned, hpos, _, hrow, hcol, _⟩ :=
    set_cursor_effect (sync_header (rasterised_world scenario_corner)) 23 79
      (by decide) (by decide)
  have hput : put_cell (sync_header (rasterised_world scenario_corner)) 23 79
      { c := 35, color := EETG_FG_COLOR } =
      eetg_world_write_char (eetg_world_set_color positioned EETG_FG_COLOR false) 35 := by
    unfold put_cell
    rw [hpos]
  obtain ⟨_, hrow2, hcol2⟩ := set_color_effect positioned EETG_FG_COLOR false
  obtain ⟨hr, hc, _⟩ := write_char_effect
    (eetg_world_set_color positioned EETG_FG_COLOR false) 35 23 79 (by decide) (by decide)
    (by rw [hrow2, hrow]) (by rw [hcol2, hcol])
  have hr24 : (eetg_world_write_char
      (eetg_world_set_color positioned EETG_FG_COLOR false) 35).cursor_row = 24 := by
    rw [hr]; decide
  have hc0 : (eetg_world_write_char
      (eetg_world_set_color positioned EETG_FG_COLOR false) 35).cursor_column = 0 := by
    rw [hc]; decide
  refine ⟨positioned, _, hpos, rfl, ?_, hr24, hc0, ?_⟩
  · rw [render_eq]
    simp only [if_true, rasterised_world_current]
    have h := scenario_corner_non_space_cells
    unfold non_space_cells at h
    rw [h]
    show some (eetg_world_swap_views (cursor_home (put_cell
      (sync_header (rasterised_world scenario_corner)) 23 79
      { c := 35, color := EETG_FG_COLOR }))) = _
    rw [hput]
    unfold cursor_home
    obtain ⟨w0, hw0, _⟩ := set_cursor_effect (eetg_world_write_char
      (eetg_world_set_color positioned EETG_FG_COLOR false) 35) 0 0 (by decide) (by decide)
    have hw0' : eetg_world_set_cursor (eetg_world_write_char
        (eetg_world_set_color positioned EETG_FG_COLOR false) 35) 0 0 = some w0 := hw0
    rw [hw0']
    rfl
  · rw [hr24]; decide

set_option maxRecDepth 100000 in
/-- C35 fails on the code: in a world whose members are one-cell objects at `(6, 5)`
and `(5, 5)`, `eetg_world_add` of the object `"##"` at `(5, 5)` scans the members for
it.  The handler is invoked for the member at `(6, 5)` with the object attached, and
removes the object from the world; the scan goes on to the next member and invokes
the handler again with the object as first argument, `object1->world` being `NULL`
at that moment.  With a handler that removes its first object unconditionally, that
second invocation fails the assertion of `eetg_world_remove`; with one that tests the
owner first, the scan returns after the two invocations. -/
theorem scan_invokes_handler_with_detached_object :
    scenario_two_targets.world.address = 0 ∧
    (eetg_world_add_with scenario_removing_handler 3 scenario_two_targets 7 5 5).ending =
      scan_ending.assertion_failed ∧
    (eetg_world_add_with scenario_removing_handler 3 scenario_two_targets 7 5 5
      ).invocations =
      [{ call := { object1 := 7, object2 := 6, x := 6, y := 5, arg := 0 }
         object1_world := some 0, object2_world := some 0 },
       { call := { object1 := 7, object2 := 5, x := 5, y := 5, arg := 0 }
         object1_world := none, object2_world := some 0 }] ∧
    (eetg_world_add_with scenario_tolerant_handler 3 scenario_two_targets 7 5 5).ending =
      scan_ending.returned ∧
    (eetg_world_add_with scenario_tolerant_handler 3 scenario_two_targets 7 5 5
      ).invocations =
      [{ call := { object1 := 7, object2 := 6, x := 6, y := 5, arg := 0 }
         object1_world := some 0, object2_world := some 0 },
       { call := { object1 := 7, object2 := 5, x := 5, y := 5, arg := 0 }
         object1_world := none, object2_world := some 0 }] := by
  refine ⟨rfl, ?_, ?_, ?_, ?_⟩ <;> decide

set_option maxRecDepth 100000 in
/-- C36 fails on the code: in a game whose only live alien is the last one of the first
group, in column 9, `ei_game_select_firing_alien` counts one column with a live alien,
draws `index = eetg_rand() % 1 = 0` and then looks for a live alien in column 0, the
column of that index, where there is none: it returns no alien although an alien is
alive, whatever the state of the generator. -/
theorem select_firing_alien_misses_live_alien :
    ei_alien_is_dead scenario_last_alien.memory 109 = some false ∧
    scenario_last_alien.aliens.head?.bind (fun group => ei_alien_group_get group 9) =
      some 109 ∧
    select_firing_alien_count scenario_last_alien EI_ALIEN_GROUP_SIZE 0 0 = some 1 ∧
    (ei_game_select_firing_alien scenario_last_alien).map (fun result => result.1) =
      some none ∧
    ∀ next : Nat,
      (ei_game_select_firing_alien { scenario_last_alien with eetg_rand_next := next }).map
        (fun result => result.1) = some none := by
  refine ⟨by decide, by decide, by decide, by decide, ?_⟩
  intro next
  have hcount : select_firing_alien_count
      { scenario_last_alien with eetg_rand_next := next } EI_ALIEN_GROUP_SIZE 0 0 =
      some 1 := by
    have h : select_firing_alien_count scenario_last_alien EI_ALIEN_GROUP_SIZE 0 0 =
        some 1 := by decide
    exact h
  unfold ei_game_select_firing_alien
  rw [hcount]
  simp only [Int.emod_one]
  have hpick : select_firing_alien_pick scenario_last_alien.memory (0 : Int).toNat
      scenario_last_alien.aliens.reverse = some none := by decide
  have hpos : (1 : Int) > 0 := by decide
  rw [if_pos hpos]
  rw [hpick]
  rfl

/-- C37: when `ei_game_kill_alien` returns with `d` dead aliens, `1 <= d < 50`, the new
`aliens_speed_counter_reload` is `EI_FPS / clamp(d / 2, EI_FPS / 5, 4 * EI_FPS / 5)`,
the divisor is not zero, and the reload lies between 2 and 5; and that value does not
increase with the number of dead aliens. -/
theorem kill_alien_speed_reload (game after : ei_game) (alien : Nat)
    (hkill : ei_game_kill_alien game alien = some after)
    (h1 : 1 ≤ after.nr_dead_aliens) (h50 : after.nr_dead_aliens < 50) :
    after.aliens_speed_counter_reload = speed_reload after.nr_dead_aliens ∧
    clamp (after.nr_dead_aliens / 2) (EI_FPS / 5) (4 * EI_FPS / 5) ≠ 0 ∧
    2 ≤ after.aliens_speed_counter_reload ∧ after.aliens_speed_counter_reload ≤ 5 ∧
    (∀ d d' : Int, 1 ≤ d → d ≤ d' → d' < 50 → speed_reload d' ≤ speed_reload d) := by
  obtain ⟨htable, hdivisor, hcode⟩ := speed_reload_table after.nr_dead_aliens h1 h50
  have hreload := kill_alien_after game after alien hkill (by omega)
  rw [hcode] at hreload
  refine ⟨hreload, hdivisor, ?_, ?_, ?_⟩
  · rw [hreload, htable]; split_ifs <;> decide
  · rw [hreload, htable]; split_ifs <;> decide
  · intro d d' hd hdd hd'
    rw [(speed_reload_table d hd (by omega)).1, (speed_reload_table d' (by omega) hd').1]
    split_ifs <;> omega

set_option maxRecDepth 100000 in
/-- C37 at a game with forty dead aliens in which the last alien of the first group is
killed: 41 aliens are dead, the speed is `41 / 2 = 20` and the reload is
`50 / 20 = 2`. -/
theorem kill_alien_speed_reload_witness :
    ∃ after, ei_game_kill_alien scenario_first_group 109 = some after ∧
      after.nr_dead_aliens = 41 ∧ speed_reload 41 = 2 ∧
      after.aliens_speed_counter_reload = speed_reload after.nr_dead_aliens ∧
      2 ≤ after.aliens_speed_counter_reload ∧ after.aliens_speed_counter_reload ≤ 5 := by
  have hsome : (ei_game_kill_alien scenario_first_group 109).isSome = true := by decide
  obtain ⟨after, hafter⟩ := Option.isSome_iff_exists.1 hsome
  have hdead : (ei_game_kill_alien scenario_first_group 109).map
      (fun g => g.nr_dead_aliens) = some 41 := by decide
  rw [hafter] at hdead
  have hd : after.nr_dead_aliens = 41 := by simpa using hdead
  have h := kill_alien_speed_reload scenario_first_group after 109 hafter
    (by rw [hd]; decide) (by rw [hd]; decide)
  exact ⟨after, hafter, hd, by decide, h.1, h.2.2.1, h.2.2.2.1⟩

/-- C38: in a run of calls of `ei_game_process` that starts after `ei_game_init`, the
call number `k + 1` passes `sync = true` to `eetg_world_render` if and only if `k` is
a multiple of `EI_FPS * 2 = 100` (calls 1, 101, 201, ...), and `sync = false`
otherwise; the counter it leaves is `100 - k % 100`, between 1 and 100, so that the
decrement of the next call, like the one of the first call from 1, is not negative
and is kept by the 8-bit field, as is the reload value 100.  The arms of the states
`EI_STATE_PREPARED` and `EI_STATE_PLAYING` are any code that leaves the two counters
alone. -/
theorem process_syncs_every_hundredth_call (arms : ei_game_arms)
    (harms : keeps_sync_counters arms) (game after : ei_game) (inputs : List Int)
    (frames : List (Bool × Int))
    (hrun : run_process arms (ei_game_init game) inputs = some (frames, after)) :
    (ei_game_init game).sync_counter = 1 ∧
    (ei_game_init game).sync_counter_reload = EI_FPS * 2 ∧
    to_int8 ((ei_game_init game).sync_counter - 1) = 0 ∧
    frames.length = inputs.length ∧
    ∀ k, k < frames.length →
      ∃ sync counter, frames.get? k = some (sync, counter) ∧
        (sync = true ↔ k % 100 = 0) ∧
        counter = 100 - ((k % 100 : Nat) : Int) ∧ 1 ≤ counter ∧ counter ≤ 100 ∧
        0 ≤ counter - 1 ∧ to_int8 (counter - 1) = counter - 1 := by
  have hreload : (ei_game_init game).sync_counter_reload = 100 := rfl
  have hcounter : (ei_game_init game).sync_counter = 100 - ((99 : Nat) : Int) := rfl
  obtain ⟨hlen, hframes⟩ := run_process_frames arms harms inputs (ei_game_init game) 99
    frames after (by decide) hreload hcounter hrun
  refine ⟨rfl, rfl, rfl, hlen, ?_⟩
  intro k hk
  have hmod : (99 + 1 + k) % 100 = k % 100 := by omega
  have hlt : k % 100 < 100 := Nat.mod_lt _ (by decide)
  refine ⟨_, _, hframes k hk, ?_, ?_, ?_, ?_, ?_, ?_⟩
  · rw [hmod]; simp
  · rw [hmod]
  · omega
  · omega
  · omega
  · exact to_int8_of_range _ (by omega) (by omega)

/-- C38 at a game struct with arbitrary counters, initialised and then processed 101
times in the state `EI_STATE_INTRO` with no key pressed: the calls 1 and 101 repaint
in full, the calls 2 and 100 do not. -/
theorem process_syncs_every_hundredth_call_witness :
    keeps_sync_counters scenario_arms ∧
    ∃ frames after,
      run_process scenario_arms (ei_game_init scenario_raw_game)
        (List.replicate 101 (-1)) = some (frames, after) ∧
      frames.length = 101 ∧
      frames.get? 0 = some (true, 100) ∧ frames.get? 1 = some (false, 99) ∧
      frames.get? 99 = some (false, 1) ∧ frames.get? 100 = some (true, 100) := by
  have harms : keeps_sync_counters scenario_arms := by
    intro game c leave after h
    unfold scenario_arms at h
    simp only [Option.some.injEq, Prod.mk.injEq] at h
    rw [← h.2]
    exact ⟨rfl, rfl⟩
  obtain ⟨frames, after, hrun⟩ := run_process_intro_total scenario_arms 101
    (ei_game_init scenario_raw_game) rfl
  have h := process_syncs_every_hundredth_call scenario_arms harms scenario_raw_game after
    (List.replicate 101 (-1)) frames hrun
  obtain ⟨_, _, _, hlen, hframes⟩ := h
  have hlen' : frames.length = 101 := by rw [hlen]; rfl
  have hat : ∀ k, k < 101 → ∀ sync counter, (sync = true ↔ k % 100 = 0) →
      counter = 100 - ((k % 100 : Nat) : Int) → frames.get? k = some (sync, counter) := by
    intro k hk sync counter hs hc
    obtain ⟨s, v, hget, hs', hv, _⟩ := hframes k (by omega)
    rw [hget, hv, hc]
    have : s = sync := by
      cases s <;> cases sync <;> simp_all
    rw [this]
  exact ⟨harms, frames, after, hrun, hlen',
    hat 0 (by decide) true 100 (by decide) (by decide),
    hat 1 (by decide) false 99 (by decide) (by decide),
    hat 99 (by decide) false 1 (by decide) (by decide),
    hat 100 (by decide) true 100 (by decide) (by decide)⟩
end Eetg
